import Mathlib

/-!
# Task synchronisation of the work-schedule system

A shallow embedding of the task store of `src/server/server.js` (the JSON-file backed HTTP
handlers) and of the client task collection of `src/assets/js/app.js` (optimistic edits and the
periodic merge), together with the properties the specification states about them.

Modelling conventions.

* A JSON value is a `JVal`; a JavaScript number is an integer (`Int`): fractional numbers and
  magnitudes beyond the exactly representable range are outside the model.
* A record (a JavaScript object) is the list of its own properties in insertion order. Reading a
  missing property gives `none` (JavaScript `undefined`). A key bound twice in the list is read as
  `JSON.parse` reads a repeated key: the later binding wins. The reordering of integer-like keys
  is not modelled.
* The clock, `Math.random()` and the module-level `taskIdCounter` are carried in an explicit `Env`:
  every reading of the clock and every random draw consumes the next outcome of an arbitrary
  sequence.
* The tasks file is reliable storage: a read returns the stored array, a write replaces it.
  The stored array and the lists the client receives hold objects only.
* A thrown `TypeError` is an explicit error result; the handlers turn it into a 500 response.
* On the client, `a > b` compares two numbers as numbers; the outcome of the language's coercing
  comparison on any other pair of values is a parameter (`coerced`) of the merge, and every
  statement about the merge holds for every such parameter.
-/

namespace WorkSchedule

/-! ## JSON values and records -/

/-- JSON values, as produced by `JSON.parse`. -/
inductive JVal where
  | null
  | bool (b : Bool)
  | num (n : Int)
  | str (s : String)
  | arr (items : List JVal)
  | obj (fields : List (String × JVal))

/-- A record: the own properties of a JavaScript object, in insertion order. -/
abbrev Obj := List (String × JVal)

mutual
/-- Structural equality of JSON values. -/
def JVal.beq : JVal → JVal → Bool
  | .null, .null => true
  | .bool a, .bool b => a == b
  | .num a, .num b => a == b
  | .str a, .str b => a == b
  | .arr a, .arr b => JVal.beqList a b
  | .obj a, .obj b => JVal.beqFields a b
  | _, _ => false
/-- Structural equality of arrays of JSON values. -/
def JVal.beqList : List JVal → List JVal → Bool
  | [], [] => true
  | a :: as, b :: bs => JVal.beq a b && JVal.beqList as bs
  | _, _ => false
/-- Structural equality of property lists. -/
def JVal.beqFields : List (String × JVal) → List (String × JVal) → Bool
  | [], [] => true
  | (k, a) :: as, (l, b) :: bs => k == l && JVal.beq a b && JVal.beqFields as bs
  | _, _ => false
end

mutual
/-- Decidable equality of JSON values. -/
def JVal.decEq : (a b : JVal) → Decidable (a = b)
  | .null, .null => isTrue rfl
  | .bool x, .bool y =>
    if h : x = y then isTrue (congrArg JVal.bool h) else isFalse (fun e => h (JVal.bool.inj e))
  | .num x, .num y =>
    if h : x = y then isTrue (congrArg JVal.num h) else isFalse (fun e => h (JVal.num.inj e))
  | .str x, .str y =>
    if h : x = y then isTrue (congrArg JVal.str h) else isFalse (fun e => h (JVal.str.inj e))
  | .arr x, .arr y =>
    match JVal.decEqList x y with
    | isTrue h => isTrue (congrArg JVal.arr h)
    | isFalse h => isFalse (fun e => h (JVal.arr.inj e))
  | .obj x, .obj y =>
    match JVal.decEqFields x y with
    | isTrue h => isTrue (congrArg JVal.obj h)
    | isFalse h => isFalse (fun e => h (JVal.obj.inj e))
  | .null, .bool _ => isFalse nofun
  | .null, .num _ => isFalse nofun
  | .null, .str _ => isFalse nofun
  | .null, .arr _ => isFalse nofun
  | .null, .obj _ => isFalse nofun
  | .bool _, .null => isFalse nofun
  | .bool _, .num _ => isFalse nofun
  | .bool _, .str _ => isFalse nofun
  | .bool _, .arr _ => isFalse nofun
  | .bool _, .obj _ => isFalse nofun
  | .num _, .null => isFalse nofun
  | .num _, .bool _ => isFalse nofun
  | .num _, .str _ => isFalse nofun
  | .num _, .arr _ => isFalse nofun
  | .num _, .obj _ => isFalse nofun
  | .str _, .null => isFalse nofun
  | .str _, .bool _ => isFalse nofun
  | .str _, .num _ => isFalse nofun
  | .str _, .arr _ => isFalse nofun
  | .str _, .obj _ => isFalse nofun
  | .arr _, .null => isFalse nofun
  | .arr _, .bool _ => isFalse nofun
  | .arr _, .num _ => isFalse nofun
  | .arr _, .str _ => isFalse nofun
  | .arr _, .obj _ => isFalse nofun
  | .obj _, .null => isFalse nofun
  | .obj _, .bool _ => isFalse nofun
  | .obj _, .num _ => isFalse nofun
  | .obj _, .str _ => isFalse nofun
  | .obj _, .arr _ => isFalse nofun
/-- Decidable equality of arrays of JSON values. -/
def JVal.decEqList : (a b : List JVal) → Decidable (a = b)
  | [], [] => isTrue rfl
  | [], _ :: _ => isFalse nofun
  | _ :: _, [] => isFalse nofun
  | a :: as, b :: bs =>
    match JVal.decEq a b, JVal.decEqList as bs with
    | isTrue h, isTrue hs => isTrue (by rw [h, hs])
    | isFalse h, _ => isFalse (fun e => h (List.cons.inj e).1)
    | _, isFalse hs => isFalse (fun e => hs (List.cons.inj e).2)
/-- Decidable equality of property lists. -/
def JVal.decEqFields : (a b : List (String × JVal)) → Decidable (a = b)
  | [], [] => isTrue rfl
  | [], _ :: _ => isFalse nofun
  | _ :: _, [] => isFalse nofun
  | (k, a) :: as, (l, b) :: bs =>
    if hk : k = l then
      match JVal.decEq a b, JVal.decEqFields as bs with
      | isTrue h, isTrue hs => isTrue (by rw [hk, h, hs])
      | isFalse h, _ => isFalse (fun e => h (Prod.mk.inj (List.cons.inj e).1).2)
      | _, isFalse hs => isFalse (fun e => hs (List.cons.inj e).2)
    else isFalse (fun e => hk (Prod.mk.inj (List.cons.inj e).1).1)
end

instance : DecidableEq JVal := JVal.decEq

/-- JavaScript truthiness of a property read (`none` is `undefined`). -/
def truthy : Option JVal → Bool
  | none => false
  | some .null => false
  | some (.bool b) => b
  | some (.num n) => n != 0
  | some (.str s) => s != ""
  | some (.arr _) => true
  | some (.obj _) => true

/-- The test `typeof v === 'number'`. -/
def isNumber : Option JVal → Bool
  | some (.num _) => true
  | _ => false

/-- The strict comparison `a === b` of two property reads on the server. Arrays and objects
are compared structurally: the handlers only compare a value with a copy of the same reference
or with a fresh primitive, where both comparisons agree. -/
def strictEq : Option JVal → Option JVal → Bool
  | none, none => true
  | some a, some b => JVal.beq a b
  | _, _ => false

/-- The test `id.startsWith('t_new_')` on a string. -/
def startsWithTNew (s : String) : Bool :=
  "t_new_".toList.isPrefixOf s.toList

namespace Obj

/-- Property read `o[k]`; `none` when the record has no such property. -/
def get : Obj → String → Option JVal
  | [], _ => none
  | (k', v) :: rest, k => (get rest k).or (if k' = k then some v else none)

/-- Whether the record has the own property `k`. -/
def has (o : Obj) (k : String) : Bool :=
  o.any (fun e => e.1 == k)

/-- Assignment `o[k] = v`: an existing property keeps its place, a new one goes last. -/
def set (o : Obj) (k : String) (v : JVal) : Obj :=
  if o.has k then o.map (fun e => if e.1 = k then (k, v) else e) else o ++ [(k, v)]

/-- The statement `delete o[k]`. -/
def del (o : Obj) (k : String) : Obj :=
  o.filter (fun e => e.1 != k)

/-- The spread `{ ...base, ...src }`: the properties of `src` are assigned onto `base` in order. -/
def spread (base src : Obj) : Obj :=
  src.foldl (fun acc e => set acc e.1 e.2) base

/-- The property names of a record. -/
def keys (o : Obj) : List String :=
  o.map Prod.fst

end Obj

/-! ## Clock, random source and the rolling counter -/

/-- What the code derives from one call of `Math.random()`. -/
structure RandomDraw where
  /-- The value `Math.floor(x * 1000000)`, read modulo 1000000. -/
  million : Nat
  /-- The value `x.toString(36).substr(2, 9)`. -/
  base36 : String

/-- The environment of the server process. -/
structure Env where
  /-- The outcome of the `k`-th reading of the clock, in milliseconds since the epoch. -/
  clock : Nat → Nat
  /-- The outcome of the `k`-th call of `Math.random()`. -/
  random : Nat → RandomDraw
  /-- How many clock readings have been made. -/
  clockReads : Nat
  /-- How many random draws have been made. -/
  randomDraws : Nat
  /-- The module variable `taskIdCounter`. -/
  taskIdCounter : Nat

namespace Env

/-- One reading of the clock (`Date.now()` or `new Date()`). -/
def dateNow (env : Env) : Nat × Env :=
  (env.clock env.clockReads, { env with clockReads := env.clockReads + 1 })

/-- One call of `Math.random()`. -/
def mathRandom (env : Env) : RandomDraw × Env :=
  (env.random env.randomDraws, { env with randomDraws := env.randomDraws + 1 })

/-- The statement `taskIdCounter = (taskIdCounter + 1) % 10000`. -/
def bumpCounter (env : Env) : Env :=
  { env with taskIdCounter := (env.taskIdCounter + 1) % 10000 }

end Env

/-- Decimal rendering of `n`, left-padded with zeros to `width` characters. -/
def padZero (width n : Nat) : String :=
  String.mk (List.replicate (width - (toString n).length) '0') ++ toString n

/-- Year, month and day of the `z`-th day after 1970-01-01 (proleptic Gregorian calendar). -/
def civilFromDays (z : Nat) : Nat × Nat × Nat :=
  let z := z + 719468
  let era := z / 146097
  let doe := z % 146097
  let yoe := (doe - doe / 1460 + doe / 36524 - doe / 146096) / 365
  let doy := doe - (365 * yoe + yoe / 4 - yoe / 100)
  let mp := (5 * doy + 2) / 153
  let d := doy - (153 * mp + 2) / 5 + 1
  let m := if mp < 10 then mp + 3 else mp - 9
  let y := yoe + era * 400
  (if m ≤ 2 then y + 1 else y, m, d)

/-- The built-in `Date.prototype.toISOString` at `ms` milliseconds since the epoch. -/
def toISOString (ms : Nat) : String :=
  let rem := ms % 86400000
  let ymd := civilFromDays (ms / 86400000)
  let year := if ymd.1 ≤ 9999 then padZero 4 ymd.1 else "+" ++ padZero 6 ymd.1
  year ++ "-" ++ padZero 2 ymd.2.1 ++ "-" ++ padZero 2 ymd.2.2 ++ "T"
    ++ padZero 2 (rem / 3600000) ++ ":" ++ padZero 2 (rem / 60000 % 60) ++ ":"
    ++ padZero 2 (rem / 1000 % 60) ++ "." ++ padZero 3 (rem % 1000) ++ "Z"

/-! ## Server: identifier minting and normalisation (`server.js`) -/

/-- The test `existingIds.includes(v)` (and `Map.prototype.has` on a list of seen keys). -/
def includes (existingIds : List (Option JVal)) (v : Option JVal) : Bool :=
  existingIds.any (fun w => strictEq w v)

/-- The candidate identifier of one loop iteration of `generateUniqueTaskId`. -/
def candidateId (timestamp : Nat) (r : RandomDraw) (counter : Nat) : String :=
  "t_" ++ toString timestamp ++ "_" ++ toString (r.million % 1000000) ++ "_" ++ toString counter

/-- The identifier of the branch taken once `attempts > 100`. -/
def fallbackId (timestamp : Nat) (r : RandomDraw) (now : Nat) : String :=
  "t_" ++ toString timestamp ++ "_" ++ r.base36 ++ "_" ++ toString now

/-- The `do ... while` loop of `generateUniqueTaskId`; `left` is the number of iterations that
may still end with `attempts ≤ 100` (so `attempts = 100 - left` on entry). -/
def generateLoop (existingIds : List (Option JVal)) : Nat → Env → String × Env
  | 0, env =>
    let (timestamp, e1) := env.dateNow
    let (_, e2) := e1.mathRandom
    let e3 := e2.bumpCounter
    let (r, e4) := e3.mathRandom
    let (now, e5) := e4.dateNow
    (fallbackId timestamp r now, e5)
  | left + 1, env =>
    let (timestamp, e1) := env.dateNow
    let (r, e2) := e1.mathRandom
    let e3 := e2.bumpCounter
    let id := candidateId timestamp r e3.taskIdCounter
    if includes existingIds (some (.str id)) then generateLoop existingIds left e3 else (id, e3)

/-- The function `generateUniqueTaskId(existingIds)`. -/
def generateUniqueTaskId (existingIds : List (Option JVal)) (env : Env) : String × Env :=
  generateLoop existingIds 100 env

/-- Errors thrown while a handler runs. -/
inductive JsError where
  /-- A method call on a value that has no such method. -/
  | typeError
deriving DecidableEq, Repr

/-- The first statement of `normalizeTask`: an id that is falsy or temporary is replaced by a
minted one. The call `normalized.id.startsWith` throws when the id is truthy and not a string. -/
def normalizeId (normalized : Obj) (existingIds : List (Option JVal)) (env : Env) :
    Except JsError Obj × Env :=
  if !truthy (normalized.get "id") then
    let (id, env) := generateUniqueTaskId existingIds env
    (.ok (normalized.set "id" (.str id)), env)
  else
    match normalized.get "id" with
    | some (.str s) =>
      if startsWithTNew s then
        let (id, env) := generateUniqueTaskId existingIds env
        (.ok (normalized.set "id" (.str id)), env)
      else (.ok normalized, env)
    | _ => (.error .typeError, env)

/-- The function `normalizeTask(task, existingIds)`. -/
def normalizeTask (task : Obj) (existingIds : List (Option JVal)) (env : Env) :
    Except JsError Obj × Env :=
  let (nowMs, env) := env.dateNow
  let now := toISOString nowMs
  match normalizeId task existingIds env with
  | (.error e, env) => (.error e, env)
  | (.ok normalized, env) =>
    let normalized :=
      if !isNumber (normalized.get "version") then normalized.set "version" (.num 1)
      else normalized
    let normalized :=
      if !truthy (normalized.get "updatedAt") then normalized.set "updatedAt" (.str now)
      else normalized
    (.ok normalized, env)

/-- The `tasks.map(t => ...)` of `loadTasksWithMetadata`: the normalised records and the flag
`changed`. -/
def normalizeAll (existingIds : List (Option JVal)) :
    List Obj → Env → Except JsError (List Obj × Bool) × Env
  | [], env => (.ok ([], false), env)
  | t :: rest, env =>
    match normalizeTask t existingIds env with
    | (.error e, env) => (.error e, env)
    | (.ok nt, env) =>
      let changedHere :=
        !strictEq (nt.get "version") (t.get "version")
          || !strictEq (nt.get "updatedAt") (t.get "updatedAt")
          || !strictEq (nt.get "id") (t.get "id")
      match normalizeAll existingIds rest env with
      | (.error e, env) => (.error e, env)
      | (.ok (nts, changed), env) => (.ok (nt :: nts, changedHere || changed), env)

/-- The indices pushed to `duplicates`: the records whose id is already a key of `idMap`.
`index` is the index of the head of the list and `seen` holds the keys of `idMap`. -/
def duplicateIndices : List Obj → Nat → List (Option JVal) → List Nat
  | [], _, _ => []
  | t :: rest, index, seen =>
    if includes seen (t.get "id") then index :: duplicateIndices rest (index + 1) seen
    else duplicateIndices rest (index + 1) (seen ++ [t.get "id"])

/-- The method `tasks.findIndex(p)`; `none` stands for the result `-1`. -/
def findIndex (p : Obj → Bool) : List Obj → Option Nat
  | [] => none
  | t :: ts => if p t then some 0 else (findIndex p ts).map (· + 1)

/-- Replace the element at position `index` by its image under `f`. -/
def modifyAt (f : Obj → Obj) : Nat → List Obj → List Obj
  | _, [] => []
  | 0, t :: ts => f t :: ts
  | index + 1, t :: ts => t :: modifyAt f index ts

/-- The loop `duplicates.forEach(index => ...)`: each duplicate receives a minted id. -/
def remintDuplicates : List Nat → List Obj → Env → List Obj × Env
  | [], normalized, env => (normalized, env)
  | index :: rest, normalized, env =>
    let existingIds := normalized.map (fun t => t.get "id")
    let (id, env) := generateUniqueTaskId existingIds env
    remintDuplicates rest (modifyAt (fun t => t.set "id" (.str id)) index normalized) env

/-- The server process: the content of the tasks file and the environment. -/
structure Server where
  /-- The array stored in `tasks.json`. -/
  tasksFile : List Obj
  /-- Clock, random source and counter. -/
  env : Env

/-- The function `loadTasksWithMetadata()`: the normalised list, written back when `changed`. -/
def loadTasksWithMetadata (s : Server) : Except JsError (List Obj) × Server :=
  let tasks := s.tasksFile
  let existingIds := (tasks.map (fun t => t.get "id")).filter truthy
  match normalizeAll existingIds tasks s.env with
  | (.error e, env) => (.error e, { s with env := env })
  | (.ok (normalized, changed), env) =>
    let duplicates := duplicateIndices normalized 0 []
    let changed := changed || decide (duplicates.length > 0)
    let (normalized, env) := remintDuplicates duplicates normalized env
    (.ok normalized, { tasksFile := if changed then normalized else tasks, env := env })

/-! ## Server: the HTTP handlers (`server.js`) -/

mutual
/-- The conversion `String(v)` of a JSON value. -/
def jsToString : JVal → String
  | .null => "null"
  | .bool true => "true"
  | .bool false => "false"
  | .num n => toString n
  | .str s => s
  | .arr items => jsJoin items
  | .obj _ => "[object Object]"
/-- The conversion `items.join(',')` used by `Array.prototype.toString`. -/
def jsJoin : List JVal → String
  | [] => ""
  | [.null] => ""
  | [v] => jsToString v
  | .null :: rest => "," ++ jsJoin rest
  | v :: rest => jsToString v ++ "," ++ jsJoin rest
end

/-- The expression `(current.version || 1) + 1`. -/
def nextVersion (version : Option JVal) : JVal :=
  if !truthy version then .num 2
  else
    match version with
    | some (.num n) => .num (n + 1)
    | some (.bool _) => .num 2
    | some v => .str (jsToString v ++ "1")
    | none => .num 2

/-- An HTTP response: the status and the JSON body. -/
structure Response where
  /-- The status code. -/
  status : Nat
  /-- The body passed to `res.json`. -/
  body : JVal
deriving DecidableEq

/-- The body of an error response. -/
def errorBody (message : String) : JVal :=
  .obj [("error", .str message)]

/-- The test `t.id === id` of the `findIndex` calls, for the path parameter `id`. -/
def hasId (id : String) (t : Obj) : Bool :=
  strictEq (t.get "id") (some (.str id))

/-- The handler of `GET /api/tasks` (listAll). -/
def listAll (s : Server) : Response × Server :=
  match loadTasksWithMetadata s with
  | (.error _, s) => (⟨500, errorBody "獲取任務失敗"⟩, s)
  | (.ok tasks, s) => (⟨200, .arr (tasks.map .obj)⟩, s)

/-- The single-object branch of `POST /api/tasks` (createOne). -/
def createOne (body : Obj) (s : Server) : Response × Server :=
  match loadTasksWithMetadata s with
  | (.error _, s) => (⟨500, errorBody "保存任務失敗"⟩, s)
  | (.ok tasks, s) =>
    let existingIds := tasks.map (fun t => t.get "id")
    let taskData := Obj.del body "id"
    match normalizeTask taskData existingIds s.env with
    | (.error _, env) => (⟨500, errorBody "保存任務失敗"⟩, { s with env := env })
    | (.ok newTask, env) =>
      let (newTask, env) :=
        if includes existingIds (newTask.get "id") then
          let (id, env) := generateUniqueTaskId existingIds env
          (newTask.set "id" (.str id), env)
        else (newTask, env)
      let tasks := tasks ++ [newTask]
      (⟨201, .obj newTask⟩, { tasksFile := tasks, env := env })

/-- A parsed request body: the JSON body parser hands the handlers an array or an object. -/
inductive Body where
  /-- An array body. -/
  | array (items : List JVal)
  /-- An object body. -/
  | object (o : Obj)

/-- The test `Array.isArray(body)`. -/
def Body.isArray : Body → Bool
  | .array _ => true
  | .object _ => false

/-- The own properties copied by the spread of a body: the properties of an object, the
indexed elements of an array. -/
def Body.spreadFields : Body → Obj
  | .object o => o
  | .array items => (List.range items.length).zipWith (fun i v => (toString i, v)) items

/-- The handler of `POST /api/tasks`. The handler tests `Array.isArray` twice: a body that is
not an array is created as a single task, a body that is an array is answered 410. `legacy`
stands for the statements that follow the second test (the reconcile loop of the former
protocol), whatever they compute. -/
def postTasks (legacy : Body → Server → Response × Server) (body : Body) (s : Server) :
    Response × Server :=
  if !body.isArray then createOne body.spreadFields s
  else if body.isArray then
    (⟨410, errorBody "前端版本過舊，請重新整理頁面後再試（不支援批次提交全部任務）"⟩, s)
  else legacy body s

/-- The handler of `PUT /api/tasks/:id` (updateOne). -/
def updateOne (id : String) (incoming : Obj) (s : Server) : Response × Server :=
  match loadTasksWithMetadata s with
  | (.error _, s) => (⟨500, errorBody "更新任務失敗"⟩, s)
  | (.ok tasks, s) =>
    match findIndex (hasId id) tasks with
    | none => (⟨404, errorBody "任務不存在"⟩, s)
    | some idx =>
      let current := tasks.getD idx []
      let (nowMs, env) := s.env.dateNow
      let updated :=
        (((Obj.spread current incoming).set "id" (.str id)).set "version"
          (nextVersion (current.get "version"))).set "updatedAt" (.str (toISOString nowMs))
      (⟨200, .obj updated⟩, { tasksFile := tasks.set idx updated, env := env })

/-- The handler of `DELETE /api/tasks/:id` (deleteOne). -/
def deleteOne (id : String) (s : Server) : Response × Server :=
  match loadTasksWithMetadata s with
  | (.error _, s) => (⟨500, errorBody "刪除任務失敗"⟩, s)
  | (.ok tasks, s) =>
    match findIndex (hasId id) tasks with
    | none => (⟨404, errorBody "任務不存在"⟩, s)
    | some idx => (⟨200, .obj [("success", .bool true)]⟩, { s with tasksFile := tasks.eraseIdx idx })

/-! ## Client: the task collection (`app.js`) -/

/-- The comparison `a === b` (and the key equality of `Map`) between properties of two distinct
task objects: primitives are compared by value, arrays and objects are distinct references. -/
def refEq : Option JVal → Option JVal → Bool
  | none, none => true
  | some .null, some .null => true
  | some (.bool a), some (.bool b) => a == b
  | some (.num a), some (.num b) => a == b
  | some (.str a), some (.str b) => a == b
  | _, _ => false

/-- The expression `v || 0`. -/
def orZero (v : Option JVal) : JVal :=
  match v with
  | some w => if truthy v then w else .num 0
  | none => .num 0

/-- The comparison `a > b`. Two numbers are compared as numbers; `coerced` stands for the
outcome of the language's coercing comparison on every other pair of operands. -/
def jsGreater (coerced : JVal → JVal → Bool) : JVal → JVal → Bool
  | .num a, .num b => decide (a > b)
  | a, b => coerced a b

/-- The client: the collection `TASKS` and the browser's clock and random source. -/
structure Client where
  /-- The array `TASKS`. -/
  TASKS : List Obj
  /-- Clock and random source of the browser. -/
  env : Env

/-- The function `ensureTaskMeta(task)`; the clock is read only when `updatedAt` is falsy. -/
def ensureTaskMeta (task : Obj) (env : Env) : Obj × Env :=
  let task := if !isNumber (task.get "version") then task.set "version" (.num 1) else task
  if !truthy (task.get "updatedAt") then
    let (nowMs, env) := env.dateNow
    (task.set "updatedAt" (.str (toISOString nowMs)), env)
  else (task, env)

/-- The lookup `new Map(entries.map(t => [t.id, t])).get(key)`: a later entry replaces an
earlier one with the same key. -/
def mapGet (entries : List Obj) (key : Option JVal) : Option Obj :=
  (entries.filter (fun t => refEq (t.get "id") key)).getLast?

/-- The test `new Map(entries.map(t => [t.id, t])).has(key)`. -/
def mapHas (entries : List Obj) (key : Option JVal) : Bool :=
  entries.any (fun t => refEq (t.get "id") key)

/-- One iteration of `tasks.forEach(serverTask => ...)` in the periodic sync; `localMap` is the
snapshot of `TASKS` taken before the loop. -/
def upsertStep (coerced : JVal → JVal → Bool) (localMap : List Obj) (c : Client)
    (serverTask : Obj) : Client :=
  match mapGet localMap (serverTask.get "id") with
  | none =>
    let (t, env) := ensureTaskMeta serverTask c.env
    { TASKS := c.TASKS ++ [t], env := env }
  | some localTask =>
    let localVersion := orZero (localTask.get "version")
    let serverVersion := orZero (serverTask.get "version")
    if jsGreater coerced serverVersion localVersion then
      match findIndex (fun t => refEq (t.get "id") (serverTask.get "id")) c.TASKS with
      | some index =>
        let (t, env) := ensureTaskMeta serverTask c.env
        { TASKS := c.TASKS.set index t, env := env }
      | none => c
    else c

/-- The removal loop `for (let i = TASKS.length - 1; i >= 0; i--)` of the periodic sync: the
surviving entries and whether `localTask.id.startsWith` threw. The later entries are visited
first; once the call has thrown, the entries not yet visited stay. -/
def pruneDeleted (serverTasks : List Obj) : List Obj → List Obj × Bool
  | [] => ([], false)
  | localTask :: later =>
    match pruneDeleted serverTasks later with
    | (kept, true) => (localTask :: kept, true)
    | (kept, false) =>
      match localTask.get "id" with
      | some (.str s) =>
        if !startsWithTNew s && !mapHas serverTasks (some (.str s)) then (kept, false)
        else (localTask :: kept, false)
      | _ => (localTask :: kept, true)

/-- The merge of the periodic sync (the interval callback of `startPeriodicSync`, once
`TaskAPI.getAll()` has resolved with the array `tasks`). A thrown error is caught and logged by
the callback, which leaves `TASKS` as it is at that moment. -/
def syncMerge (coerced : JVal → JVal → Bool) (tasks : List Obj) (c : Client) : Client :=
  let merged := tasks.foldl (upsertStep coerced c.TASKS) c
  { merged with TASKS := (pruneDeleted tasks merged.TASKS).1 }

/-- The record literal of `createNewTask`, before `ensureTaskMeta`. -/
def blankTask (tempId : String) : Obj :=
  [("id", .str tempId), ("title", .str ""), ("status", .str "待辦"), ("priority", .str "中"),
    ("owner", .arr []), ("executors", .arr []), ("completeDate", .null), ("dueDate", .null),
    ("progress", .num 0), ("notes", .str ""), ("content", .str ""), ("files", .arr [])]

/-- The first part of `createNewTask`, up to the call of `TaskAPI.create`: the temporary id,
the new entry put at the front, and the payload sent to the server. -/
def createNewTaskBegin (c : Client) : String × Obj × Client :=
  let (nowMs, env) := c.env.dateNow
  let (r, env) := env.mathRandom
  let tempId := "t_new_" ++ toString nowMs ++ "_" ++ r.base36
  let (newTask, env) := ensureTaskMeta (blankTask tempId) env
  (tempId, Obj.del newTask "id", { TASKS := newTask :: c.TASKS, env := env })

/-- The continuation of `createNewTask` after `TaskAPI.create` resolved with `saved`:
`Object.assign(TASKS[index], saved)` on the entry found by the temporary id. -/
def createNewTaskSaved (tempId : String) (saved : Obj) (c : Client) : Client :=
  match findIndex (fun t => refEq (t.get "id") (some (.str tempId))) c.TASKS with
  | some index => { c with TASKS := modifyAt (fun t => Obj.spread t saved) index c.TASKS }
  | none => c

/-- The `catch` branch of `createNewTask`: the temporary entry is removed. -/
def createNewTaskFailed (tempId : String) (c : Client) : Client :=
  match findIndex (fun t => refEq (t.get "id") (some (.str tempId))) c.TASKS with
  | some index => { c with TASKS := c.TASKS.eraseIdx index }
  | none => c

/-- The continuation of `persistTask(task)` after the server call resolved with `saved`;
`task` is the record as the opening `ensureTaskMeta(task)` left it. The ids of `merged` and of
`task` are the same reference when `saved` has no id of its own. -/
def persistTaskSaved (task saved : Obj) (c : Client) : Obj × Client :=
  let (merged, env) := ensureTaskMeta (Obj.spread task saved) c.env
  let originalId := task.get "id"
  let idDiffers := if saved.has "id" then !refEq originalId (merged.get "id") else false
  if truthy originalId && idDiffers then
    match findIndex (fun t => refEq (t.get "id") originalId) c.TASKS with
    | some oldIdx => (merged, { TASKS := c.TASKS.set oldIdx merged, env := env })
    | none => (merged, { c with env := env })
  else
    match findIndex
        (fun t => refEq (t.get "id") (merged.get "id") || refEq (t.get "id") originalId)
        c.TASKS with
    | some idx => (merged, { TASKS := c.TASKS.set idx merged, env := env })
    | none => (merged, { TASKS := merged :: c.TASKS, env := env })

/-- The continuation of `removeTask(id)` after `TaskAPI.remove` resolved. -/
def removeTaskDone (id : String) (c : Client) : Client :=
  match findIndex (fun t => refEq (t.get "id") (some (.str id))) c.TASKS with
  | some idx => { c with TASKS := c.TASKS.eraseIdx idx }
  | none => c

/-! ## Predicates used by the statements -/

/-- A record in the form `normalizeTask` establishes: a non-empty string id without the temporary
marker, a numeric version and a truthy `updatedAt`. -/
def isNormal (t : Obj) : Bool :=
  (match t.get "id" with
    | some (.str s) => s != "" && !startsWithTNew s
    | _ => false)
    && isNumber (t.get "version") && truthy (t.get "updatedAt")

/-- The ids of a list of records, as `tasks.map(t => t.id)`. -/
def idsOf (tasks : List Obj) : List (Option JVal) :=
  tasks.map (fun t => t.get "id")

/-- The test that a client record carries the string id `a`. -/
def idIs (a : String) (t : Obj) : Bool :=
  refEq (t.get "id") (some (.str a))

/-- A local task that is still unsaved for the periodic sync with the server list `tasks`: its
id is a string with the temporary marker and no server task has that id. -/
def isUnsyncedTemp (tasks : List Obj) (t : Obj) : Bool :=
  match t.get "id" with
  | some (.str s) => startsWithTNew s && !mapHas tasks (some (.str s))
  | _ => false

/-- The test that the id of a record is a string. -/
def hasStringId (t : Obj) : Bool :=
  match t.get "id" with
  | some (.str _) => true
  | _ => false

/-- The test that the id of a record is a string with the temporary marker. -/
def hasTempId (t : Obj) : Bool :=
  match t.get "id" with
  | some (.str s) => startsWithTNew s
  | _ => false

/-- The environment after `n` further readings of the clock. -/
def Env.afterClockReads (env : Env) (n : Nat) : Env :=
  { env with clockReads := env.clockReads + n }

/-- The environment after `n` iterations of the loop of `generateUniqueTaskId`: each reads the
clock once, draws once and advances the counter. -/
def Env.afterAttempts (env : Env) (n : Nat) : Env :=
  { env with
    clockReads := env.clockReads + n
    randomDraws := env.randomDraws + n
    taskIdCounter := (env.taskIdCounter + n) % 10000 }

/-- The candidate identifier that the loop of `generateUniqueTaskId`, started in `env`, builds
in its iteration number `k + 1`. -/
def candidateAt (env : Env) (k : Nat) : String :=
  candidateId (env.clock (env.clockReads + k)) (env.random (env.randomDraws + k))
    ((env.taskIdCounter + k + 1) % 10000)

/-! ## Sample inputs -/

/-- A server environment: the clock stands at 2023-11-14T22:13:20.000Z, every random draw is
0.5, and nothing has been read yet. -/
def sampleEnv : Env :=
  ⟨fun _ => 1700000000000, fun _ => ⟨500000, "i"⟩, 0, 0, 0⟩

/-- A store with one task in normal form, at version 3. -/
def sampleStore : Server :=
  ⟨[[("id", .str "t_1"), ("title", .str "A"), ("version", .num 3),
      ("updatedAt", .str "2023-01-01T00:00:00.000Z")]], sampleEnv⟩

/-- A store whose only task has version 0. -/
def storeVersionZero : Server :=
  ⟨[[("id", .str "t_1"), ("title", .str "A"), ("version", .num 0),
      ("updatedAt", .str "2023-01-01T00:00:00.000Z")]], sampleEnv⟩

/-- A store whose only task has no version and no `updatedAt`. -/
def storeWithoutVersion : Server :=
  ⟨[[("id", .str "t_1"), ("title", .str "A")]], sampleEnv⟩

/-- A record in normal form with the given id. -/
def recordWithId (id : String) : Obj :=
  [("id", .str id), ("version", .num 1), ("updatedAt", .str "2023-01-01T00:00:00.000Z")]

/-- A store that already holds, for the clock and the draws of `sampleEnv`, the candidate ids of
the counter values 1 to 201 and the id of the branch taken after 100 colliding attempts. -/
def collidingStore : Server :=
  ⟨((List.range 201).map fun k =>
      recordWithId (candidateId 1700000000000 ⟨500000, "i"⟩ (k + 1)))
    ++ [recordWithId (fallbackId 1700000000000 ⟨500000, "i"⟩ 1700000000000)], sampleEnv⟩

/-- A numeric code of a string (its characters read as digits), used to tell the ids of a
large store apart by arithmetic. -/
def stringCode (s : String) : Nat :=
  s.toList.foldl (fun acc c => acc * 1114112 + c.toNat + 1) 0

/-- The code of an id that is a string; 0 for any other value. -/
def idCode : Option JVal → Nat
  | some (.str s) => stringCode s
  | _ => 0

/-- A client holding an unsaved task, a task the server has deleted and a task the server has
updated; the clock stands at 2023-11-14T22:13:20.000Z. -/
def sampleClient : Client :=
  ⟨[[("id", .str "t_new_1"), ("title", .str "draft"), ("version", .num 1),
      ("updatedAt", .str "2023-01-01T00:00:00.000Z")],
    [("id", .str "t_2"), ("title", .str "gone"), ("version", .num 4),
      ("updatedAt", .str "2023-01-02T00:00:00.000Z")],
    [("id", .str "t_3"), ("title", .str "old"), ("version", .num 3),
      ("updatedAt", .str "2023-01-03T00:00:00.000Z")]], sampleEnv⟩

/-- A server list: a newer version of `t_3` and a task unknown to `sampleClient`. -/
def sampleServerList : List Obj :=
  [[("id", .str "t_3"), ("title", .str "new"), ("version", .num 5),
      ("updatedAt", .str "2023-02-03T00:00:00.000Z")],
    [("id", .str "t_4"), ("title", .str "other"), ("version", .num 1),
      ("updatedAt", .str "2023-02-04T00:00:00.000Z")]]

/-- A client whose collection holds two entries with the id `t_1`, at versions 5 and 1. -/
def duplicateClient : Client :=
  ⟨[[("id", .str "t_1"), ("title", .str "first"), ("version", .num 5),
      ("updatedAt", .str "2023-01-05T00:00:00.000Z")],
    [("id", .str "t_1"), ("title", .str "second"), ("version", .num 1),
      ("updatedAt", .str "2023-01-01T00:00:00.000Z")]], sampleEnv⟩

/-- A server list holding `t_1` at version 3. -/
def serverListVersionThree : List Obj :=
  [[("id", .str "t_1"), ("title", .str "server"), ("version", .num 3),
      ("updatedAt", .str "2023-01-03T00:00:00.000Z")]]

/-- A stand-in for the coercing comparison of values that are not both numbers. -/
def noCoercion : JVal → JVal → Bool :=
  fun _ _ => false

/-- The record carried by the body of a response (what `TaskAPI.create` resolves with). -/
def responseRecord (r : Response) : Obj :=
  match r.body with
  | .obj o => o
  | _ => []

/-- The task list carried by the body of a response (what `TaskAPI.getAll` resolves with). -/
def responseTasks (r : Response) : List Obj :=
  match r.body with
  | .arr items => items.map (fun v => match v with
    | .obj o => o
    | _ => [])
  | _ => []

/-- The client right after `createNewTask` has put its temporary entry in an empty collection
and sent the create call. -/
def raceClient : Client :=
  (createNewTaskBegin ⟨[], sampleEnv⟩).2.2

/-- The temporary id of the entry of `raceClient`. -/
def raceTempId : String :=
  (createNewTaskBegin ⟨[], sampleEnv⟩).1

/-- The server after it has handled that create call, starting from an empty store. -/
def raceServer : Response × Server :=
  createOne (createNewTaskBegin ⟨[], sampleEnv⟩).2.1 ⟨[], sampleEnv⟩

/-- The list a periodic sync then receives from `GET /api/tasks`. -/
def raceServerList : List Obj :=
  responseTasks (listAll raceServer.2).1

/-- The client after that periodic sync, the create call being still unanswered. -/
def raceAfterSync : Client :=
  syncMerge noCoercion raceServerList raceClient

/-- The client after the create call has then resolved with the record the server created. -/
def raceAfterCreate : Client :=
  createNewTaskSaved raceTempId (responseRecord raceServer.1) raceAfterSync

/-! ## The claims as the specification words them -/

/-- The specification's wording of the version rule of `updateOne`: whenever the stored
collection holds a record with the path id and version `v`, the record returned and stored has
version `v + 1`. -/
def UpdateVersionAsStated (s : Server) (id : String) (incoming : Obj) : Prop :=
  ∀ (stored : Obj) (v : Int), stored ∈ s.tasksFile → stored.get "id" = some (.str id) →
    stored.get "version" = some (.num v) →
    ∃ updated : Obj, (updateOne id incoming s).1.body = .obj updated
      ∧ updated ∈ (updateOne id incoming s).2.tasksFile
      ∧ updated.get "version" = some (.num (v + 1))

/-- The specification's wording of the version rule of `createOne`: whatever the body carries,
the record created has version 1. -/
def CreateVersionAsStated (s : Server) (body : Obj) : Prop :=
  ∀ created : Obj, (createOne body s).1 = ⟨201, .obj created⟩ →
    created.get "version" = some (.num 1)

/-- The specification's wording of the overlay rule of `updateOne`: every field of the payload
other than `id` takes the payload's value, every other field other than `id` keeps its stored
value, the id is the path id, and the record is replaced in place. -/
def UpdateOverlayAsStated (s : Server) (id : String) (incoming : Obj) : Prop :=
  ∀ (before after : List Obj) (stored : Obj), s.tasksFile = before ++ stored :: after →
    stored.get "id" = some (.str id) → (∀ t ∈ before, t.get "id" ≠ some (.str id)) →
    ∃ updated : Obj, (updateOne id incoming s).1.body = .obj updated
      ∧ (updateOne id incoming s).2.tasksFile = before ++ updated :: after
      ∧ updated.get "id" = some (.str id)
      ∧ (∀ k v, k ≠ "id" → incoming.get k = some v → updated.get k = some v)
      ∧ (∀ k, k ≠ "id" → incoming.get k = none → updated.get k = stored.get k)

/-- The specification's wording of the uniqueness of a created id: the id of the record that
`createOne` creates differs from the id of every record already in the store. -/
def CreateIdFreshAsStated (s : Server) (body : Obj) : Prop :=
  ∀ created : Obj, (createOne body s).1 = ⟨201, .obj created⟩ →
    ∀ t ∈ s.tasksFile, t.get "id" ≠ created.get "id"

/-- The specification's wording of the version rule of the periodic sync, for a local record
`l` and a server record `s` with the same string id: when the server version is strictly
greater the server's record is in the collection after the merge, and otherwise the local
record is still there as it was. -/
def SyncVersionRuleAsStated (coerced : JVal → JVal → Bool) (tasks : List Obj) (c : Client) :
    Prop :=
  ∀ (a : String) (l s : Obj), l ∈ c.TASKS → s ∈ tasks → idIs a l = true → idIs a s = true →
    (jsGreater coerced (orZero (s.get "version")) (orZero (l.get "version")) = true →
        ∃ e, (ensureTaskMeta s e).1 ∈ (syncMerge coerced tasks c).TASKS)
      ∧ (jsGreater coerced (orZero (s.get "version")) (orZero (l.get "version")) = false →
        l ∈ (syncMerge coerced tasks c).TASKS)

/-- The specification's wording of the round trip of create and list: `listAll` after
`createOne` returns the stored records unchanged and in order, followed by the created record,
whose fields are the body's fields other than `id`, plus `id`, `version` and `updatedAt`. -/
def CreateThenListAsStated (s : Server) (body : Obj) : Prop :=
  ∀ created : Obj, (createOne body s).1 = ⟨201, .obj created⟩ →
    (listAll (createOne body s).2).1 = ⟨200, .arr ((s.tasksFile ++ [created]).map .obj)⟩
      ∧ ∀ k, created.has k = true ↔
          (k ≠ "id" ∧ body.has k = true) ∨ k = "id" ∨ k = "version" ∨ k = "updatedAt"

/-- The specification's wording of create followed by update, for a body without a version
field: the update returns version 2, the fields of the payload `q` with the values of `q`, and
every other field of the body unchanged. -/
def CreateThenUpdateAsStated (s : Server) (body q : Obj) : Prop :=
  body.has "version" = false →
    ∀ (created : Obj) (id : String), (createOne body s).1 = ⟨201, .obj created⟩ →
      created.get "id" = some (.str id) →
      ∃ updated : Obj, (updateOne id q (createOne body s).2).1 = ⟨200, .obj updated⟩
        ∧ updated.get "version" = some (.num 2)
        ∧ (∀ k v, q.get k = some v → updated.get k = some v)
        ∧ (∀ k v, body.get k = some v → q.get k = none → updated.get k = some v)

/-- A store whose only task still carries a temporary id. -/
def storeWithTempId : Server :=
  ⟨[[("id", .str "t_new_1"), ("title", .str "A"), ("version", .num 1),
      ("updatedAt", .str "2023-01-01T00:00:00.000Z")]], sampleEnv⟩

/-- A store with three tasks in normal form. -/
def threeTaskStore : Server :=
  ⟨[recordWithId "t_1", recordWithId "t_2", recordWithId "t_3"], sampleEnv⟩

/-- The specification's wording of the effect of `deleteOne`: whenever the stored collection
holds a record with the given id, the answer is the success acknowledgment. -/
def DeleteAsStated (s : Server) (id : String) : Prop :=
  (∃ t ∈ s.tasksFile, t.get "id" = some (.str id)) →
    (deleteOne id s).1 = ⟨200, .obj [("success", .bool true)]⟩

/-- The first `n` candidate ids of `sampleEnv`, each held by a record in normal form. -/
def candidateRecords (n : Nat) : List Obj :=
  (List.range n).map fun k => recordWithId (candidateId 1700000000000 ⟨500000, "i"⟩ (k + 1))

/-- The id of the branch taken after 100 colliding attempts, for the clock and the draws of
`sampleEnv`. -/
def sampleFallbackId : String :=
  fallbackId 1700000000000 ⟨500000, "i"⟩ 1700000000000

/-- A store that holds the first 100 candidate ids of `sampleEnv` and, twice, the id of the
branch taken after 100 colliding attempts. -/
def duplicateStore : Server :=
  ⟨candidateRecords 100 ++ [recordWithId sampleFallbackId, recordWithId sampleFallbackId],
    sampleEnv⟩

/-- The specification's wording of the finality of a deletion: once `deleteOne` has succeeded,
`updateOne` on the same id answers 404 and the store holds no record with that id. -/
def DeleteThenUpdateAsStated (s : Server) (id : String) (incoming : Obj) : Prop :=
  (deleteOne id s).1.status = 200 →
    (updateOne id incoming (deleteOne id s).2).1.status = 404
      ∧ ∀ t ∈ (updateOne id incoming (deleteOne id s).2).2.tasksFile,
          t.get "id" ≠ some (.str id)

/-- The test that `normalized.id.startsWith` throws on the record: its id is truthy and is not
a string. -/
def hasBadId (t : Obj) : Bool :=
  truthy (t.get "id") && !hasStringId t

/-- The specification's wording of the idempotence of `listAll`: a second call returns the list
the first call returned and leaves the stored file equal to that list. -/
def ListTwiceAsStated (s : Server) : Prop :=
  ∀ tasks : List Obj, (listAll s).1 = ⟨200, .arr (tasks.map .obj)⟩ →
    (listAll (listAll s).2).1 = ⟨200, .arr (tasks.map .obj)⟩
      ∧ (listAll (listAll s).2).2.tasksFile = tasks

/-- A body that carries its own `updatedAt`. -/
def bodyWithUpdatedAt : Obj :=
  [("title", .str "B"), ("updatedAt", .str "1999-01-01T00:00:00.000Z")]

/-- The specification's wording of the `updatedAt` rule of `createOne`: whatever the body
carries, the `updatedAt` of the record created is the time the server clock shows at one of the
readings of the call. -/
def CreateUpdatedAtAsStated (s : Server) (body : Obj) : Prop :=
  ∀ created : Obj, (createOne body s).1 = ⟨201, .obj created⟩ →
    ∃ n, created.get "updatedAt" = some (.str (toISOString (s.env.clock n)))

/-- A body that carries the id of the record of `sampleStore` and the given version. -/
def bodyWithStoredId (version : Int) : Obj :=
  [("id", .str "t_1"), ("title", .str "B"), ("version", .num version)]

/-- The ids listed under `conflicts` in a response body, if the body is an object with such a
list. -/
def conflictsOf : JVal → Option (List JVal)
  | .obj o =>
    match Obj.get o "conflicts" with
    | some (.arr ids) => some ids
    | _ => none
  | _ => none

/-- The property that a response body is a reconcile summary: an object with the fields
`success`, `conflicts` and `count`. -/
def isSummary : JVal → Bool
  | .obj o => Obj.has o "success" && Obj.has o "conflicts" && Obj.has o "count"
  | _ => false

/-- The specification's wording of the single-object submission that carries a stored id: for
some reading of the statements after the second `Array.isArray` test, the response is the
reconcile summary and the stored collection has as many records as before. -/
def SingleObjectReconcileAsStated (s : Server) (o : Obj) : Prop :=
  ∃ legacy : Body → Server → Response × Server,
    isSummary (postTasks legacy (.object o) s).1.body = true
      ∧ (postTasks legacy (.object o) s).2.tasksFile.length = s.tasksFile.length

/-- The specification's wording of the conflict policy, for two submissions sent one after the
other: for some reading of the statements after the second `Array.isArray` test, each response
lists the id under `conflicts` and the stored collection stays as it was. -/
def ConflictPolicyAsStated (s : Server) (id : String) (first second : Body) : Prop :=
  ∃ legacy : Body → Server → Response × Server,
    (∃ ids, conflictsOf (postTasks legacy first s).1.body = some ids ∧ JVal.str id ∈ ids)
      ∧ (postTasks legacy first s).2.tasksFile = s.tasksFile
      ∧ (∃ ids, conflictsOf (postTasks legacy second (postTasks legacy first s).2).1.body
            = some ids ∧ JVal.str id ∈ ids)
      ∧ (postTasks legacy second (postTasks legacy first s).2).2.tasksFile = s.tasksFile

/-- The test that every id `remintDuplicates` mints is free at the time it is minted. -/
def remintsFresh : List Nat → List Obj → Env → Bool
  | [], _, _ => true
  | index :: rest, normalized, env =>
    !includes (normalized.map fun t => t.get "id")
        (some (.str (generateUniqueTaskId (normalized.map fun t => t.get "id") env).1))
      && remintsFresh rest
        (modifyAt (fun t => t.set "id"
          (.str (generateUniqueTaskId (normalized.map fun t => t.get "id") env).1)) index
          normalized)
        (generateUniqueTaskId (normalized.map fun t => t.get "id") env).2

/-- The test that, in the load of the store `s`, every id minted for a duplicate is free at the
time it is minted. -/
def remintsAreFresh (s : Server) : Bool :=
  match normalizeAll ((s.tasksFile.map fun t => t.get "id").filter truthy) s.tasksFile s.env with
  | (.error _, _) => true
  | (.ok (normalized, _), env) =>
    remintsFresh (duplicateIndices normalized 0 []) normalized env

/-- The specification's wording of the repair done by `loadTasksWithMetadata`: the returned list
has the length of the stored one, holds records in normal form only, and no two of its records
share an id. -/
def LoadRepairsAsStated (s : Server) : Prop :=
  ∀ tasks s1, loadTasksWithMetadata s = (.ok tasks, s1) →
    tasks.length = s.tasksFile.length ∧ (∀ t ∈ tasks, isNormal t = true)
      ∧ (idsOf tasks).Nodup

/-- A store with a record without an id, a record with a temporary id and two records that
share an id. -/
def mixedStore : Server :=
  ⟨[[("title", .str "A")], [("id", .str "t_new_5"), ("title", .str "B"), ("version", .num 2)],
    recordWithId "t_1", recordWithId "t_1"], sampleEnv⟩

/-- A payload for the record of `sampleStore` that carries a new title and the version `v`. -/
def payloadWithVersion (v : Int) : Obj :=
  [("title", .str "B"), ("version", .num v)]

/-! ## Client: removing, saving from the task form and loading (`app.js`) -/

/-- The function `removeTask(id)`; `outcome` is the outcome of `TaskAPI.remove(id)`, an error
standing for the value the call rejects with. The result holds what the function throws, if it
throws. -/
def removeTask (outcome : Except JVal JVal) (id : String) (c : Client) : Except JVal Unit × Client :=
  match outcome with
  | .ok _ => (.ok (), removeTaskDone id c)
  | .error e => (.error e, c)

/-- The expression `v || d`. -/
def orElse (v : Option JVal) (d : JVal) : JVal :=
  match v with
  | some w => if truthy v then w else d
  | none => d

/-- The statement `if (!allowed.includes(v)) v = d`, for a list of string literals. -/
def oneOf (allowed : List String) (v : Option JVal) (d : String) : JVal :=
  match v with
  | some (.str s) => if allowed.contains s then .str s else .str d
  | _ => .str d

/-- The record literal of the save handler of the task form, before `ensureTaskMeta`. `data`
holds the entries of the form, `owners` and `execs` the values of the two bubble selections,
and `toNumber` stands for the conversion `Number(v)`. The handler has returned before when
`data.title` is falsy. -/
def formEntity (toNumber : JVal → JVal) (data : Obj) (owners execs : List JVal) (id : JVal) :
    Obj :=
  [("id", id), ("title", (data.get "title").getD .null),
    ("status", oneOf ["待辦", "進行中", "完成"] (data.get "status") "待辦"),
    ("priority", oneOf ["高", "中", "低"] (data.get "priority") "中"),
    ("owner", .arr owners), ("executors", .arr execs),
    ("completeDate", orElse (data.get "completeDate") .null),
    ("dueDate", orElse (data.get "dueDate") .null),
    ("progress", toNumber (orElse (data.get "progress") (.num 0))),
    ("notes", orElse (data.get "notes") (.str "")),
    ("content", orElse (data.get "content") (.str "")),
    ("files", orElse (data.get "files") (.arr []))]

/-- The click handler of the save button, up to the call of `persistTask`: the entity built
from the form and the collection with the entity put at the front (a new task) or in the place
of the entry with the form's id (an edit). The result is `none` when the handler returns at the
missing title. -/
def saveFormBegin (toNumber : JVal → JVal) (data : Obj) (owners execs : List JVal)
    (c : Client) : Option (Obj × Client) :=
  let isEdit := truthy (data.get "id")
  if !truthy (data.get "title") then none
  else
    let (id, env) :=
      if isEdit then ((data.get "id").getD .null, c.env)
      else
        let (nowMs, env) := c.env.dateNow
        let (r, env) := env.mathRandom
        (JVal.str ("t_new_" ++ toString nowMs ++ "_" ++ r.base36), env)
    let (entity, env) := ensureTaskMeta (formEntity toNumber data owners execs id) env
    if isEdit then
      match findIndex (fun x => refEq (x.get "id") (data.get "id")) c.TASKS with
      | some idx =>
        let existing := c.TASKS.getD idx []
        let entity :=
          if !truthy (data.get "content") && truthy (existing.get "content") then
            entity.set "content" ((existing.get "content").getD .null)
          else entity
        let entity :=
          if !truthy (data.get "files") && truthy (existing.get "files") then
            entity.set "files" ((existing.get "files").getD .null)
          else entity
        some (entity, { TASKS := c.TASKS.set idx entity, env := env })
      | none => some (entity, { c with env := env })
    else some (entity, { TASKS := entity :: c.TASKS, env := env })

/-- The function `persistTask(task)` for a task that has a numeric version and an `updatedAt`
already, as the entity of the save handler has, so that the opening `ensureTaskMeta(task)`
changes nothing. `outcome` is the outcome of the server call; the `catch` branch reports the
error and throws it again. -/
def persistTask (outcome : Except JVal Obj) (task : Obj) (c : Client) :
    Except JVal Obj × Client :=
  match outcome with
  | .ok saved => (.ok (persistTaskSaved task saved c).1, (persistTaskSaved task saved c).2)
  | .error e => (.error e, c)

/-- The click handler of the save button; its `catch` branch shows a notification. -/
def saveForm (toNumber : JVal → JVal) (outcome : Except JVal Obj) (data : Obj)
    (owners execs : List JVal) (c : Client) : Client :=
  match saveFormBegin toNumber data owners execs c with
  | none => c
  | some (entity, c1) => (persistTask outcome entity c1).2

/-- What a call of `loadTasks` leaves behind. -/
structure LoadResult where
  /-- The collection `TASKS` and the clock. -/
  client : Client
  /-- The flag `isDataLoading`. -/
  isDataLoading : Bool
  /-- The value thrown to the caller, if any. -/
  thrown : Option JVal

/-- The call `tasks.map(t => ensureTaskMeta(t))` of `loadTasks`: `ensureTaskMeta` throws on
`null`. The collection of the model holds records only, so the result is `none` when an element
that is neither a record nor `null` comes before the first `null`. -/
def ensureAll : List JVal → Env → Option (Except JsError (List Obj) × Env)
  | [], env => some (.ok [], env)
  | .obj o :: rest, env =>
    match ensureAll rest (ensureTaskMeta o env).2 with
    | some (.ok ts, env) => some (.ok ((ensureTaskMeta o env).1 :: ts), env)
    | other => other
  | .null :: _, env => some (.error .typeError, env)
  | _ :: _, _ => none

/-- The function `loadTasks()`; `outcome` is the outcome of `TaskAPI.getAll()`. The flag is set
at the start and cleared in the `finally` block; every error is caught and logged. -/
def loadTasks (outcome : Except JVal JVal) (c : Client) : Option LoadResult :=
  match outcome with
  | .error _ => some ⟨c, false, none⟩
  | .ok (.arr items) =>
    match ensureAll items c.env with
    | some (.ok ts, env) => some ⟨{ TASKS := ts, env := env }, false, none⟩
    | some (.error _, env) => some ⟨{ TASKS := [], env := env }, false, none⟩
    | none => none
  | .ok _ => some ⟨{ c with TASKS := [] }, false, none⟩

/-- The test `Array.isArray(v)` on a value. -/
def isArray : JVal → Bool
  | .arr _ => true
  | _ => false

/-- The property that a failing save from the task form is reverted: whatever the error, the
collection after the failure is the collection before the save handler ran. -/
def SaveRevertsAsStated (toNumber : JVal → JVal) (data : Obj) (owners execs : List JVal)
    (c : Client) : Prop :=
  ∀ e, (saveForm toNumber (.error e) data owners execs c).TASKS = c.TASKS

/-- The specification's wording of `loadTasks` without a task list: when the request fails or
resolves with a value that is not an array, the collection is left as it was, the flag is
cleared and nothing is thrown. -/
def LoadKeepsAsStated (c : Client) : Prop :=
  ∀ outcome, (∀ v, outcome = .ok v → isArray v = false) →
    ∃ r, loadTasks outcome c = some r ∧ r.client.TASKS = c.TASKS ∧ r.isDataLoading = false
      ∧ r.thrown = none

/-- The entries of the task form for a new task. -/
def newTaskForm : Obj :=
  [("id", .str ""), ("title", .str "report"), ("status", .str "進行中"), ("priority", .str "高"),
    ("progress", .str "40")]

/-- The entries of the task form for an edit of the task `t_3`. -/
def editTaskForm : Obj :=
  [("id", .str "t_3"), ("title", .str "edited"), ("status", .str "完成"), ("priority", .str "低"),
    ("progress", .str "100")]

/-- The conversion `Number(v)` on numbers and on strings of decimal digits; the other operands,
which the sample forms do not use, are sent to 0. -/
def digitsToNumber : JVal → JVal
  | .num n => .num n
  | .str s =>
    match s.toNat? with
    | some n => .num n
    | none => .num 0
  | _ => .num 0

/-! ## Server: the task handlers over a storage that can fail (`server.js`) -/

/-- The state of the file `tasks.json` as `fs.readFile` and `JSON.parse` find it. -/
inductive FileState where
  /-- The file does not exist: `fs.readFile` fails with the code `ENOENT`. -/
  | missing
  /-- The file holds the JSON text of an array of records. -/
  | holds (tasks : List Obj)
  /-- The file cannot be read, or its text is not JSON: another failure than `ENOENT`. -/
  | unreadable
deriving DecidableEq

/-- The storage under the server: the task file, and whether `fs.writeFile` fails. -/
structure Disk where
  /-- The task file. -/
  file : FileState
  /-- The outcome of every `fs.writeFile`: true when it fails. -/
  writeFails : Bool
deriving DecidableEq

/-- The function `writeDataFile(filePath, data)`: the error of a failing write is caught and
logged, and the result is `false`. -/
def writeDataFile (data : List Obj) (d : Disk) : Bool × Disk :=
  if d.writeFails then (false, d) else (true, { d with file := .holds data })

/-- The function `readDataFile(filePath, defaultValue)`: a missing file is created with the
default value; any other failure is logged and answered with the default value. -/
def readDataFile (defaultValue : List Obj) (d : Disk) : List Obj × Disk :=
  match d.file with
  | .holds tasks => (tasks, d)
  | .missing => (defaultValue, (writeDataFile defaultValue d).2)
  | .unreadable => (defaultValue, d)

/-- The server process over a storage that can fail. -/
structure DiskServer where
  /-- The storage. -/
  disk : Disk
  /-- Clock, random source and counter. -/
  env : Env

/-- The function `loadTasksWithMetadata()` over a storage that can fail: the result of
`writeDataFile` is not looked at. -/
def loadTasksOnDisk (s : DiskServer) : Except JsError (List Obj) × DiskServer :=
  let (tasks, disk) := readDataFile [] s.disk
  let existingIds := (tasks.map (fun t => t.get "id")).filter truthy
  match normalizeAll existingIds tasks s.env with
  | (.error e, env) => (.error e, { disk := disk, env := env })
  | (.ok (normalized, changed), env) =>
    let duplicates := duplicateIndices normalized 0 []
    let changed := changed || decide (duplicates.length > 0)
    let (normalized, env) := remintDuplicates duplicates normalized env
    (.ok normalized,
      { disk := if changed then (writeDataFile normalized disk).2 else disk, env := env })

/-- The handler of `GET /api/tasks` over a storage that can fail. -/
def listAllOnDisk (s : DiskServer) : Response × DiskServer :=
  match loadTasksOnDisk s with
  | (.error _, s) => (⟨500, errorBody "獲取任務失敗"⟩, s)
  | (.ok tasks, s) => (⟨200, .arr (tasks.map .obj)⟩, s)

/-- The single-object branch of `POST /api/tasks` over a storage that can fail: the result of
`writeDataFile` is not looked at. -/
def createOneOnDisk (body : Obj) (s : DiskServer) : Response × DiskServer :=
  match loadTasksOnDisk s with
  | (.error _, s) => (⟨500, errorBody "保存任務失敗"⟩, s)
  | (.ok tasks, s) =>
    let existingIds := tasks.map (fun t => t.get "id")
    let taskData := Obj.del body "id"
    match normalizeTask taskData existingIds s.env with
    | (.error _, env) => (⟨500, errorBody "保存任務失敗"⟩, { s with env := env })
    | (.ok newTask, env) =>
      let (newTask, env) :=
        if includes existingIds (newTask.get "id") then
          let (id, env) := generateUniqueTaskId existingIds env
          (newTask.set "id" (.str id), env)
        else (newTask, env)
      let tasks := tasks ++ [newTask]
      (⟨201, .obj newTask⟩, { disk := (writeDataFile tasks s.disk).2, env := env })

/-- The handler of `PUT /api/tasks/:id` over a storage that can fail: the result of
`writeDataFile` is not looked at. -/
def updateOneOnDisk (id : String) (incoming : Obj) (s : DiskServer) : Response × DiskServer :=
  match loadTasksOnDisk s with
  | (.error _, s) => (⟨500, errorBody "更新任務失敗"⟩, s)
  | (.ok tasks, s) =>
    match findIndex (hasId id) tasks with
    | none => (⟨404, errorBody "任務不存在"⟩, s)
    | some idx =>
      let current := tasks.getD idx []
      let (nowMs, env) := s.env.dateNow
      let updated :=
        (((Obj.spread current incoming).set "id" (.str id)).set "version"
          (nextVersion (current.get "version"))).set "updatedAt" (.str (toISOString nowMs))
      (⟨200, .obj updated⟩,
        { disk := (writeDataFile (tasks.set idx updated) s.disk).2, env := env })

/-- The handler of `DELETE /api/tasks/:id` over a storage that can fail: the result of
`writeDataFile` is not looked at. -/
def deleteOneOnDisk (id : String) (s : DiskServer) : Response × DiskServer :=
  match loadTasksOnDisk s with
  | (.error _, s) => (⟨500, errorBody "刪除任務失敗"⟩, s)
  | (.ok tasks, s) =>
    match findIndex (hasId id) tasks with
    | none => (⟨404, errorBody "任務不存在"⟩, s)
    | some idx =>
      (⟨200, .obj [("success", .bool true)]⟩,
        { s with disk := (writeDataFile (tasks.eraseIdx idx) s.disk).2 })

/-- The stored list of `sampleStore` on a storage whose writes fail. -/
def readOnlyServer : DiskServer :=
  ⟨⟨.holds sampleStore.tasksFile, true⟩, sampleEnv⟩

/-- A task file that cannot be read. -/
def unreadableServer : DiskServer :=
  ⟨⟨.unreadable, false⟩, sampleEnv⟩

/-! ## Server: the hash of `GET /api/version` (`server.js`) -/

/-- The expression `tasks.length + '_' + (tasks[0]?.updatedAt || '')` of `GET /api/version`:
the hash of the task collection. -/
def tasksHash (tasks : List Obj) : String :=
  toString tasks.length ++ "_"
    ++ jsToString (orElse (tasks.head?.bind fun t => t.get "updatedAt") (.str ""))

/-- The comparison `tTime > lTime` of two results of `getTime()`; `none` is `NaN`. -/
def laterTime : Option Int → Option Int → Bool
  | some a, some b => decide (a > b)
  | _, _ => false

/-- The entry `lastUpdate` of `GET /api/version`: the `updatedAt` of the record the `reduce`
keeps, `null` for an empty collection. `getTime` stands for `new Date(v).getTime()`. -/
def lastUpdate (getTime : JVal → Option Int) (tasks : List Obj) : Option JVal :=
  match tasks with
  | [] => some .null
  | first :: _ =>
    (tasks.foldl (fun latest t =>
      if laterTime (getTime (orElse (t.get "updatedAt") (.num 0)))
          (getTime (orElse (latest.get "updatedAt") (.num 0))) then t
      else latest) first).get "updatedAt"

/-- The entry `tasks` of the response of `GET /api/version`. A `lastUpdate` that is `undefined`
is left out by `res.json`. -/
def versionTasks (getTime : JVal → Option Int) (tasks : List Obj) : Obj :=
  [("count", .num tasks.length)]
    ++ (match lastUpdate getTime tasks with
        | some v => [("lastUpdate", v)]
        | none => [])
    ++ [("hash", .str (tasksHash tasks))]

/-- The handler of `GET /api/version`, as far as the task collection goes: the entries `users`
and `notes` of the response, computed from two other files, are left out. -/
def getVersion (getTime : JVal → Option Int) (s : Server) : Response × Server :=
  match loadTasksWithMetadata s with
  | (.error _, s) => (⟨500, errorBody "獲取版本信息失敗"⟩, s)
  | (.ok tasks, s) =>
    let (nowMs, env) := s.env.dateNow
    (⟨200, .obj [("tasks", .obj (versionTasks getTime tasks)),
        ("timestamp", .str (toISOString nowMs))]⟩, { s with env := env })

/-- A store with two tasks in normal form, both last updated on 2023-01-01. -/
def twoTaskStore : Server :=
  ⟨[recordWithId "t_1", recordWithId "t_2"], sampleEnv⟩

/-- The hash of the task collection in the response of `getVersion`. -/
def hashOf (r : Response) : Option JVal :=
  match r.body with
  | .obj o =>
    match Obj.get o "tasks" with
    | some (.obj t) => Obj.get t "hash"
    | _ => none
  | _ => none

/-! ## Client: `isCompletedThisWeek` (`app.js`) -/

/-- The milliseconds of a day. -/
def msPerDay : Int := 86400000

/-- The method `getDay()` of a date, 0 being Sunday; a date is its number of milliseconds on the
local time line, whose offset is taken as constant. 1970-01-01 was a Thursday. -/
def getDay (t : Int) : Int :=
  (t / msPerDay + 4) % 7

/-- The date `first` of `isCompletedThisWeek`: `setDate(now.getDate() - now.getDay() + 1)` moves
the date by `1 - getDay()` days, and `setHours(0, 0, 0, 0)` goes to the start of that day. -/
def weekFirst (now : Int) : Int :=
  (now / msPerDay - getDay now + 1) * msPerDay

/-- The date `last` of `isCompletedThisWeek`: six days after `first`, at 23:59:59.999. -/
def weekLast (now : Int) : Int :=
  (weekFirst now / msPerDay + 6) * msPerDay + 86399999

/-- The function `isCompletedThisWeek(task)`; `now` is the reading of the clock and `parse`
stands for `new Date(v)`, `none` being an invalid date, which no comparison accepts. -/
def isCompletedThisWeek (parse : JVal → Option Int) (now : Int) (task : Obj) : Bool :=
  if !strictEq (task.get "status") (some (.str "完成")) || !truthy (task.get "completeDate")
  then false
  else
    match parse ((task.get "completeDate").getD .null) with
    | some d => decide (d ≥ weekFirst now) && decide (d ≤ weekLast now)
    | none => false

/-- The Monday, as a number of days, of the Monday-to-Sunday week that contains `now`. -/
def mondayOf (now : Int) : Int :=
  now / msPerDay - (getDay now + 6) % 7

/-- The specification's `isCompletedThisWeek`: the status is `完成` and the completion date
lies between Monday 00:00:00.000 and Sunday 23:59:59.999 of the week that contains `now`. -/
def completedInWeekOf (parse : JVal → Option Int) (now : Int) (task : Obj) : Bool :=
  strictEq (task.get "status") (some (.str "完成")) && truthy (task.get "completeDate")
    && match parse ((task.get "completeDate").getD .null) with
      | some d =>
        decide (mondayOf now * msPerDay ≤ d) && decide (d ≤ (mondayOf now + 6) * msPerDay + 86399999)
      | none => false

/-- The reading of the clock on Sunday 2023-11-19 at 12:00:00.000. -/
def sundayNoon : Int := 1700395200000

/-- The constructor `new Date(v)` on a number of milliseconds, for a local time without offset;
this stand-in takes every other operand as an invalid date. -/
def dateOfNumber : JVal → Option Int
  | .num n => some n
  | _ => none

/-- A task completed on Sunday 2023-11-19 at 12:00:00.000. -/
def taskDoneOnSunday : Obj :=
  [("id", .str "t_1"), ("status", .str "完成"), ("completeDate", .num 1700395200000)]

/-! ## The idempotence of the periodic sync merge, as the specification words it -/

/-- The specification's wording of the idempotence of the periodic sync merge: when all ids are
strings, a second merge of the same server list leaves the collection as the first left it. -/
def SyncIdempotentAsStated (coerced : JVal → JVal → Bool) (tasks : List Obj) (c : Client) :
    Prop :=
  (∀ t ∈ c.TASKS, hasStringId t = true) → (∀ t ∈ tasks, hasStringId t = true) →
    (syncMerge coerced tasks (syncMerge coerced tasks c)).TASKS
      = (syncMerge coerced tasks c).TASKS

/-- A client holding the task `t_1` at version 1. -/
def clientVersionOne : Client :=
  ⟨[[("id", .str "t_1"), ("title", .str "local"), ("version", .num 1),
      ("updatedAt", .str "2023-01-01T00:00:00.000Z")]], sampleEnv⟩

/-- A server list that holds the id `t_1` twice, at version 5 and then at version 3. -/
def serverListTwice : List Obj :=
  [[("id", .str "t_1"), ("title", .str "five"), ("version", .num 5),
      ("updatedAt", .str "2023-01-05T00:00:00.000Z")],
    [("id", .str "t_1"), ("title", .str "three"), ("version", .num 3),
      ("updatedAt", .str "2023-01-03T00:00:00.000Z")]]

/-! # Properties -/

/-! ## Records: reading after writing -/

namespace Obj

@[simp] theorem get_nil (k : String) : get [] k = none := rfl

theorem get_cons (k1 : String) (v1 : JVal) (rest : Obj) (k : String) :
    get ((k1, v1) :: rest) k = (get rest k).or (if k1 = k then some v1 else none) := rfl

@[simp] theorem has_nil (k : String) : has [] k = false := rfl

theorem has_cons (k1 : String) (v1 : JVal) (rest : Obj) (k : String) :
    has ((k1, v1) :: rest) k = (k1 == k || has rest k) := by
  simp [has]

theorem get_eq_none_iff (o : Obj) (k : String) : o.get k = none ↔ o.has k = false := by
  induction o with
  | nil => simp
  | cons e rest ih =>
    obtain ⟨k1, v1⟩ := e
    rw [get_cons, has_cons]
    by_cases h1 : k1 = k
    · simp [h1]
    · simp [h1, ih]

theorem has_of_get_eq_some {o : Obj} {k : String} {v : JVal} (h : o.get k = some v) :
    o.has k = true := by
  by_contra hne
  rw [Bool.not_eq_true, ← get_eq_none_iff] at hne
  rw [hne] at h
  cases h

theorem get_append_single (o : Obj) (k k' : String) (v : JVal) :
    get (o ++ [(k, v)]) k' = if k = k' then some v else get o k' := by
  induction o with
  | nil => simp [get_cons]
  | cons e rest ih =>
    obtain ⟨k1, v1⟩ := e
    rw [List.cons_append, get_cons, ih, get_cons]
    by_cases hk : k = k' <;> simp [hk]

theorem get_map_set (o : Obj) (k k' : String) (v : JVal) :
    get (o.map (fun e => if e.1 = k then (k, v) else e)) k'
      = if k = k' then (if o.has k then some v else none) else get o k' := by
  induction o with
  | nil => simp
  | cons e rest ih =>
    obtain ⟨k1, v1⟩ := e
    rw [List.map_cons, has_cons]
    by_cases h1 : k1 = k
    · subst h1
      rw [if_pos rfl, get_cons, ih, get_cons]
      by_cases hk : k1 = k'
      · subst hk
        by_cases hr : has rest k1 <;> simp [hr]
      · simp [hk]
    · rw [if_neg h1, get_cons, ih, get_cons]
      by_cases hk : k = k'
      · subst hk
        by_cases hr : has rest k <;> simp [hr, h1]
      · simp [hk]

theorem get_set (o : Obj) (k k' : String) (v : JVal) :
    (o.set k v).get k' = if k = k' then some v else o.get k' := by
  unfold set
  by_cases h : o.has k
  · rw [if_pos h, get_map_set]
    simp [h]
  · rw [if_neg h, get_append_single]

@[simp] theorem get_set_same (o : Obj) (k : String) (v : JVal) : (o.set k v).get k = some v := by
  simp [get_set]

theorem get_set_of_ne (o : Obj) {k k' : String} (v : JVal) (h : k ≠ k') :
    (o.set k v).get k' = o.get k' := by
  simp [get_set, h]

theorem get_spread (base src : Obj) (k : String) :
    (spread base src).get k = (src.get k).or (base.get k) := by
  unfold spread
  induction src generalizing base with
  | nil => simp
  | cons e rest ih =>
    obtain ⟨k1, v1⟩ := e
    rw [List.foldl_cons, ih, get_cons, get_set]
    cases hr : get rest k with
    | some w => simp
    | none => by_cases h1 : k1 = k <;> simp [h1]

theorem get_del (o : Obj) (k k' : String) :
    (del o k).get k' = if k = k' then none else o.get k' := by
  induction o with
  | nil => simp [del]
  | cons e rest ih =>
    obtain ⟨k1, v1⟩ := e
    unfold del at ih ⊢
    by_cases h1 : k1 = k
    · subst h1
      rw [List.filter_cons_of_neg (by simp), ih, get_cons]
      by_cases hk : k1 = k' <;> simp [hk]
    · rw [List.filter_cons_of_pos (by simp [h1]), get_cons, ih, get_cons]
      by_cases hk : k = k'
      · subst hk
        simp [h1]
      · simp [hk]

theorem keys_set (o : Obj) (k : String) (v : JVal) :
    (o.set k v).keys = if o.has k then o.keys else o.keys ++ [k] := by
  unfold set keys
  by_cases h : o.has k
  · rw [if_pos h, if_pos h, List.map_map]
    apply List.map_congr_left
    intro e _
    by_cases he : e.1 = k <;> simp [he]
  · rw [if_neg h, if_neg h]
    simp

end Obj

/-! ## Equality tests -/

mutual
theorem JVal.beq_refl : ∀ v : JVal, JVal.beq v v = true
  | .null => rfl
  | .bool b => by simp [JVal.beq]
  | .num n => by simp [JVal.beq]
  | .str s => by simp [JVal.beq]
  | .arr items => by rw [JVal.beq]; exact JVal.beqList_refl items
  | .obj fields => by rw [JVal.beq]; exact JVal.beqFields_refl fields
theorem JVal.beqList_refl : ∀ l : List JVal, JVal.beqList l l = true
  | [] => rfl
  | a :: as => by rw [JVal.beqList, JVal.beq_refl a, JVal.beqList_refl as]; rfl
theorem JVal.beqFields_refl : ∀ l : List (String × JVal), JVal.beqFields l l = true
  | [] => rfl
  | (k, a) :: as => by
    rw [JVal.beqFields, JVal.beq_refl a, JVal.beqFields_refl as]
    simp
end

theorem strictEq_refl (v : Option JVal) : strictEq v v = true := by
  cases v with
  | none => rfl
  | some a => exact JVal.beq_refl a

theorem strictEq_str_right (v : Option JVal) (s : String) :
    strictEq v (some (.str s)) = true ↔ v = some (.str s) := by
  cases v with
  | none => simp [strictEq]
  | some a => cases a <;> simp [strictEq, JVal.beq]

theorem strictEq_str_left (v : Option JVal) (s : String) :
    strictEq (some (.str s)) v = true ↔ v = some (.str s) := by
  cases v with
  | none => simp [strictEq]
  | some a =>
    cases a <;> simp [strictEq, JVal.beq]
    exact eq_comm

theorem refEq_str_right (v : Option JVal) (s : String) :
    refEq v (some (.str s)) = true ↔ v = some (.str s) := by
  cases v with
  | none => simp [refEq]
  | some a => cases a <;> simp [refEq]

theorem refEq_str_left (v : Option JVal) (s : String) :
    refEq (some (.str s)) v = true ↔ v = some (.str s) := by
  cases v with
  | none => simp [refEq]
  | some a =>
    cases a <;> simp [refEq]
    exact eq_comm

theorem includes_str (ids : List (Option JVal)) (s : String) :
    includes ids (some (.str s)) = true ↔ some (JVal.str s) ∈ ids := by
  unfold includes
  rw [List.any_eq_true]
  constructor
  · rintro ⟨w, hw, h⟩
    rw [strictEq_str_right] at h
    exact h ▸ hw
  · intro h
    exact ⟨_, h, (strictEq_str_right _ _).2 rfl⟩

theorem hasId_iff (id : String) (t : Obj) : hasId id t = true ↔ t.get "id" = some (.str id) :=
  strictEq_str_right _ _

/-! ## The shape of a minted identifier -/

theorem digitChar_ne_n (n : Nat) : Nat.digitChar (n % 10) ≠ 'n' := by
  have h : n % 10 < 10 := Nat.mod_lt _ (by decide)
  generalize n % 10 = m at h
  interval_cases m <;> decide

theorem toDigitsCore_head (fuel n : Nat) (ds : List Char)
    (h : 0 < fuel ∨ ∃ c rest, ds = c :: rest ∧ c ≠ 'n') :
    ∃ c rest, Nat.toDigitsCore 10 fuel n ds = c :: rest ∧ c ≠ 'n' := by
  induction fuel generalizing n ds with
  | zero =>
    rcases h with h | h
    · exact absurd h (by decide)
    · simpa [Nat.toDigitsCore] using h
  | succ fuel ih =>
    rw [Nat.toDigitsCore]
    by_cases h0 : n / 10 = 0
    · simp only [h0, if_true]
      exact ⟨_, _, rfl, digitChar_ne_n n⟩
    · simp only [h0, if_false]
      exact ih _ _ (Or.inr ⟨_, _, rfl, digitChar_ne_n n⟩)

theorem toString_nat_head (n : Nat) :
    ∃ c rest, (toString n).toList = c :: rest ∧ c ≠ 'n' := by
  have h := toDigitsCore_head (n + 1) n [] (Or.inl (Nat.succ_pos n))
  simpa [toString, Nat.repr, Nat.toDigits, List.asString] using h

theorem startsWithTNew_minted (n : Nat) (rest : String) :
    startsWithTNew ("t_" ++ (toString n ++ rest)) = false := by
  obtain ⟨c, tl, hc, hn⟩ := toString_nat_head n
  unfold startsWithTNew
  have h1 : ("t_" ++ (toString n ++ rest)).toList = 't' :: '_' :: c :: (tl ++ rest.toList) := by
    simp only [String.toList, String.data_append] at hc ⊢
    rw [hc]
    rfl
  have h2 : "t_new_".toList = ['t', '_', 'n', 'e', 'w', '_'] := rfl
  rw [h1, h2]
  simp only [List.isPrefixOf, Bool.and_eq_false_imp, beq_iff_eq]
  simp [Ne.symm hn]

theorem startsWithTNew_candidateId (timestamp : Nat) (r : RandomDraw) (counter : Nat) :
    startsWithTNew (candidateId timestamp r counter) = false := by
  unfold candidateId
  simp only [String.append_assoc]
  exact startsWithTNew_minted _ _

theorem startsWithTNew_fallbackId (timestamp : Nat) (r : RandomDraw) (now : Nat) :
    startsWithTNew (fallbackId timestamp r now) = false := by
  unfold fallbackId
  simp only [String.append_assoc]
  exact startsWithTNew_minted _ _

theorem minted_ne_empty (n : Nat) (rest : String) : ("t_" ++ (toString n ++ rest)) ≠ "" := by
  intro h
  have h1 := congrArg String.length h
  rw [String.length_append] at h1
  have h2 : "t_".length = 2 := rfl
  have h3 : "".length = 0 := rfl
  omega

theorem generateLoop_shape (existingIds : List (Option JVal)) (left : Nat) (env : Env) :
    startsWithTNew (generateLoop existingIds left env).1 = false
      ∧ (generateLoop existingIds left env).1 ≠ "" := by
  induction left generalizing env with
  | zero =>
    simp only [generateLoop, Env.dateNow, Env.mathRandom, fallbackId, String.append_assoc]
    exact ⟨startsWithTNew_minted _ _, minted_ne_empty _ _⟩
  | succ left ih =>
    simp only [generateLoop, Env.dateNow, Env.mathRandom]
    split
    · exact ih _
    · simp only [candidateId, String.append_assoc]
      exact ⟨startsWithTNew_minted _ _, minted_ne_empty _ _⟩

theorem generateUniqueTaskId_shape (existingIds : List (Option JVal)) (env : Env) :
    startsWithTNew (generateUniqueTaskId existingIds env).1 = false
      ∧ (generateUniqueTaskId existingIds env).1 ≠ "" :=
  generateLoop_shape existingIds 100 env

/-! ## Normalisation -/

theorem toISOString_ne_empty (ms : Nat) : toISOString ms ≠ "" := by
  intro h
  have h1 := congrArg String.length h
  unfold toISOString at h1
  simp only [String.length_append] at h1
  have h2 : "Z".length = 1 := rfl
  have h3 : "".length = 0 := rfl
  omega

theorem truthy_str {s : String} (h : s ≠ "") : truthy (some (.str s)) = true := by
  simp [truthy, h]

theorem isNumber_iff (v : Option JVal) : isNumber v = true ↔ ∃ n, v = some (.num n) := by
  cases v with
  | none => simp [isNumber]
  | some a => cases a <;> simp [isNumber]

/-- What `normalizeId` returns: the record itself when its id is a usable string, the record
with a minted id when the id is falsy or temporary. -/
theorem normalizeId_ok {task : Obj} {existingIds : List (Option JVal)} {env env1 : Env}
    {normalized : Obj} (h : normalizeId task existingIds env = (.ok normalized, env1)) :
    (normalized = task ∧ env1 = env ∧
        ∃ s, task.get "id" = some (.str s) ∧ s ≠ "" ∧ startsWithTNew s = false)
      ∨ (normalized = task.set "id" (.str (generateUniqueTaskId existingIds env).1)
          ∧ env1 = (generateUniqueTaskId existingIds env).2
          ∧ (truthy (task.get "id") = false
              ∨ ∃ s, task.get "id" = some (.str s) ∧ startsWithTNew s = true)) := by
  unfold normalizeId at h
  by_cases ht : truthy (task.get "id") = true
  · simp only [ht, Bool.not_true, Bool.false_eq_true, if_false] at h
    cases hid : task.get "id" with
    | none => rw [hid] at ht; simp [truthy] at ht
    | some v =>
      rw [hid] at h
      cases v with
      | str s =>
        simp only at h
        by_cases hs : startsWithTNew s = true
        · simp only [hs, if_true, Prod.mk.injEq, Except.ok.injEq] at h
          exact Or.inr ⟨h.1.symm, h.2.symm, Or.inr ⟨s, rfl, hs⟩⟩
        · have hs1 : startsWithTNew s = false := by simpa using hs
          simp only [hs1, Bool.false_eq_true, if_false, Prod.mk.injEq, Except.ok.injEq] at h
          refine Or.inl ⟨h.1.symm, h.2.symm, s, rfl, ?_, hs1⟩
          rw [hid] at ht
          simpa [truthy] using ht
      | null => simp at h
      | bool b => simp at h
      | num n => simp at h
      | arr a => simp at h
      | obj o => simp at h
  · simp only [ht, Bool.not_false, if_true, Prod.mk.injEq, Except.ok.injEq] at h
    · exact Or.inr ⟨h.1.symm, h.2.symm, Or.inl (by simpa using ht)⟩

/-- The id of a record returned by `normalizeId` is a non-empty string without the temporary
marker. -/
theorem normalizeId_id {task : Obj} {existingIds : List (Option JVal)} {env env1 : Env}
    {normalized : Obj} (h : normalizeId task existingIds env = (.ok normalized, env1)) :
    ∃ s, normalized.get "id" = some (.str s) ∧ s ≠ "" ∧ startsWithTNew s = false := by
  rcases normalizeId_ok h with ⟨rfl, _, hs⟩ | ⟨rfl, _, _⟩
  · exact hs
  · exact ⟨_, Obj.get_set_same _ _ _, (generateUniqueTaskId_shape _ _).2,
      (generateUniqueTaskId_shape _ _).1⟩

/-- The two metadata assignments that end `normalizeTask`. -/
theorem normalizeTask_eq (task : Obj) (existingIds : List (Option JVal)) (env : Env) :
    normalizeTask task existingIds env =
      match normalizeId task existingIds env.dateNow.2 with
      | (.error e, env1) => (.error e, env1)
      | (.ok normalized, env1) =>
        let withVersion :=
          if !isNumber (normalized.get "version") then normalized.set "version" (.num 1)
          else normalized
        (.ok (if !truthy (withVersion.get "updatedAt")
            then withVersion.set "updatedAt" (.str (toISOString env.dateNow.1))
            else withVersion), env1) := rfl

/-- A successful `normalizeTask` went through a successful `normalizeId`. -/
theorem normalizeTask_ok {task : Obj} {existingIds : List (Option JVal)} {env env1 : Env}
    {nt : Obj} (h : normalizeTask task existingIds env = (.ok nt, env1)) :
    ∃ normalized, normalizeId task existingIds env.dateNow.2 = (.ok normalized, env1)
      ∧ nt.get "id" = normalized.get "id"
      ∧ nt.get "version"
          = (if isNumber (normalized.get "version") then normalized.get "version"
              else some (.num 1))
      ∧ nt.get "updatedAt"
          = (if truthy (normalized.get "updatedAt") then normalized.get "updatedAt"
              else some (.str (toISOString env.dateNow.1)))
      ∧ (∀ k, k ≠ "version" → k ≠ "updatedAt" → nt.get k = normalized.get k)
      ∧ (isNumber (normalized.get "version") = true → truthy (normalized.get "updatedAt") = true
          → nt = normalized) := by
  rw [normalizeTask_eq] at h
  cases hn : normalizeId task existingIds env.dateNow.2 with
  | mk r e =>
    rw [hn] at h
    cases r with
    | error err => simp at h
    | ok normalized =>
      simp only [Prod.mk.injEq, Except.ok.injEq] at h
      obtain ⟨hnt, he⟩ := h
      subst he
      refine ⟨normalized, rfl, ?_⟩
      subst hnt
      by_cases hv : isNumber (normalized.get "version") = true
      · by_cases hu : truthy (normalized.get "updatedAt") = true
        · simp [hv, hu]
        · have hu1 : truthy (normalized.get "updatedAt") = false := by simpa using hu
          simp [hv, hu1, Obj.get_set]
          intro k _ h2
          simp [Ne.symm h2]
      · have hv1 : isNumber (normalized.get "version") = false := by simpa using hv
        have hvu : (normalized.set "version" (.num 1)).get "updatedAt"
            = normalized.get "updatedAt" := Obj.get_set_of_ne _ _ (by decide)
        by_cases hu : truthy (normalized.get "updatedAt") = true
        · simp [hv1, hu, hvu, Obj.get_set]
          intro k h1 _
          simp [Ne.symm h1]
        · have hu1 : truthy (normalized.get "updatedAt") = false := by simpa using hu
          simp [hv1, hu1, hvu, Obj.get_set]
          intro k h1 h2
          simp [Ne.symm h1, Ne.symm h2]

/-- Every record that `normalizeTask` returns has a usable string id, a numeric version and a
truthy `updatedAt`. -/
theorem normalizeTask_normal {task : Obj} {existingIds : List (Option JVal)} {env env1 : Env}
    {nt : Obj} (h : normalizeTask task existingIds env = (.ok nt, env1)) :
    (∃ s, nt.get "id" = some (.str s) ∧ s ≠ "" ∧ startsWithTNew s = false)
      ∧ isNumber (nt.get "version") = true ∧ truthy (nt.get "updatedAt") = true := by
  obtain ⟨normalized, hn, hid, hv, hu, _, _⟩ := normalizeTask_ok h
  refine ⟨?_, ?_, ?_⟩
  · rw [hid]
    exact normalizeId_id hn
  · rw [hv]
    by_cases hv1 : isNumber (normalized.get "version") = true
    · rw [if_pos hv1]
      exact hv1
    · rw [if_neg hv1]
      rfl
  · rw [hu]
    by_cases hu1 : truthy (normalized.get "updatedAt") = true
    · rw [if_pos hu1]
      exact hu1
    · rw [if_neg hu1]
      exact truthy_str (toISOString_ne_empty _)

theorem isNormal_iff (t : Obj) :
    isNormal t = true ↔
      (∃ s, t.get "id" = some (.str s) ∧ s ≠ "" ∧ startsWithTNew s = false)
        ∧ isNumber (t.get "version") = true ∧ truthy (t.get "updatedAt") = true := by
  unfold isNormal
  cases hid : t.get "id" with
  | none => simp
  | some v => cases v <;> simp [and_assoc]

theorem normalizeTask_isNormal {task : Obj} {existingIds : List (Option JVal)} {env env1 : Env}
    {nt : Obj} (h : normalizeTask task existingIds env = (.ok nt, env1)) :
    isNormal nt = true :=
  (isNormal_iff nt).2 (normalizeTask_normal h)

/-- A record already in normal form is returned as it is; only the clock is read. -/
theorem normalizeTask_of_isNormal {t : Obj} (h : isNormal t = true)
    (existingIds : List (Option JVal)) (env : Env) :
    normalizeTask t existingIds env = (.ok t, env.dateNow.2) := by
  obtain ⟨⟨s, hid, hs, ht⟩, hv, hu⟩ := (isNormal_iff t).1 h
  have hid1 : normalizeId t existingIds env.dateNow.2 = (.ok t, env.dateNow.2) := by
    unfold normalizeId
    have htr : truthy (some (JVal.str s)) = true := truthy_str hs
    simp [htr, hid, ht]
  rw [normalizeTask_eq, hid1]
  simp [hv, hu]

theorem normalizeAll_ok {existingIds : List (Option JVal)} {tasks : List Obj} {env env1 : Env}
    {nts : List Obj} {changed : Bool}
    (h : normalizeAll existingIds tasks env = (.ok (nts, changed), env1)) :
    nts.length = tasks.length ∧ ∀ t ∈ nts, isNormal t = true := by
  induction tasks generalizing env env1 nts changed with
  | nil =>
    simp only [normalizeAll, Prod.mk.injEq, Except.ok.injEq] at h
    obtain ⟨⟨rfl, _⟩, _⟩ := h
    simp
  | cons t rest ih =>
    rw [normalizeAll] at h
    cases h1 : normalizeTask t existingIds env with
    | mk r e =>
      rw [h1] at h
      cases r with
      | error err => simp at h
      | ok nt =>
        simp only at h
        cases h2 : normalizeAll existingIds rest e with
        | mk r2 e2 =>
          rw [h2] at h
          cases r2 with
          | error err => simp at h
          | ok p =>
            obtain ⟨nts2, ch2⟩ := p
            simp only [Prod.mk.injEq, Except.ok.injEq] at h
            obtain ⟨⟨rfl, _⟩, _⟩ := h
            obtain ⟨hl, hall⟩ := ih h2
            refine ⟨by simp [hl], ?_⟩
            intro x hx
            rcases List.mem_cons.1 hx with rfl | hx
            · exact normalizeTask_isNormal h1
            · exact hall x hx

theorem isNormal_set_id {t : Obj} (h : isNormal t = true) {s : String} (hs : s ≠ "")
    (ht : startsWithTNew s = false) : isNormal (t.set "id" (.str s)) = true := by
  obtain ⟨_, hv, hu⟩ := (isNormal_iff t).1 h
  refine (isNormal_iff _).2 ⟨⟨s, Obj.get_set_same _ _ _, hs, ht⟩, ?_, ?_⟩
  · rw [Obj.get_set_of_ne _ _ (by decide)]
    exact hv
  · rw [Obj.get_set_of_ne _ _ (by decide)]
    exact hu

theorem length_modifyAt (f : Obj → Obj) (index : Nat) (l : List Obj) :
    (modifyAt f index l).length = l.length := by
  induction l generalizing index with
  | nil => cases index <;> rfl
  | cons t ts ih =>
    cases index with
    | zero => rfl
    | succ i => simp [modifyAt, ih]

theorem forall_modifyAt {p : Obj → Prop} {f : Obj → Obj} (hf : ∀ t, p t → p (f t))
    (index : Nat) {l : List Obj} (h : ∀ t ∈ l, p t) : ∀ t ∈ modifyAt f index l, p t := by
  induction l generalizing index with
  | nil => cases index <;> simp [modifyAt]
  | cons t ts ih =>
    cases index with
    | zero =>
      intro x hx
      rcases List.mem_cons.1 hx with rfl | hx
      · exact hf _ (h _ (List.mem_cons_self _ _))
      · exact h _ (List.mem_cons_of_mem _ hx)
    | succ i =>
      intro x hx
      rcases List.mem_cons.1 hx with rfl | hx
      · exact h _ (List.mem_cons_self _ _)
      · exact ih i (fun y hy => h _ (List.mem_cons_of_mem _ hy)) x hx

theorem remintDuplicates_ok (duplicates : List Nat) (normalized : List Obj) (env : Env)
    (h : ∀ t ∈ normalized, isNormal t = true) :
    (remintDuplicates duplicates normalized env).1.length = normalized.length
      ∧ ∀ t ∈ (remintDuplicates duplicates normalized env).1, isNormal t = true := by
  induction duplicates generalizing normalized env with
  | nil => exact ⟨rfl, h⟩
  | cons index rest ih =>
    rw [remintDuplicates]
    have hshape := generateUniqueTaskId_shape (normalized.map fun t => t.get "id") env
    have h1 := forall_modifyAt (p := fun t => isNormal t = true)
      (f := fun t => t.set "id" (.str (generateUniqueTaskId
        (normalized.map fun t => t.get "id") env).1))
      (fun t ht => isNormal_set_id ht hshape.2 hshape.1) index h
    obtain ⟨hl, hall⟩ := ih _ (generateUniqueTaskId (normalized.map fun t => t.get "id") env).2 h1
    exact ⟨by rw [hl, length_modifyAt], hall⟩

/-- The body of `loadTasksWithMetadata`, with the bindings unfolded. -/
theorem loadTasksWithMetadata_eq (s : Server) :
    loadTasksWithMetadata s =
      match normalizeAll ((s.tasksFile.map fun t => t.get "id").filter truthy) s.tasksFile
          s.env with
      | (.error e, env) => (.error e, { s with env := env })
      | (.ok (normalized, changed), env) =>
        (.ok (remintDuplicates (duplicateIndices normalized 0 []) normalized env).1,
          { tasksFile :=
              if (changed || decide ((duplicateIndices normalized 0 []).length > 0)) = true
              then (remintDuplicates (duplicateIndices normalized 0 []) normalized env).1
              else s.tasksFile,
            env := (remintDuplicates (duplicateIndices normalized 0 []) normalized env).2 }) :=
  rfl

/-- The list `loadTasksWithMetadata` returns has the length of the stored one and holds records
in normal form only. -/
theorem loadTasksWithMetadata_ok {s s1 : Server} {tasks : List Obj}
    (h : loadTasksWithMetadata s = (.ok tasks, s1)) :
    tasks.length = s.tasksFile.length ∧ ∀ t ∈ tasks, isNormal t = true := by
  rw [loadTasksWithMetadata_eq] at h
  cases hn : normalizeAll ((s.tasksFile.map fun t => t.get "id").filter truthy) s.tasksFile s.env with
  | mk r e =>
    rw [hn] at h
    cases r with
    | error err => simp at h
    | ok p =>
      obtain ⟨normalized, changed⟩ := p
      simp only [Prod.mk.injEq, Except.ok.injEq] at h
      obtain ⟨hl, hall⟩ := normalizeAll_ok hn
      obtain ⟨hl2, hall2⟩ := remintDuplicates_ok (duplicateIndices normalized 0 []) normalized e hall
      rw [← h.1]
      exact ⟨by rw [hl2, hl], hall2⟩

/-! ## Lists: `findIndex` and replacement at an index -/

theorem findIndex_eq_none_iff (p : Obj → Bool) (l : List Obj) :
    findIndex p l = none ↔ ∀ t ∈ l, p t = false := by
  induction l with
  | nil => simp [findIndex]
  | cons t ts ih =>
    rw [findIndex]
    by_cases h : p t = true
    · simp [h]
    · have h1 : p t = false := by simpa using h
      simp [h1, ih]

/-- The index `findIndex` returns is the position of the first element that passes the test. -/
theorem findIndex_eq_some_iff (p : Obj → Bool) (l : List Obj) (i : Nat) :
    findIndex p l = some i ↔
      ∃ before cur after, l = before ++ cur :: after ∧ before.length = i
        ∧ p cur = true ∧ ∀ t ∈ before, p t = false := by
  induction l generalizing i with
  | nil => simp [findIndex]
  | cons t ts ih =>
    rw [findIndex]
    by_cases h : p t = true
    · rw [if_pos h]
      constructor
      · intro hi
        cases hi
        exact ⟨[], t, ts, rfl, rfl, h, by simp⟩
      · rintro ⟨before, cur, after, hl, hlen, hp, hb⟩
        cases before with
        | nil => simp at hlen; rw [hlen]
        | cons b bs =>
          simp only [List.cons_append, List.cons.injEq] at hl
          have := hb b (List.mem_cons_self _ _)
          rw [← hl.1, h] at this
          cases this
    · have h1 : p t = false := by simpa using h
      rw [if_neg h]
      constructor
      · intro hi
        cases hf : findIndex p ts with
        | none => rw [hf] at hi; cases hi
        | some j =>
          rw [hf] at hi
          simp only [Option.map_some', Option.some.injEq] at hi
          obtain ⟨before, cur, after, hl, hlen, hp, hb⟩ := (ih j).1 hf
          refine ⟨t :: before, cur, after, by simp [hl], by simp [hlen, hi], hp, ?_⟩
          intro x hx
          rcases List.mem_cons.1 hx with rfl | hx
          · exact h1
          · exact hb x hx
      · rintro ⟨before, cur, after, hl, hlen, hp, hb⟩
        cases before with
        | nil =>
          simp only [List.nil_append, List.cons.injEq] at hl
          rw [hl.1, hp] at h1
          cases h1
        | cons b bs =>
          simp only [List.cons_append, List.cons.injEq] at hl
          have hj : findIndex p ts = some bs.length :=
            (ih bs.length).2 ⟨bs, cur, after, hl.2, rfl, hp,
              fun x hx => hb x (List.mem_cons_of_mem _ hx)⟩
          rw [hj]
          simp only [List.length_cons] at hlen
          simp [hlen]

theorem find?_append_of_first {p : Obj → Bool} {before after : List Obj} {cur : Obj}
    (hp : p cur = true) (hb : ∀ t ∈ before, p t = false) :
    (before ++ cur :: after).find? p = some cur := by
  induction before with
  | nil => simp [hp]
  | cons b bs ih =>
    have hb0 : p b = false := hb b (List.mem_cons_self _ _)
    simp only [List.cons_append, List.find?_cons, hb0]
    exact ih (fun x hx => hb x (List.mem_cons_of_mem _ hx))

theorem find?_eq_some_split {p : Obj → Bool} {l : List Obj} {cur : Obj}
    (h : l.find? p = some cur) :
    ∃ before after, l = before ++ cur :: after ∧ p cur = true ∧ ∀ t ∈ before, p t = false := by
  induction l with
  | nil => simp at h
  | cons t ts ih =>
    rw [List.find?_cons] at h
    by_cases hp : p t = true
    · rw [hp] at h
      simp only [Option.some.injEq] at h
      subst h
      exact ⟨[], ts, rfl, hp, by simp⟩
    · have h1 : p t = false := by simpa using hp
      rw [h1] at h
      obtain ⟨before, after, hl, hc, hb⟩ := ih h
      refine ⟨t :: before, after, by simp [hl], hc, ?_⟩
      intro x hx
      rcases List.mem_cons.1 hx with rfl | hx
      · exact h1
      · exact hb x hx

theorem set_append_length (before after : List Obj) (cur x : Obj) :
    (before ++ cur :: after).set before.length x = before ++ x :: after := by
  induction before with
  | nil => rfl
  | cons b bs ih => simp [ih]

theorem getD_append_length (before after : List Obj) (cur d : Obj) :
    (before ++ cur :: after).getD before.length d = cur := by
  induction before with
  | nil => rfl
  | cons b bs ih => simpa using ih

theorem eraseIdx_append_length (before after : List Obj) (cur : Obj) :
    (before ++ cur :: after).eraseIdx before.length = before ++ after := by
  induction before with
  | nil => rfl
  | cons b bs ih => simp [ih]

/-! ## C1: the version written by `updateOne` -/

/-- What `updateOne` does once the first record with the path id has been located. -/
theorem updateOne_found {s s1 : Server} {before after : List Obj} {cur : Obj} (id : String)
    (incoming : Obj) (hload : loadTasksWithMetadata s = (.ok (before ++ cur :: after), s1))
    (hcur : hasId id cur = true) (hbefore : ∀ t ∈ before, hasId id t = false) :
    updateOne id incoming s =
      (⟨200, .obj ((((Obj.spread cur incoming).set "id" (.str id)).set "version"
          (nextVersion (cur.get "version"))).set "updatedAt"
            (.str (toISOString s1.env.dateNow.1)))⟩,
        { tasksFile := before ++ ((((Obj.spread cur incoming).set "id" (.str id)).set "version"
            (nextVersion (cur.get "version"))).set "updatedAt"
              (.str (toISOString s1.env.dateNow.1))) :: after,
          env := s1.env.dateNow.2 }) := by
  have hidx : findIndex (hasId id) (before ++ cur :: after) = some before.length :=
    (findIndex_eq_some_iff _ _ _).2 ⟨before, cur, after, rfl, rfl, hcur, hbefore⟩
  unfold updateOne
  rw [hload]
  simp only [hidx, getD_append_length, set_append_length]

theorem nextVersion_num (v : Int) :
    nextVersion (some (.num v)) = .num (if v = 0 then 2 else v + 1) := by
  unfold nextVersion
  by_cases h : v = 0
  · simp [h, truthy]
  · simp [h, truthy]

/-- C1 (amended): for every stored collection that `loadTasksWithMetadata` accepts and every
payload, if `cur` is the first record of the normalised list with the path id, then `updateOne`
answers 200 with a record that it also stores under that id, and whose version is the numeric
version `v` of `cur` plus 1 when `v` is not 0, and 2 when `v` is 0; a version carried by the
payload plays no part. -/
theorem updateOne_version {s s1 : Server} {tasks : List Obj} {cur : Obj} (id : String)
    (incoming : Obj) (hload : loadTasksWithMetadata s = (.ok tasks, s1))
    (hcur : tasks.find? (hasId id) = some cur) :
    ∃ (v : Int) (updated : Obj), cur.get "version" = some (.num v)
      ∧ (updateOne id incoming s).1.status = 200
      ∧ (updateOne id incoming s).1.body = .obj updated
      ∧ (updateOne id incoming s).2.tasksFile.find? (hasId id) = some updated
      ∧ updated.get "version" = some (.num (if v = 0 then 2 else v + 1)) := by
  obtain ⟨before, after, hsplit, hp, hb⟩ := find?_eq_some_split hcur
  subst hsplit
  have hnormal := (loadTasksWithMetadata_ok hload).2 cur (by simp)
  obtain ⟨v, hv⟩ := (isNumber_iff _).1 ((isNormal_iff cur).1 hnormal).2.1
  rw [updateOne_found id incoming hload hp hb]
  refine ⟨v, _, hv, rfl, rfl, ?_, ?_⟩
  · apply find?_append_of_first _ hb
    rw [hasId_iff, Obj.get_set_of_ne _ _ (by decide), Obj.get_set_of_ne _ _ (by decide),
      Obj.get_set_same]
  · rw [Obj.get_set_of_ne _ _ (by decide), Obj.get_set_same, hv, nextVersion_num]

/-- Witness of `updateOne_version`: a payload claiming version 7 against the stored version 3. -/
theorem updateOne_version_witness :
    ∃ (v : Int) (updated : Obj), (sampleStore.tasksFile.headD []).get "version" = some (.num v)
      ∧ (updateOne "t_1" [("version", .num 7)] sampleStore).1.status = 200
      ∧ (updateOne "t_1" [("version", .num 7)] sampleStore).1.body = .obj updated
      ∧ (updateOne "t_1" [("version", .num 7)] sampleStore).2.tasksFile.find? (hasId "t_1")
          = some updated
      ∧ updated.get "version" = some (.num (if v = 0 then 2 else v + 1)) :=
  @updateOne_version sampleStore (loadTasksWithMetadata sampleStore).2 sampleStore.tasksFile
    (sampleStore.tasksFile.headD []) "t_1" [("version", .num 7)] rfl rfl

/-- C1 as stated fails: the stored record has version 0 and the record returned has version 2,
not 1. -/
theorem updateOne_version_counterexample : ¬ UpdateVersionAsStated storeVersionZero "t_1" [] := by
  intro h
  obtain ⟨updated, hbody, _, hv⟩ := h _ 0 (List.mem_singleton_self _) rfl rfl
  have hb : (updateOne "t_1" [] storeVersionZero).1.body
      = .obj [("id", .str "t_1"), ("title", .str "A"), ("version", .num 2),
          ("updatedAt", .str "2023-11-14T22:13:20.000Z")] := by decide
  rw [hb] at hbody
  cases hbody
  revert hv
  decide

/-! ## Loading a collection that is already in normal form -/

theorem Env.afterClockReads_zero (env : Env) : env.afterClockReads 0 = env := rfl

theorem Env.dateNow_afterClockReads (env : Env) (n : Nat) :
    (env.dateNow.2).afterClockReads n = env.afterClockReads (n + 1) := by
  simp only [Env.dateNow, Env.afterClockReads, Env.mk.injEq, true_and, and_true]
  omega

theorem normalizeAll_of_isNormal (existingIds : List (Option JVal)) (tasks : List Obj)
    (env : Env) (h : ∀ t ∈ tasks, isNormal t = true) :
    normalizeAll existingIds tasks env = (.ok (tasks, false), env.afterClockReads tasks.length) := by
  induction tasks generalizing env with
  | nil => rfl
  | cons t rest ih =>
    rw [normalizeAll, normalizeTask_of_isNormal (h t (List.mem_cons_self _ _))]
    simp only [ih _ (fun x hx => h x (List.mem_cons_of_mem _ hx)), strictEq_refl, Bool.not_true,
      Bool.or_self, List.length_cons, Env.dateNow_afterClockReads]

theorem duplicateIndices_of_nodup (tasks : List Obj) (index : Nat) (seen : List (Option JVal))
    (hstr : ∀ t ∈ tasks, ∃ s, t.get "id" = some (.str s))
    (hnodup : (seen ++ idsOf tasks).Nodup) : duplicateIndices tasks index seen = [] := by
  induction tasks generalizing index seen with
  | nil => rfl
  | cons t rest ih =>
    obtain ⟨s, hs⟩ := hstr t (List.mem_cons_self _ _)
    have hnot : includes seen (t.get "id") = false := by
      rw [hs, ← Bool.not_eq_true, includes_str]
      intro hmem
      have := List.nodup_append.1 hnodup
      exact this.2.2 hmem (by simp [idsOf, hs])
    rw [duplicateIndices, if_neg (by simp [hnot])]
    apply ih
    · exact fun x hx => hstr x (List.mem_cons_of_mem _ hx)
    · simpa [idsOf] using hnodup

theorem isNormal_id {t : Obj} (h : isNormal t = true) : ∃ s, t.get "id" = some (.str s) := by
  obtain ⟨⟨s, hs, _⟩, _⟩ := (isNormal_iff t).1 h
  exact ⟨s, hs⟩

/-- A stored collection of records in normal form with pairwise distinct ids is returned as it
is and stays as it is; each record costs one reading of the clock. -/
theorem loadTasksWithMetadata_of_isNormal (s : Server)
    (hnormal : ∀ t ∈ s.tasksFile, isNormal t = true) (hnodup : (idsOf s.tasksFile).Nodup) :
    loadTasksWithMetadata s =
      (.ok s.tasksFile,
        { tasksFile := s.tasksFile, env := s.env.afterClockReads s.tasksFile.length }) := by
  rw [loadTasksWithMetadata_eq, normalizeAll_of_isNormal _ _ _ hnormal]
  have hd : duplicateIndices s.tasksFile 0 [] = [] :=
    duplicateIndices_of_nodup _ _ _ (fun t ht => isNormal_id (hnormal t ht)) (by simpa using hnodup)
  simp [hd, remintDuplicates]

/-! ## The loop of `generateUniqueTaskId` -/

theorem Env.afterAttempts_succ (env : Env) (n : Nat) :
    (env.afterAttempts 1).afterAttempts n = env.afterAttempts (n + 1) := by
  simp only [Env.afterAttempts, Env.mk.injEq, true_and]
  omega

theorem candidateAt_afterAttempts (env : Env) (k : Nat) :
    candidateAt (env.afterAttempts 1) k = candidateAt env (k + 1) := by
  simp only [candidateAt, Env.afterAttempts]
  have h1 : env.clockReads + 1 + k = env.clockReads + (k + 1) := by omega
  have h2 : env.randomDraws + 1 + k = env.randomDraws + (k + 1) := by omega
  have h3 : ((env.taskIdCounter + 1) % 10000 + k + 1) % 10000
      = (env.taskIdCounter + (k + 1) + 1) % 10000 := by omega
  rw [h1, h2, h3]

theorem generateLoop_succ (existingIds : List (Option JVal)) (left : Nat) (env : Env) :
    generateLoop existingIds (left + 1) env =
      if includes existingIds (some (.str (candidateAt env 0))) then
        generateLoop existingIds left (env.afterAttempts 1)
      else (candidateAt env 0, env.afterAttempts 1) := rfl

/-- If one of the first `left` candidates is free, the loop returns an id that is not among
`existingIds`. -/
theorem generateLoop_fresh (existingIds : List (Option JVal)) (left : Nat) (env : Env)
    (h : ∃ k, k < left ∧ includes existingIds (some (.str (candidateAt env k))) = false) :
    includes existingIds (some (.str (generateLoop existingIds left env).1)) = false := by
  induction left generalizing env with
  | zero =>
    obtain ⟨k, hk, _⟩ := h
    exact absurd hk (Nat.not_lt_zero k)
  | succ left ih =>
    rw [generateLoop_succ]
    by_cases h0 : includes existingIds (some (.str (candidateAt env 0))) = true
    · rw [if_pos h0]
      obtain ⟨k, hk, hfree⟩ := h
      cases k with
      | zero => rw [h0] at hfree; cases hfree
      | succ k =>
        apply ih
        exact ⟨k, Nat.lt_of_succ_lt_succ hk, by rw [candidateAt_afterAttempts]; exact hfree⟩
    · rw [if_neg h0]
      simpa using h0

/-- If the first `left` candidates all collide, the loop reaches its last iteration. -/
theorem generateLoop_collide (existingIds : List (Option JVal)) (left : Nat) (env : Env)
    (h : ∀ k, k < left → includes existingIds (some (.str (candidateAt env k))) = true) :
    generateLoop existingIds left env = generateLoop existingIds 0 (env.afterAttempts left) := by
  induction left generalizing env with
  | zero =>
    simp only [generateLoop, Env.afterAttempts, Nat.add_zero, Env.dateNow, Env.mathRandom,
      Env.bumpCounter]
    have hm : (env.taskIdCounter % 10000 + 1) % 10000 = (env.taskIdCounter + 1) % 10000 := by
      omega
    rw [hm]
  | succ left ih =>
    rw [generateLoop_succ, if_pos (h 0 (Nat.succ_pos _)), ih, Env.afterAttempts_succ]
    intro k hk
    rw [candidateAt_afterAttempts]
    exact h (k + 1) (Nat.succ_lt_succ hk)

/-- The identifier returned after 100 colliding attempts. -/
theorem generateUniqueTaskId_collide (existingIds : List (Option JVal)) (env : Env)
    (h : ∀ k, k < 100 → includes existingIds (some (.str (candidateAt env k))) = true) :
    (generateUniqueTaskId existingIds env).1 =
        fallbackId (env.clock (env.clockReads + 100)) (env.random (env.randomDraws + 101))
          (env.clock (env.clockReads + 101))
      ∧ (generateUniqueTaskId existingIds env).2 =
        { env with
          clockReads := env.clockReads + 102
          randomDraws := env.randomDraws + 102
          taskIdCounter := (env.taskIdCounter + 101) % 10000 } := by
  unfold generateUniqueTaskId
  rw [generateLoop_collide existingIds 100 env h]
  simp only [generateLoop, Env.afterAttempts, Env.dateNow, Env.mathRandom, Env.bumpCounter,
    Env.mk.injEq, true_and, and_true]
  omega

/-- If one of the first 100 candidates is free, `generateUniqueTaskId` returns an id that is not
among `existingIds`. -/
theorem generateUniqueTaskId_fresh (existingIds : List (Option JVal)) (env : Env)
    (h : ∃ k, k < 100 ∧ includes existingIds (some (.str (candidateAt env k))) = false) :
    includes existingIds (some (.str (generateUniqueTaskId existingIds env).1)) = false :=
  generateLoop_fresh existingIds 100 env h

/-! ## What `createOne` creates -/

theorem normalizeId_of_falsy_id {task : Obj} (h : truthy (task.get "id") = false)
    (existingIds : List (Option JVal)) (env : Env) :
    normalizeId task existingIds env =
      (.ok (task.set "id" (.str (generateUniqueTaskId existingIds env).1)),
        (generateUniqueTaskId existingIds env).2) := by
  unfold normalizeId
  simp [h]

/-- A record without an id is always normalised, with a minted id. -/
theorem normalizeTask_of_falsy_id {task : Obj} (h : truthy (task.get "id") = false)
    (existingIds : List (Option JVal)) (env : Env) :
    ∃ nt, normalizeTask task existingIds env
        = (.ok nt, (generateUniqueTaskId existingIds env.dateNow.2).2)
      ∧ nt.get "id" = some (.str (generateUniqueTaskId existingIds env.dateNow.2).1)
      ∧ nt.get "version"
          = (if isNumber (task.get "version") then task.get "version" else some (.num 1))
      ∧ nt.get "updatedAt"
          = (if truthy (task.get "updatedAt") then task.get "updatedAt"
              else some (.str (toISOString env.dateNow.1)))
      ∧ (∀ k, k ≠ "id" → k ≠ "version" → k ≠ "updatedAt" → nt.get k = task.get k) := by
  have hid := normalizeId_of_falsy_id h existingIds env.dateNow.2
  have hex : ∃ nt, normalizeTask task existingIds env
      = (.ok nt, (generateUniqueTaskId existingIds env.dateNow.2).2) := by
    rw [normalizeTask_eq, hid]
    exact ⟨_, rfl⟩
  obtain ⟨nt, hnt⟩ := hex
  obtain ⟨normalized, hn, h1, h2, h3, h4, _⟩ := normalizeTask_ok hnt
  rw [hid] at hn
  simp only [Prod.mk.injEq, Except.ok.injEq, and_true] at hn
  subst hn
  refine ⟨nt, hnt, ?_, ?_, ?_, ?_⟩
  · rw [h1, Obj.get_set_same]
  · rw [h2, Obj.get_set_of_ne _ _ (by decide)]
  · rw [h3, Obj.get_set_of_ne _ _ (by decide)]
  · intro k hk1 hk2 hk3
    rw [h4 k hk2 hk3, Obj.get_set_of_ne _ _ (Ne.symm hk1)]

theorem truthy_get_del_id (body : Obj) : truthy ((Obj.del body "id").get "id") = false := by
  rw [Obj.get_del]
  rfl

/-- The outcome of `createOne` on a store that `loadTasksWithMetadata` accepts: status 201, the
new record appended to the normalised list, and the fields of the new record. The id is the one
minted by `normalizeTask`, or a second minted one when the first is already in use. -/
theorem createOne_created {s s1 : Server} {tasks : List Obj} (body : Obj)
    (hload : loadTasksWithMetadata s = (.ok tasks, s1)) :
    ∃ (newTask : Obj) (env2 : Env),
      createOne body s = (⟨201, .obj newTask⟩, { tasksFile := tasks ++ [newTask], env := env2 })
      ∧ newTask.get "id" = some (.str
          (if includes (idsOf tasks)
              (some (.str (generateUniqueTaskId (idsOf tasks) s1.env.dateNow.2).1))
            then (generateUniqueTaskId (idsOf tasks)
              (generateUniqueTaskId (idsOf tasks) s1.env.dateNow.2).2).1
            else (generateUniqueTaskId (idsOf tasks) s1.env.dateNow.2).1))
      ∧ newTask.get "version"
          = (if isNumber (body.get "version") then body.get "version" else some (.num 1))
      ∧ newTask.get "updatedAt"
          = (if truthy (body.get "updatedAt") then body.get "updatedAt"
              else some (.str (toISOString s1.env.dateNow.1)))
      ∧ (∀ k, k ≠ "id" → k ≠ "version" → k ≠ "updatedAt" → newTask.get k = body.get k) := by
  obtain ⟨nt, hnt, h1, h2, h3, h4⟩ :=
    normalizeTask_of_falsy_id (truthy_get_del_id body) (idsOf tasks) s1.env
  have e2 : (Obj.del body "id").get "version" = body.get "version" := by
    rw [Obj.get_del]; rfl
  have e3 : (Obj.del body "id").get "updatedAt" = body.get "updatedAt" := by
    rw [Obj.get_del]; rfl
  rw [e2] at h2
  rw [e3] at h3
  have h4b : ∀ k, k ≠ "id" → k ≠ "version" → k ≠ "updatedAt" → nt.get k = body.get k := by
    intro k hk1 hk2 hk3
    rw [h4 k hk1 hk2 hk3, Obj.get_del, if_neg (Ne.symm hk1)]
  simp only [idsOf] at hnt h1 ⊢
  unfold createOne
  rw [hload]
  simp only
  rw [hnt]
  simp only [h1]
  by_cases hc : includes (tasks.map fun t => t.get "id")
      (some (.str (generateUniqueTaskId (tasks.map fun t => t.get "id") s1.env.dateNow.2).1))
        = true
  · simp only [hc, if_true]
    refine ⟨_, _, rfl, Obj.get_set_same _ _ _, ?_, ?_, ?_⟩
    · rw [Obj.get_set_of_ne _ _ (by decide), h2]
    · rw [Obj.get_set_of_ne _ _ (by decide), h3]
    · intro k hk1 hk2 hk3
      rw [Obj.get_set_of_ne _ _ (Ne.symm hk1), h4b k hk1 hk2 hk3]
  · simp only [hc, if_false]
    exact ⟨_, _, rfl, h1, h2, h3, h4b⟩

/-! ## C2: the version of a created record -/

/-- C2 (amended): for every stored collection that `loadTasksWithMetadata` accepts and every
single-object body, `createOne` answers 201 with a record, appended to the stored list, whose
version is the body's own version when that is a number, and 1 otherwise (in particular 1 when
the body carries no version). -/
theorem createOne_version {s s1 : Server} {tasks : List Obj} (body : Obj)
    (hload : loadTasksWithMetadata s = (.ok tasks, s1)) :
    ∃ created : Obj, (createOne body s).1 = ⟨201, .obj created⟩
      ∧ (createOne body s).2.tasksFile = tasks ++ [created]
      ∧ created.get "version"
          = (if isNumber (body.get "version") then body.get "version" else some (.num 1)) := by
  obtain ⟨newTask, env2, heq, _, hv, _⟩ := createOne_created body hload
  exact ⟨newTask, by rw [heq], by rw [heq], hv⟩

/-- Witness of `createOne_version`: a body without a version is created at version 1. -/
theorem createOne_version_witness :
    ∃ created : Obj, (createOne [("title", .str "B")] sampleStore).1 = ⟨201, .obj created⟩
      ∧ (createOne [("title", .str "B")] sampleStore).2.tasksFile
          = sampleStore.tasksFile ++ [created]
      ∧ created.get "version"
          = (if isNumber (Obj.get [("title", .str "B")] "version")
              then Obj.get [("title", .str "B")] "version" else some (.num 1)) :=
  @createOne_version sampleStore (loadTasksWithMetadata sampleStore).2 sampleStore.tasksFile
    [("title", .str "B")] rfl

/-- C2 as stated fails: a body that carries version 5 is created at version 5. -/
theorem createOne_version_counterexample :
    ¬ CreateVersionAsStated sampleStore [("title", .str "B"), ("version", .num 5)] := by
  intro h
  have hv := h [("title", .str "B"), ("version", .num 5), ("id", .str "t_1700000000000_500000_1"),
    ("updatedAt", .str "2023-11-14T22:13:20.000Z")] (by decide)
  revert hv
  decide

/-! ## C8: the overlay written by `updateOne` -/

/-- C8 (amended): for every stored collection that `loadTasksWithMetadata` accepts and every
payload, if `cur` is the first record of the normalised list with the path id, then `updateOne`
answers 200 with a record that takes the place of `cur` in the normalised list, every other
record of that list staying as it is; the id of the record is the path id; every field other
than `id`, `version` and `updatedAt` has the payload's value when the payload has the field and
the value of `cur` otherwise; `version` and `updatedAt` are set by the server, whatever the
payload carries. -/
theorem updateOne_overlay {s s1 : Server} {before after : List Obj} {cur : Obj} (id : String)
    (incoming : Obj) (hload : loadTasksWithMetadata s = (.ok (before ++ cur :: after), s1))
    (hcur : cur.get "id" = some (.str id))
    (hbefore : ∀ t ∈ before, t.get "id" ≠ some (.str id)) :
    ∃ updated : Obj, (updateOne id incoming s).1 = ⟨200, .obj updated⟩
      ∧ (updateOne id incoming s).2.tasksFile = before ++ updated :: after
      ∧ updated.get "id" = some (.str id)
      ∧ (∀ k, k ≠ "id" → k ≠ "version" → k ≠ "updatedAt" →
          updated.get k = (incoming.get k).or (cur.get k))
      ∧ updated.get "version" = some (nextVersion (cur.get "version"))
      ∧ updated.get "updatedAt" = some (.str (toISOString s1.env.dateNow.1)) := by
  have hb : ∀ t ∈ before, hasId id t = false := by
    intro t ht
    rw [← Bool.not_eq_true, hasId_iff]
    exact hbefore t ht
  rw [updateOne_found id incoming hload ((hasId_iff _ _).2 hcur) hb]
  refine ⟨_, rfl, rfl, ?_, ?_, ?_, ?_⟩
  · rw [Obj.get_set_of_ne _ _ (by decide), Obj.get_set_of_ne _ _ (by decide), Obj.get_set_same]
  · intro k h1 h2 h3
    rw [Obj.get_set_of_ne _ _ (Ne.symm h3), Obj.get_set_of_ne _ _ (Ne.symm h2),
      Obj.get_set_of_ne _ _ (Ne.symm h1), Obj.get_spread]
  · rw [Obj.get_set_of_ne _ _ (by decide), Obj.get_set_same]
  · rw [Obj.get_set_same]

/-- Witness of `updateOne_overlay`: the payload sets `progress` and claims another id. -/
theorem updateOne_overlay_witness :
    ∃ updated : Obj,
      (updateOne "t_1" [("progress", .num 50), ("id", .str "t_9")] sampleStore).1
          = ⟨200, .obj updated⟩
      ∧ (updateOne "t_1" [("progress", .num 50), ("id", .str "t_9")] sampleStore).2.tasksFile
          = [] ++ updated :: []
      ∧ updated.get "id" = some (.str "t_1")
      ∧ (∀ k, k ≠ "id" → k ≠ "version" → k ≠ "updatedAt" →
          updated.get k = ((Obj.get [("progress", .num 50), ("id", .str "t_9")] k).or
            ((sampleStore.tasksFile.headD []).get k)))
      ∧ updated.get "version" = some (nextVersion ((sampleStore.tasksFile.headD []).get "version"))
      ∧ updated.get "updatedAt"
          = some (.str (toISOString (loadTasksWithMetadata sampleStore).2.env.dateNow.1)) :=
  @updateOne_overlay sampleStore (loadTasksWithMetadata sampleStore).2 [] []
    (sampleStore.tasksFile.headD []) "t_1" [("progress", .num 50), ("id", .str "t_9")] rfl rfl
    (by simp)

/-- C8 as stated fails: the payload carries version 7, the stored version is 3, and the record
returned has version 4. -/
theorem updateOne_overlay_counterexample :
    ¬ UpdateOverlayAsStated sampleStore "t_1" [("version", .num 7)] := by
  intro h
  obtain ⟨updated, hbody, _, _, hpayload, _⟩ := h [] [] _ rfl rfl (by simp)
  have hv := hpayload "version" (.num 7) (by decide) rfl
  have hb : (updateOne "t_1" [("version", .num 7)] sampleStore).1.body
      = .obj [("id", .str "t_1"), ("title", .str "A"), ("version", .num 4),
          ("updatedAt", .str "2023-11-14T22:13:20.000Z")] := by decide
  rw [hb] at hbody
  cases hbody
  revert hv
  decide

/-! ## C3: the id of a created record -/

theorem isNormal_recordWithId {id : String} (h1 : id ≠ "") (h2 : startsWithTNew id = false) :
    isNormal (recordWithId id) = true :=
  (isNormal_iff _).2 ⟨⟨id, rfl, h1, h2⟩, rfl, rfl⟩

theorem candidateId_ne_empty (timestamp : Nat) (r : RandomDraw) (counter : Nat) :
    candidateId timestamp r counter ≠ "" := by
  unfold candidateId
  simp only [String.append_assoc]
  exact minted_ne_empty _ _

theorem fallbackId_ne_empty (timestamp : Nat) (r : RandomDraw) (now : Nat) :
    fallbackId timestamp r now ≠ "" := by
  unfold fallbackId
  simp only [String.append_assoc]
  exact minted_ne_empty _ _

theorem collidingStore_isNormal : ∀ t ∈ collidingStore.tasksFile, isNormal t = true := by
  intro t ht
  simp only [collidingStore, List.mem_append, List.mem_map, List.mem_singleton] at ht
  rcases ht with ⟨k, _, rfl⟩ | rfl
  · exact isNormal_recordWithId (candidateId_ne_empty _ _ _) (startsWithTNew_candidateId _ _ _)
  · exact isNormal_recordWithId (fallbackId_ne_empty _ _ _) (startsWithTNew_fallbackId _ _ _)

set_option maxRecDepth 100000 in
theorem collidingStore_codes_nodup : ((idsOf collidingStore.tasksFile).map idCode).Nodup := by
  decide!

theorem collidingStore_nodup : (idsOf collidingStore.tasksFile).Nodup :=
  List.Nodup.of_map idCode collidingStore_codes_nodup

theorem collidingStore_load :
    loadTasksWithMetadata collidingStore =
      (.ok collidingStore.tasksFile,
        { tasksFile := collidingStore.tasksFile,
          env := collidingStore.env.afterClockReads collidingStore.tasksFile.length }) :=
  loadTasksWithMetadata_of_isNormal _ collidingStore_isNormal collidingStore_nodup

theorem collidingStore_has_candidate (counter : Nat) (h1 : 1 ≤ counter) (h2 : counter ≤ 201) :
    includes (idsOf collidingStore.tasksFile)
      (some (.str (candidateId 1700000000000 ⟨500000, "i"⟩ counter))) = true := by
  rw [includes_str]
  simp only [idsOf, collidingStore, List.map_append, List.map_map, List.mem_append, List.mem_map,
    List.mem_range]
  refine Or.inl ⟨counter - 1, by omega, ?_⟩
  have : counter - 1 + 1 = counter := by omega
  simp only [Function.comp, recordWithId]
  rw [this]
  rfl

theorem collidingStore_has_fallback :
    includes (idsOf collidingStore.tasksFile)
      (some (.str (fallbackId 1700000000000 ⟨500000, "i"⟩ 1700000000000))) = true := by
  rw [includes_str]
  simp only [idsOf, collidingStore, List.map_append, List.mem_append]
  exact Or.inr (List.mem_singleton.2 rfl)

/-- In `collidingStore` both calls of `generateUniqueTaskId` made by `createOne` exhaust their
100 attempts and return the same identifier, which is already in the store. -/
theorem collidingStore_mint (env : Env) (hclock : env.clock = fun _ => 1700000000000)
    (hrandom : env.random = fun _ => ⟨500000, "i"⟩) (hcounter : env.taskIdCounter ≤ 101) :
    (generateUniqueTaskId (idsOf collidingStore.tasksFile) env).1
        = fallbackId 1700000000000 ⟨500000, "i"⟩ 1700000000000
      ∧ (generateUniqueTaskId (idsOf collidingStore.tasksFile) env).2.clock = env.clock
      ∧ (generateUniqueTaskId (idsOf collidingStore.tasksFile) env).2.random = env.random
      ∧ (generateUniqueTaskId (idsOf collidingStore.tasksFile) env).2.taskIdCounter
          = (env.taskIdCounter + 101) % 10000 := by
  have hall : ∀ k, k < 100 → includes (idsOf collidingStore.tasksFile)
      (some (.str (candidateAt env k))) = true := by
    intro k hk
    have hm : (env.taskIdCounter + k + 1) % 10000 = env.taskIdCounter + k + 1 := by omega
    simp only [candidateAt, hclock, hrandom, hm]
    exact collidingStore_has_candidate _ (by omega) (by omega)
  obtain ⟨h1, h2⟩ := generateUniqueTaskId_collide _ env hall
  rw [h1, h2]
  simp [hclock, hrandom]

/-- C3 as stated fails: in `collidingStore` the first 100 candidates of both calls of
`generateUniqueTaskId` are in use, and the id then given to the new record, which is not
checked, is the id of the last record of the store. -/
theorem createOne_id_fresh_counterexample :
    ¬ CreateIdFreshAsStated collidingStore [("title", .str "A")] := by
  intro h
  obtain ⟨newTask, env2, heq, hid, _⟩ :=
    createOne_created [("title", .str "A")] collidingStore_load
  have m1 := collidingStore_mint
    (collidingStore.env.afterClockReads collidingStore.tasksFile.length).dateNow.2 rfl rfl
    (by decide)
  have hcounter : (generateUniqueTaskId (idsOf collidingStore.tasksFile)
      (collidingStore.env.afterClockReads collidingStore.tasksFile.length).dateNow.2).2.taskIdCounter
        ≤ 101 := by
    rw [m1.2.2.2]
    decide
  have m2 := collidingStore_mint _ (m1.2.1.trans rfl) (m1.2.2.1.trans rfl) hcounter
  simp only at hid
  rw [m1.1, m2.1, collidingStore_has_fallback, if_pos rfl] at hid
  refine h newTask (by rw [heq]) (recordWithId (fallbackId 1700000000000 ⟨500000, "i"⟩
    1700000000000)) ?_ ?_
  · simp [collidingStore]
  · rw [hid]
    rfl

/-- C3 (amended): for every stored collection that `loadTasksWithMetadata` accepts, every body
and every outcome of the clock, the random source and the counter, the id that `createOne` gives
the new record differs from the id of every record of the normalised store, provided that one
of the first 100 candidate ids is not in use, either in the call of `generateUniqueTaskId` made
by `normalizeTask` or in the second call made when the first id is found in use. (The id
returned after 100 colliding attempts is not checked.) -/
theorem createOne_id_fresh {s s1 : Server} {tasks : List Obj} (body : Obj)
    (hload : loadTasksWithMetadata s = (.ok tasks, s1))
    (hfree :
      (∃ k, k < 100 ∧
        includes (idsOf tasks) (some (.str (candidateAt s1.env.dateNow.2 k))) = false)
      ∨ (∃ k, k < 100 ∧
        includes (idsOf tasks) (some (.str (candidateAt
          (generateUniqueTaskId (idsOf tasks) s1.env.dateNow.2).2 k))) = false)) :
    ∃ created : Obj, (createOne body s).1 = ⟨201, .obj created⟩
      ∧ ∀ t ∈ tasks, t.get "id" ≠ created.get "id" := by
  obtain ⟨newTask, env2, heq, hid, _⟩ := createOne_created body hload
  refine ⟨newTask, by rw [heq], ?_⟩
  have hfresh : includes (idsOf tasks) (newTask.get "id") = false := by
    rw [hid]
    by_cases hc : includes (idsOf tasks)
        (some (.str (generateUniqueTaskId (idsOf tasks) s1.env.dateNow.2).1)) = true
    · rw [if_pos hc]
      rcases hfree with h1 | h2
      · rw [generateUniqueTaskId_fresh _ _ h1] at hc
        cases hc
      · exact generateUniqueTaskId_fresh _ _ h2
    · rw [if_neg hc]
      simpa using hc
  intro t ht heq2
  rw [hid] at hfresh heq2
  rw [← Bool.not_eq_true, includes_str] at hfresh
  apply hfresh
  rw [← heq2]
  exact List.mem_map_of_mem _ ht

/-- Witness of `createOne_id_fresh`: in `sampleStore` the first candidate is free. -/
theorem createOne_id_fresh_witness :
    ∃ created : Obj, (createOne [("title", .str "B")] sampleStore).1 = ⟨201, .obj created⟩
      ∧ ∀ t ∈ sampleStore.tasksFile, t.get "id" ≠ created.get "id" :=
  @createOne_id_fresh sampleStore (loadTasksWithMetadata sampleStore).2 sampleStore.tasksFile
    [("title", .str "B")] rfl
    (Or.inl ⟨0, by decide, by decide⟩)

/-! ## Client: `ensureTaskMeta` and the steps of the periodic sync -/

theorem refEq_eq {a b : Option JVal} (h : refEq a b = true) : a = b := by
  cases a with
  | none => cases b with
    | none => rfl
    | some y => simp [refEq] at h
  | some x =>
    cases b with
    | none => cases x <;> simp [refEq] at h
    | some y => cases x <;> cases y <;> simp [refEq] at h <;> simp [h]

theorem ensureTaskMeta_get_id (task : Obj) (env : Env) :
    (ensureTaskMeta task env).1.get "id" = task.get "id" := by
  unfold ensureTaskMeta
  by_cases hv : isNumber (task.get "version") = true
  · by_cases hu : truthy (task.get "updatedAt") = true
    · simp [hv, hu]
    · simp [hv, hu, Env.dateNow, Obj.get_set]
  · have hu0 : (task.set "version" (.num 1)).get "updatedAt" = task.get "updatedAt" :=
      Obj.get_set_of_ne _ _ (by decide)
    by_cases hu : truthy (task.get "updatedAt") = true
    · simp [hv, hu, hu0, Obj.get_set]
    · simp [hv, hu, hu0, Env.dateNow, Obj.get_set]

theorem ensureTaskMeta_of_complete {task : Obj} (hv : isNumber (task.get "version") = true)
    (hu : truthy (task.get "updatedAt") = true) (env : Env) :
    ensureTaskMeta task env = (task, env) := by
  unfold ensureTaskMeta
  simp [hv, hu]

theorem ensureTaskMeta_get_version {task : Obj} (hv : isNumber (task.get "version") = true)
    (env : Env) : (ensureTaskMeta task env).1.get "version" = task.get "version" := by
  unfold ensureTaskMeta
  by_cases hu : truthy (task.get "updatedAt") = true
  · simp [hv, hu]
  · simp [hv, hu, Env.dateNow, Obj.get_set]

theorem filter_set_of_findIndex {p q : Obj → Bool} {l : List Obj} {idx : Nat} {x : Obj}
    (hidx : findIndex q l = some idx) (hq : ∀ t, q t = true → p t = false) (hx : p x = false) :
    (l.set idx x).filter p = l.filter p := by
  obtain ⟨before, cur, after, rfl, rfl, hcur, _⟩ := (findIndex_eq_some_iff _ _ _).1 hidx
  rw [set_append_length]
  simp [List.filter_append, List.filter_cons, hx, hq cur hcur]

/-- The three possible effects of one iteration of the upsert loop. -/
theorem upsertStep_cases (coerced : JVal → JVal → Bool) (localMap : List Obj) (c : Client)
    (serverTask : Obj) :
    (mapGet localMap (serverTask.get "id") = none
        ∧ upsertStep coerced localMap c serverTask
          = { TASKS := c.TASKS ++ [(ensureTaskMeta serverTask c.env).1],
              env := (ensureTaskMeta serverTask c.env).2 })
      ∨ (∃ localTask idx, mapGet localMap (serverTask.get "id") = some localTask
          ∧ jsGreater coerced (orZero (serverTask.get "version"))
              (orZero (localTask.get "version")) = true
          ∧ findIndex (fun t => refEq (t.get "id") (serverTask.get "id")) c.TASKS = some idx
          ∧ upsertStep coerced localMap c serverTask
            = { TASKS := c.TASKS.set idx (ensureTaskMeta serverTask c.env).1,
                env := (ensureTaskMeta serverTask c.env).2 })
      ∨ (∃ localTask, mapGet localMap (serverTask.get "id") = some localTask
          ∧ (jsGreater coerced (orZero (serverTask.get "version"))
              (orZero (localTask.get "version")) = false
            ∨ findIndex (fun t => refEq (t.get "id") (serverTask.get "id")) c.TASKS = none)
          ∧ upsertStep coerced localMap c serverTask = c) := by
  unfold upsertStep
  cases hm : mapGet localMap (serverTask.get "id") with
  | none => exact Or.inl ⟨rfl, rfl⟩
  | some localTask =>
    right
    by_cases hg : jsGreater coerced (orZero (serverTask.get "version"))
        (orZero (localTask.get "version")) = true
    · cases hf : findIndex (fun t => refEq (t.get "id") (serverTask.get "id")) c.TASKS with
      | none =>
        right
        exact ⟨localTask, rfl, Or.inr rfl, by simp [hg, hf]⟩
      | some idx =>
        left
        exact ⟨localTask, idx, rfl, hg, rfl, by simp [hg, hf]⟩
    · right
      have hg1 : jsGreater coerced (orZero (serverTask.get "version"))
          (orZero (localTask.get "version")) = false := by simpa using hg
      exact ⟨localTask, rfl, Or.inl hg1, by simp [hg1]⟩

/-- One iteration of the upsert loop leaves every record alone that does not carry the id of the
server task. -/
theorem filter_upsertStep (coerced : JVal → JVal → Bool) (localMap : List Obj) (c : Client)
    (serverTask : Obj) (p : Obj → Bool)
    (hp : ∀ x : Obj, x.get "id" = serverTask.get "id" → p x = false) :
    (upsertStep coerced localMap c serverTask).TASKS.filter p = c.TASKS.filter p := by
  have hnew : p (ensureTaskMeta serverTask c.env).1 = false :=
    hp _ (ensureTaskMeta_get_id _ _)
  rcases upsertStep_cases coerced localMap c serverTask with
    ⟨_, h⟩ | ⟨_, idx, _, _, hidx, h⟩ | ⟨_, _, _, h⟩
  · rw [h]
    simp [List.filter_append, hnew]
  · rw [h]
    exact filter_set_of_findIndex hidx (fun t ht => hp t (refEq_eq ht)) hnew
  · rw [h]

theorem filter_upsertAll (coerced : JVal → JVal → Bool) (localMap : List Obj)
    (tasks : List Obj) (c : Client) (p : Obj → Bool)
    (hp : ∀ s ∈ tasks, ∀ x : Obj, x.get "id" = s.get "id" → p x = false) :
    (tasks.foldl (upsertStep coerced localMap) c).TASKS.filter p = c.TASKS.filter p := by
  induction tasks generalizing c with
  | nil => rfl
  | cons s rest ih =>
    rw [List.foldl_cons, ih _ (fun s' hs' => hp s' (List.mem_cons_of_mem _ hs')),
      filter_upsertStep _ _ _ _ _ (hp s (List.mem_cons_self _ _))]

/-- The removal loop keeps every record that has a temporary id or an id of the server list. -/
theorem filter_pruneDeleted (serverTasks : List Obj) (l : List Obj) (p : Obj → Bool)
    (hp : ∀ t : Obj, p t = true → ∀ s, t.get "id" = some (.str s) →
      startsWithTNew s = true ∨ mapHas serverTasks (some (.str s)) = true) :
    (pruneDeleted serverTasks l).1.filter p = l.filter p := by
  induction l with
  | nil => rfl
  | cons t later ih =>
    rw [pruneDeleted]
    cases hrec : pruneDeleted serverTasks later with
    | mk kept aborted =>
      rw [hrec] at ih
      simp only at ih
      cases aborted with
      | true => simp [List.filter_cons, ih]
      | false =>
        simp only
        cases hid : t.get "id" with
        | none => simp [List.filter_cons, ih]
        | some v =>
          cases v with
          | str s =>
            simp only
            by_cases hrem : (!startsWithTNew s && !mapHas serverTasks (some (.str s))) = true
            · rw [if_pos hrem]
              have hpt : p t = false := by
                by_contra hne
                have hpt : p t = true := by simpa using hne
                rcases hp t hpt s hid with h | h <;> simp [h] at hrem
              simp [List.filter_cons, hpt, ih]
            · rw [if_neg hrem]
              simp [List.filter_cons, ih]
          | null => simp [List.filter_cons, ih]
          | bool b => simp [List.filter_cons, ih]
          | num n => simp [List.filter_cons, ih]
          | arr a => simp [List.filter_cons, ih]
          | obj o => simp [List.filter_cons, ih]

/-! ## C5: the periodic sync keeps unsaved local tasks -/

theorem isUnsyncedTemp_false_of_server_id {tasks : List Obj} {s : Obj} (hs : s ∈ tasks)
    {x : Obj} (hx : x.get "id" = s.get "id") : isUnsyncedTemp tasks x = false := by
  unfold isUnsyncedTemp
  cases hid : x.get "id" with
  | none => rfl
  | some v =>
    cases v with
    | str a =>
      have hm : mapHas tasks (some (.str a)) = true := by
        unfold mapHas
        rw [List.any_eq_true]
        exact ⟨s, hs, by rw [← hx, hid]; exact (refEq_str_right _ _).2 rfl⟩
      simp [hm]
    | null => rfl
    | bool b => rfl
    | num n => rfl
    | arr a => rfl
    | obj o => rfl

theorem hasTempId_congr {x y : Obj} (h : x.get "id" = y.get "id") :
    hasTempId x = hasTempId y := by
  unfold hasTempId
  rw [h]

theorem hasTempId_iff (t : Obj) :
    hasTempId t = true ↔ ∃ s, t.get "id" = some (.str s) ∧ startsWithTNew s = true := by
  unfold hasTempId
  cases hid : t.get "id" with
  | none => simp
  | some v => cases v <;> simp

theorem tempIds_upsertStep (coerced : JVal → JVal → Bool) (localMap : List Obj) (c : Client)
    (serverTask : Obj) :
    ∃ rest, idsOf ((upsertStep coerced localMap c serverTask).TASKS.filter hasTempId)
      = idsOf (c.TASKS.filter hasTempId) ++ rest := by
  rcases upsertStep_cases coerced localMap c serverTask with
    ⟨_, h⟩ | ⟨_, idx, _, _, hidx, h⟩ | ⟨_, _, _, h⟩
  · rw [h]
    exact ⟨idsOf ([(ensureTaskMeta serverTask c.env).1].filter hasTempId), by
      simp [idsOf, List.filter_append]⟩
  · rw [h]
    obtain ⟨before, cur, after, hl, hlen, hcur, _⟩ := (findIndex_eq_some_iff _ _ _).1 hidx
    refine ⟨[], ?_⟩
    rw [hl, ← hlen, set_append_length]
    have hid : (ensureTaskMeta serverTask c.env).1.get "id" = cur.get "id" := by
      rw [ensureTaskMeta_get_id, refEq_eq hcur]
    have ht := hasTempId_congr hid
    by_cases hc : hasTempId cur = true
    · simp [idsOf, List.filter_append, List.filter_cons, hc, ht, hid]
    · simp [idsOf, List.filter_append, List.filter_cons, hc, ht]
  · rw [h]
    exact ⟨[], by simp⟩

theorem tempIds_upsertAll (coerced : JVal → JVal → Bool) (localMap : List Obj)
    (tasks : List Obj) (c : Client) :
    ∃ rest, idsOf ((tasks.foldl (upsertStep coerced localMap) c).TASKS.filter hasTempId)
      = idsOf (c.TASKS.filter hasTempId) ++ rest := by
  induction tasks generalizing c with
  | nil => exact ⟨[], by simp⟩
  | cons s more ih =>
    obtain ⟨r1, h1⟩ := tempIds_upsertStep coerced localMap c s
    obtain ⟨r2, h2⟩ := ih (upsertStep coerced localMap c s)
    exact ⟨r1 ++ r2, by rw [List.foldl_cons, h2, h1, List.append_assoc]⟩

/-- C5: in the periodic sync merge, for every local collection and every server list, the local
tasks whose id begins with `t_new_` and does not occur in the server list are, after the merge,
exactly the ones there were before, unchanged and in the same order; and the ids of all the
local tasks with a temporary id still come in their former order, ahead of the temporary ids
the merge may have added. -/
theorem syncMerge_keeps_temporary (coerced : JVal → JVal → Bool) (tasks : List Obj)
    (c : Client) :
    (syncMerge coerced tasks c).TASKS.filter (isUnsyncedTemp tasks)
        = c.TASKS.filter (isUnsyncedTemp tasks)
      ∧ ∃ added, idsOf ((syncMerge coerced tasks c).TASKS.filter hasTempId)
          = idsOf (c.TASKS.filter hasTempId) ++ added := by
  constructor
  · unfold syncMerge
    simp only
    rw [filter_pruneDeleted, filter_upsertAll]
    · intro s hs x hx
      exact isUnsyncedTemp_false_of_server_id hs hx
    · intro t ht s hs
      unfold isUnsyncedTemp at ht
      rw [hs] at ht
      simp only [Bool.and_eq_true] at ht
      exact Or.inl ht.1
  · unfold syncMerge
    simp only
    rw [filter_pruneDeleted]
    · exact tempIds_upsertAll coerced c.TASKS tasks c
    · intro t ht s hs
      obtain ⟨s', hs', htemp⟩ := (hasTempId_iff t).1 ht
      rw [hs] at hs'
      cases hs'
      exact Or.inl htemp

/-! ## C6: the ids after the periodic sync -/

theorem mapGet_eq_some {entries : List Obj} {key : Option JVal} {t : Obj}
    (h : mapGet entries key = some t) : t ∈ entries ∧ t.get "id" = key := by
  have hm := List.mem_of_getLast?_eq_some h
  rw [List.mem_filter] at hm
  exact ⟨hm.1, refEq_eq hm.2⟩

theorem idsOf_set_of_findIndex {l : List Obj} {idx : Nat} {x : Obj} {key : Option JVal}
    (hidx : findIndex (fun t => refEq (t.get "id") key) l = some idx)
    (hx : x.get "id" = key) : idsOf (l.set idx x) = idsOf l ∧ key ∈ idsOf l := by
  obtain ⟨before, cur, after, rfl, rfl, hcur, _⟩ := (findIndex_eq_some_iff _ _ _).1 hidx
  rw [set_append_length]
  have hc : cur.get "id" = key := refEq_eq hcur
  simp [idsOf, hx, hc]

theorem mem_idsOf_upsertStep (coerced : JVal → JVal → Bool) (localMap : List Obj) (c : Client)
    (serverTask : Obj) (hlocal : ∀ l ∈ localMap, l.get "id" ∈ idsOf c.TASKS)
    (key : Option JVal) :
    key ∈ idsOf (upsertStep coerced localMap c serverTask).TASKS
      ↔ key ∈ idsOf c.TASKS ∨ key = serverTask.get "id" := by
  rcases upsertStep_cases coerced localMap c serverTask with
    ⟨_, h⟩ | ⟨_, idx, _, _, hidx, h⟩ | ⟨l, hm, _, h⟩
  · rw [h]
    simp [idsOf, ensureTaskMeta_get_id]
  · rw [h]
    obtain ⟨h1, h2⟩ := idsOf_set_of_findIndex hidx (ensureTaskMeta_get_id serverTask c.env)
    simp only [h1]
    constructor
    · exact Or.inl
    · rintro (hk | rfl)
      · exact hk
      · exact h2
  · rw [h]
    obtain ⟨hl, hid⟩ := mapGet_eq_some hm
    constructor
    · exact Or.inl
    · rintro (hk | rfl)
      · exact hk
      · rw [← hid]
        exact hlocal l hl

theorem mem_idsOf_upsertAll (coerced : JVal → JVal → Bool) (localMap : List Obj)
    (tasks : List Obj) (c : Client) (hlocal : ∀ l ∈ localMap, l.get "id" ∈ idsOf c.TASKS)
    (key : Option JVal) :
    key ∈ idsOf (tasks.foldl (upsertStep coerced localMap) c).TASKS
      ↔ key ∈ idsOf c.TASKS ∨ key ∈ idsOf tasks := by
  induction tasks generalizing c with
  | nil => simp [idsOf]
  | cons s rest ih =>
    rw [List.foldl_cons, ih]
    · rw [mem_idsOf_upsertStep _ _ _ _ hlocal]
      simp only [idsOf, List.map_cons, List.mem_cons]
      tauto
    · intro l hl
      rw [mem_idsOf_upsertStep _ _ _ _ hlocal]
      exact Or.inl (hlocal l hl)

/-- When every id is a string the removal loop does not throw, and keeps exactly the records
with a temporary id or an id of the server list. -/
theorem pruneDeleted_of_string_ids (serverTasks : List Obj) (l : List Obj)
    (hstr : ∀ t ∈ l, ∃ s, t.get "id" = some (.str s)) :
    pruneDeleted serverTasks l
      = (l.filter (fun t => hasTempId t || mapHas serverTasks (t.get "id")), false) := by
  induction l with
  | nil => rfl
  | cons t later ih =>
    obtain ⟨s, hs⟩ := hstr t (List.mem_cons_self _ _)
    rw [pruneDeleted, ih (fun x hx => hstr x (List.mem_cons_of_mem _ hx))]
    simp only [hs]
    have ht : hasTempId t = startsWithTNew s := by
      unfold hasTempId
      rw [hs]
    by_cases h1 : startsWithTNew s = true
    · simp [List.filter_cons, ht, h1, hs]
    · by_cases h2 : mapHas serverTasks (some (.str s)) = true
      · simp [List.filter_cons, ht, h1, h2, hs]
      · simp [List.filter_cons, ht, h1, h2, hs]

theorem mapHas_iff_mem (tasks : List Obj) (s : String) :
    mapHas tasks (some (.str s)) = true ↔ some (JVal.str s) ∈ idsOf tasks := by
  unfold mapHas idsOf
  rw [List.any_eq_true, List.mem_map]
  constructor
  · rintro ⟨t, ht, h⟩
    exact ⟨t, ht, (refEq_str_right _ _).1 h⟩
  · rintro ⟨t, ht, h⟩
    exact ⟨t, ht, (refEq_str_right _ _).2 h⟩

theorem hasStringId_iff (t : Obj) :
    hasStringId t = true ↔ ∃ s, t.get "id" = some (.str s) := by
  unfold hasStringId
  cases hid : t.get "id" with
  | none => simp
  | some v => cases v <;> simp

/-- C6: in the periodic sync merge, for every local collection and every server list whose ids
are all strings, a value is the id of a record of the local collection after the merge if and
only if it is the id of a server task or the id of a local task with the temporary marker. -/
theorem syncMerge_ids (coerced : JVal → JVal → Bool) (tasks : List Obj) (c : Client)
    (hlocalIds : ∀ t ∈ c.TASKS, hasStringId t = true)
    (hserverIds : ∀ t ∈ tasks, hasStringId t = true) (key : Option JVal) :
    key ∈ idsOf (syncMerge coerced tasks c).TASKS
      ↔ key ∈ idsOf tasks ∨ key ∈ idsOf (c.TASKS.filter hasTempId) := by
  have hlocal : ∀ t ∈ c.TASKS, ∃ s, t.get "id" = some (.str s) :=
    fun t ht => (hasStringId_iff t).1 (hlocalIds t ht)
  have hserver : ∀ t ∈ tasks, ∃ s, t.get "id" = some (.str s) :=
    fun t ht => (hasStringId_iff t).1 (hserverIds t ht)
  have hmem := mem_idsOf_upsertAll coerced c.TASKS tasks c
    (fun l hl => List.mem_map_of_mem _ hl)
  have hstr : ∀ t ∈ (tasks.foldl (upsertStep coerced c.TASKS) c).TASKS,
      ∃ s, t.get "id" = some (.str s) := by
    intro t ht
    rcases (hmem (t.get "id")).1 (List.mem_map_of_mem _ ht) with h | h
    · obtain ⟨x, hx, hxe⟩ := List.mem_map.1 h
      obtain ⟨s, hs⟩ := hlocal x hx
      exact ⟨s, by rw [← hxe, hs]⟩
    · obtain ⟨x, hx, hxe⟩ := List.mem_map.1 h
      obtain ⟨s, hs⟩ := hserver x hx
      exact ⟨s, by rw [← hxe, hs]⟩
  unfold syncMerge
  simp only
  rw [pruneDeleted_of_string_ids _ _ hstr]
  simp only [idsOf, List.mem_map, List.mem_filter, Bool.or_eq_true]
  constructor
  · rintro ⟨t, ⟨ht, hkeep⟩, rfl⟩
    obtain ⟨s, hs⟩ := hstr t ht
    rcases hkeep with hk | hk
    · rcases (hmem (t.get "id")).1 (List.mem_map_of_mem _ ht) with h | h
      · obtain ⟨x, hx, hxe⟩ := List.mem_map.1 h
        exact Or.inr ⟨x, ⟨hx, by rw [hasTempId_congr hxe]; exact hk⟩, hxe⟩
      · exact Or.inl (List.mem_map.1 h)
    · rw [hs, mapHas_iff_mem] at hk
      rw [hs]
      exact Or.inl (List.mem_map.1 hk)
  · rintro (⟨x, hx, rfl⟩ | ⟨x, ⟨hx, htemp⟩, rfl⟩)
    · obtain ⟨t, ht, hte⟩ := List.mem_map.1
        ((hmem (x.get "id")).2 (Or.inr (List.mem_map_of_mem _ hx)))
      refine ⟨t, ⟨ht, Or.inr ?_⟩, hte⟩
      obtain ⟨s, hs⟩ := hserver x hx
      rw [hte, hs, mapHas_iff_mem, ← hs]
      exact List.mem_map_of_mem _ hx
    · obtain ⟨t, ht, hte⟩ := List.mem_map.1
        ((hmem (x.get "id")).2 (Or.inl (List.mem_map_of_mem _ hx)))
      exact ⟨t, ⟨ht, Or.inl (by rw [hasTempId_congr hte]; exact htemp)⟩, hte⟩

/-- Witness of `syncMerge_ids`: `sampleClient` merged with `sampleServerList`, read at the id of
the task the server has deleted, which is neither a server id nor a temporary id. -/
theorem syncMerge_ids_witness :
    (∀ t ∈ sampleClient.TASKS, hasStringId t = true)
      ∧ (∀ t ∈ sampleServerList, hasStringId t = true)
      ∧ (some (JVal.str "t_2") ∈ idsOf (syncMerge noCoercion sampleServerList sampleClient).TASKS
        ↔ some (JVal.str "t_2") ∈ idsOf sampleServerList
          ∨ some (JVal.str "t_2") ∈ idsOf (sampleClient.TASKS.filter hasTempId)) :=
  ⟨by decide, by decide,
    syncMerge_ids noCoercion sampleServerList sampleClient (by decide) (by decide) _⟩

/-! ## C4: the version rule of the periodic sync -/

theorem filter_eq_singleton_split {p : Obj → Bool} {l : List Obj} {x : Obj}
    (h : l.filter p = [x]) :
    ∃ before after, l = before ++ x :: after ∧ p x = true
      ∧ (∀ t ∈ before, p t = false) ∧ (∀ t ∈ after, p t = false) := by
  induction l with
  | nil => simp at h
  | cons t ts ih =>
    rw [List.filter_cons] at h
    by_cases hp : p t = true
    · rw [if_pos hp] at h
      simp only [List.cons.injEq] at h
      obtain ⟨rfl, hts⟩ := h
      refine ⟨[], ts, rfl, hp, by simp, ?_⟩
      intro y hy
      by_contra hne
      have : y ∈ ts.filter p := List.mem_filter.2 ⟨hy, by simpa using hne⟩
      rw [hts] at this
      cases this
    · rw [if_neg hp] at h
      obtain ⟨before, after, hl, hx, hb, ha⟩ := ih h
      refine ⟨t :: before, after, by simp [hl], hx, ?_, ha⟩
      intro y hy
      rcases List.mem_cons.1 hy with rfl | hy
      · simpa using hp
      · exact hb y hy

theorem idIs_congr {a : String} {x y : Obj} (h : x.get "id" = y.get "id") :
    idIs a x = idIs a y := by
  unfold idIs
  rw [h]

theorem idIs_iff (a : String) (t : Obj) : idIs a t = true ↔ t.get "id" = some (.str a) :=
  refEq_str_right _ _

/-- The iteration of the upsert loop for the server task with id `a`, when exactly one record of
the snapshot and exactly one record of `TASKS` carry that id. -/
theorem filter_upsertStep_same_id (coerced : JVal → JVal → Bool) (localMap : List Obj)
    (c : Client) (a : String) (l x s : Obj) (hmap : localMap.filter (idIs a) = [l])
    (hcur : c.TASKS.filter (idIs a) = [x]) (hs : idIs a s = true) :
    (upsertStep coerced localMap c s).TASKS.filter (idIs a)
      = [if jsGreater coerced (orZero (s.get "version")) (orZero (l.get "version")) = true
          then (ensureTaskMeta s c.env).1 else x] := by
  have hsid : s.get "id" = some (.str a) := (idIs_iff a s).1 hs
  have hget : mapGet localMap (s.get "id") = some l := by
    unfold mapGet
    rw [hsid]
    have : localMap.filter (fun t => refEq (t.get "id") (some (.str a))) = [l] := hmap
    rw [this]
    rfl
  obtain ⟨before, after, hl, hx, hb, ha⟩ := filter_eq_singleton_split hcur
  have hidx : findIndex (fun t => refEq (t.get "id") (s.get "id")) c.TASKS
      = some before.length := by
    rw [hsid]
    exact (findIndex_eq_some_iff _ _ _).2 ⟨before, x, after, hl, rfl, hx, hb⟩
  have hnew : idIs a (ensureTaskMeta s c.env).1 = true := by
    rw [idIs_congr (ensureTaskMeta_get_id s c.env)]
    exact hs
  rcases upsertStep_cases coerced localMap c s with
    ⟨hnone, _⟩ | ⟨l', idx, hm, hg, hidx', h⟩ | ⟨l', hm, hcase, h⟩
  · rw [hget] at hnone
    cases hnone
  · rw [hget] at hm
    cases hm
    rw [hidx] at hidx'
    cases hidx'
    rw [h, if_pos hg]
    simp only
    rw [hl, set_append_length, List.filter_append, List.filter_cons, if_pos hnew,
      List.filter_eq_nil_iff.2 (fun t ht => by simp [hb t ht]),
      List.filter_eq_nil_iff.2 (fun t ht => by simp [ha t ht])]
    rfl
  · rw [hget] at hm
    cases hm
    rcases hcase with hg | hnone
    · rw [h, hcur, if_neg (by simp [hg])]
    · rw [hidx] at hnone
      cases hnone

theorem jsGreater_num (coerced : JVal → JVal → Bool) (x y : Int) :
    jsGreater coerced (orZero (some (.num x))) (orZero (some (.num y))) = decide (x > y) := by
  have h : ∀ n : Int, orZero (some (.num n)) = .num n := by
    intro n
    unfold orZero
    by_cases hn : n = 0
    · simp [truthy, hn]
    · simp [truthy, hn]
  rw [h, h]
  rfl

/-- C4 (amended): in the periodic sync merge, for every local collection, every server list and
every string id that exactly one local record `l` and exactly one server record `s` carry:
after the merge exactly one local record carries the id, and it is the server's record (as
`ensureTaskMeta` returns it) when the server version is strictly greater than the local version
(`version || 0` on both sides), and the local record exactly as it was otherwise. In particular,
when both versions are numbers, the version after the merge is the greater of the two: it never
decreases, and an equal server version does not overwrite. -/
theorem syncMerge_version_rule (coerced : JVal → JVal → Bool) (tasks : List Obj) (c : Client)
    (a : String) (l s : Obj) (hlocal : c.TASKS.filter (idIs a) = [l])
    (hserver : tasks.filter (idIs a) = [s]) :
    (∃ e, (syncMerge coerced tasks c).TASKS.filter (idIs a)
        = [if jsGreater coerced (orZero (s.get "version")) (orZero (l.get "version")) = true
            then (ensureTaskMeta s e).1 else l])
      ∧ (∀ lv sv : Int, l.get "version" = some (.num lv) → s.get "version" = some (.num sv) →
          ∃ m : Obj, (syncMerge coerced tasks c).TASKS.filter (idIs a) = [m]
            ∧ m.get "version" = some (.num (max lv sv))
            ∧ (sv ≤ lv → m = l)) := by
  obtain ⟨s1, s2, hsplit, hs, h1, h2⟩ := filter_eq_singleton_split hserver
  have hsmem : s ∈ tasks := by rw [hsplit]; simp
  have hreject : ∀ (part : List Obj), (∀ t ∈ part, idIs a t = false) →
      ∀ t ∈ part, ∀ x : Obj, x.get "id" = t.get "id" → idIs a x = false := by
    intro part hpart t ht x hx
    rw [idIs_congr hx]
    exact hpart t ht
  have hmain : (syncMerge coerced tasks c).TASKS.filter (idIs a)
      = [if jsGreater coerced (orZero (s.get "version")) (orZero (l.get "version")) = true
          then (ensureTaskMeta s (s1.foldl (upsertStep coerced c.TASKS) c).env).1 else l] := by
    unfold syncMerge
    simp only
    rw [filter_pruneDeleted, hsplit, List.foldl_append, List.foldl_cons,
      filter_upsertAll _ _ _ _ _ (hreject s2 h2)]
    · apply filter_upsertStep_same_id coerced c.TASKS _ a l l s hlocal _ hs
      rw [filter_upsertAll _ _ _ _ _ (hreject s1 h1)]
      exact hlocal
    · intro t ht b hb
      right
      rw [(idIs_iff a t).1 ht] at hb
      cases hb
      rw [mapHas_iff_mem]
      rw [← (idIs_iff a s).1 hs]
      exact List.mem_map_of_mem _ hsmem
  refine ⟨⟨_, hmain⟩, ?_⟩
  intro lv sv hlv hsv
  rw [hmain, hlv, hsv, jsGreater_num]
  by_cases hgt : sv > lv
  · refine ⟨_, by rw [if_pos (by simpa using hgt)], ?_, fun hle => absurd hle (not_le.2 hgt)⟩
    rw [ensureTaskMeta_get_version (by rw [hsv]; rfl), hsv, max_eq_right (le_of_lt hgt)]
  · refine ⟨_, by rw [if_neg (by simpa using hgt)], ?_, fun _ => rfl⟩
    rw [hlv, max_eq_left (not_lt.1 hgt)]

/-- Witness of `syncMerge_version_rule`: `t_3` is held at version 3 by `sampleClient` and at
version 5 by `sampleServerList`. -/
theorem syncMerge_version_rule_witness :
    (∃ e, (syncMerge noCoercion sampleServerList sampleClient).TASKS.filter (idIs "t_3")
        = [if jsGreater noCoercion (orZero ((sampleServerList.headD []).get "version"))
              (orZero ((sampleClient.TASKS.getD 2 []).get "version")) = true
            then (ensureTaskMeta (sampleServerList.headD []) e).1
            else sampleClient.TASKS.getD 2 []])
      ∧ (∀ lv sv : Int, (sampleClient.TASKS.getD 2 []).get "version" = some (.num lv) →
          (sampleServerList.headD []).get "version" = some (.num sv) →
          ∃ m : Obj,
            (syncMerge noCoercion sampleServerList sampleClient).TASKS.filter (idIs "t_3") = [m]
            ∧ m.get "version" = some (.num (max lv sv))
            ∧ (sv ≤ lv → m = sampleClient.TASKS.getD 2 [])) :=
  syncMerge_version_rule noCoercion sampleServerList sampleClient "t_3"
    (sampleClient.TASKS.getD 2 []) (sampleServerList.headD []) (by decide) (by decide)

/-- C4 as stated fails: the local collection holds the id `t_1` twice, at versions 5 and 1, the
server holds it at version 3, and the merge replaces the entry of version 5. -/
theorem syncMerge_version_rule_counterexample :
    ¬ SyncVersionRuleAsStated noCoercion serverListVersionThree duplicateClient := by
  intro h
  have h1 := (h "t_1" (duplicateClient.TASKS.headD []) (serverListVersionThree.headD [])
    (by decide) (by decide) (by decide) (by decide)).2 (by decide)
  revert h1
  decide

/-! ## C7: one task per id in the client collection -/

/-- C7, evaluated on the code: `createNewTask` has put its temporary entry in the collection and
sent the create call; the server creates the record; a periodic sync merges the server list,
which holds that record and has pairwise distinct ids, into a collection with pairwise distinct
ids; the create call then resolves and `Object.assign` gives the temporary entry the id of the
record the sync has already added: the collection holds two entries with one id. -/
theorem createNewTask_after_sync_duplicates_id :
    (idsOf raceClient.TASKS).Nodup
      ∧ (idsOf raceServerList).Nodup
      ∧ idsOf raceAfterSync.TASKS
          = [some (.str "t_new_1700000000000_i"), some (.str "t_1700000000000_500000_1")]
      ∧ idsOf raceAfterCreate.TASKS
          = [some (.str "t_1700000000000_500000_1"), some (.str "t_1700000000000_500000_1")]
      ∧ ¬ (idsOf raceAfterCreate.TASKS).Nodup := by
  decide

/-! ## C9: create, then list -/

/-- The record `createOne` creates is in normal form. -/
theorem createOne_created_isNormal {s s1 : Server} {tasks : List Obj} (body : Obj)
    (hload : loadTasksWithMetadata s = (.ok tasks, s1)) :
    ∃ (newTask : Obj) (env2 : Env),
      createOne body s = (⟨201, .obj newTask⟩, { tasksFile := tasks ++ [newTask], env := env2 })
      ∧ isNormal newTask = true
      ∧ newTask.get "version"
          = (if isNumber (body.get "version") then body.get "version" else some (.num 1))
      ∧ (∀ k, k ≠ "id" → k ≠ "version" → k ≠ "updatedAt" → newTask.get k = body.get k) := by
  obtain ⟨newTask, env2, heq, hid, hv, hu, hk⟩ := createOne_created body hload
  refine ⟨newTask, env2, heq, (isNormal_iff _).2 ⟨⟨_, hid, ?_, ?_⟩, ?_, ?_⟩, hv, hk⟩
  · split
    · exact (generateUniqueTaskId_shape _ _).2
    · exact (generateUniqueTaskId_shape _ _).2
  · split
    · exact (generateUniqueTaskId_shape _ _).1
    · exact (generateUniqueTaskId_shape _ _).1
  · rw [hv]
    by_cases h : isNumber (body.get "version") = true
    · rw [if_pos h]; exact h
    · rw [if_neg h]; rfl
  · rw [hu]
    by_cases h : truthy (body.get "updatedAt") = true
    · rw [if_pos h]; exact h
    · rw [if_neg h]; exact truthy_str (toISOString_ne_empty _)

theorem has_iff_get_ne_none (o : Obj) (k : String) : o.has k = true ↔ o.get k ≠ none := by
  rw [Ne, Obj.get_eq_none_iff]
  simp

/-- C9 (amended): for every stored collection that `loadTasksWithMetadata` accepts and every
single-object body, `createOne` answers 201 with a record whose fields are exactly the body's
fields other than `id`, plus `id`, `version` and `updatedAt`, every field other than these three
having the body's value; and whenever the ids of the normalised records and of the created
record are pairwise distinct, a following `listAll` returns the normalised records (as
`loadTasksWithMetadata` returned them to `createOne`) unchanged and in order, followed by the
created record. -/
theorem createOne_then_listAll {s s1 : Server} {tasks : List Obj} (body : Obj)
    (hload : loadTasksWithMetadata s = (.ok tasks, s1)) :
    ∃ created : Obj, (createOne body s).1 = ⟨201, .obj created⟩
      ∧ (∀ k, created.has k = true ↔
          (k ≠ "id" ∧ body.has k = true) ∨ k = "id" ∨ k = "version" ∨ k = "updatedAt")
      ∧ (∀ k, k ≠ "id" → k ≠ "version" → k ≠ "updatedAt" → created.get k = body.get k)
      ∧ ((idsOf (tasks ++ [created])).Nodup →
          (listAll (createOne body s).2).1 = ⟨200, .arr ((tasks ++ [created]).map .obj)⟩) := by
  obtain ⟨newTask, env2, heq, hnormal, hv, hk⟩ := createOne_created_isNormal body hload
  obtain ⟨⟨sid, hid, _, _⟩, hnum, htruthy⟩ := (isNormal_iff newTask).1 hnormal
  refine ⟨newTask, by rw [heq], ?_, hk, ?_⟩
  · intro k
    rw [has_iff_get_ne_none]
    by_cases h1 : k = "id"
    · simp [h1, hid]
    · by_cases h2 : k = "version"
      · obtain ⟨n, hn⟩ := (isNumber_iff _).1 hnum
        simp [h2, hn]
      · by_cases h3 : k = "updatedAt"
        · subst h3
          have : newTask.get "updatedAt" ≠ none := by
            intro hnone
            rw [hnone] at htruthy
            cases htruthy
          simp [this]
        · rw [hk k h1 h2 h3, ← has_iff_get_ne_none]
          simp [h1, h2, h3]
  · intro hnodup
    have hall : ∀ t ∈ tasks ++ [newTask], isNormal t = true := by
      intro t ht
      rcases List.mem_append.1 ht with h | h
      · exact (loadTasksWithMetadata_ok hload).2 t h
      · rw [List.mem_singleton.1 h]
        exact hnormal
    rw [heq]
    unfold listAll
    rw [loadTasksWithMetadata_of_isNormal _ hall hnodup]

/-- Witness of `createOne_then_listAll`: a task created in `sampleStore` and listed. -/
theorem createOne_then_listAll_witness :
    ∃ created : Obj, (createOne [("title", .str "B")] sampleStore).1 = ⟨201, .obj created⟩
      ∧ (idsOf (sampleStore.tasksFile ++ [created])).Nodup
      ∧ (listAll (createOne [("title", .str "B")] sampleStore).2).1
          = ⟨200, .arr ((sampleStore.tasksFile ++ [created]).map .obj)⟩ := by
  obtain ⟨created, h1, _, _, h4⟩ :=
    @createOne_then_listAll sampleStore (loadTasksWithMetadata sampleStore).2
      sampleStore.tasksFile [("title", .str "B")] rfl
  have hc : (createOne [("title", .str "B")] sampleStore).1
      = ⟨201, .obj [("title", .str "B"), ("id", .str "t_1700000000000_500000_1"),
          ("version", .num 1), ("updatedAt", .str "2023-11-14T22:13:20.000Z")]⟩ := by decide
  rw [hc] at h1
  cases h1
  have hn : (idsOf (sampleStore.tasksFile ++ [[("title", JVal.str "B"),
      ("id", .str "t_1700000000000_500000_1"), ("version", .num 1),
      ("updatedAt", .str "2023-11-14T22:13:20.000Z")]])).Nodup := by decide
  exact ⟨_, hc, hn, h4 hn⟩

/-- C9 as stated fails: the stored record has no version and no `updatedAt`; `createOne` writes
it back normalised, so `listAll` does not return it unchanged. -/
theorem createOne_then_listAll_counterexample :
    ¬ CreateThenListAsStated storeWithoutVersion [("title", .str "B")] := by
  intro h
  have h1 := (h [("title", .str "B"), ("id", .str "t_1700000000000_500000_1"),
    ("version", .num 1), ("updatedAt", .str "2023-11-14T22:13:20.000Z")] (by decide!)).1
  revert h1
  decide!

/-! ## C10: create, then update -/

/-- C10 (amended): for every stored collection that `loadTasksWithMetadata` accepts, every
create body without a numeric version and every update payload `q`, `createOne` answers 201
with a record that has a string id, and whenever the ids of the normalised records and of the
created record are pairwise distinct, `updateOne` on that id answers 200 with a record of
version 2 and of the same id in which every field other than `id`, `version` and `updatedAt`
has the value of `q` when `q` has the field and the value of the body otherwise. -/
theorem createOne_then_updateOne {s s1 : Server} {tasks : List Obj} (body q : Obj)
    (hload : loadTasksWithMetadata s = (.ok tasks, s1))
    (hversion : isNumber (body.get "version") = false) :
    ∃ (created : Obj) (id : String), (createOne body s).1 = ⟨201, .obj created⟩
      ∧ created.get "id" = some (.str id)
      ∧ ((idsOf (tasks ++ [created])).Nodup →
          ∃ updated : Obj, (updateOne id q (createOne body s).2).1 = ⟨200, .obj updated⟩
            ∧ updated.get "version" = some (.num 2)
            ∧ updated.get "id" = some (.str id)
            ∧ ∀ k, k ≠ "id" → k ≠ "version" → k ≠ "updatedAt" →
                updated.get k = (q.get k).or (body.get k)) := by
  obtain ⟨newTask, env2, heq, hnormal, hv, hk⟩ := createOne_created_isNormal body hload
  obtain ⟨⟨id, hid, _, _⟩, _, _⟩ := (isNormal_iff newTask).1 hnormal
  refine ⟨newTask, id, by rw [heq], hid, ?_⟩
  intro hnodup
  have hall : ∀ t ∈ tasks ++ [newTask], isNormal t = true := by
    intro t ht
    rcases List.mem_append.1 ht with h | h
    · exact (loadTasksWithMetadata_ok hload).2 t h
    · rw [List.mem_singleton.1 h]
      exact hnormal
  have hload2 := loadTasksWithMetadata_of_isNormal
    { tasksFile := tasks ++ [newTask], env := env2 } hall hnodup
  have hbefore : ∀ t ∈ tasks, hasId id t = false := by
    intro t ht
    rw [← Bool.not_eq_true, hasId_iff]
    intro hte
    have hn := List.nodup_append.1 (by simpa [idsOf] using hnodup :
      (idsOf tasks ++ [newTask.get "id"]).Nodup)
    exact hn.2.2 (List.mem_map_of_mem _ ht) (by rw [hte, hid]; simp)
  rw [heq]
  simp only
  rw [updateOne_found id q hload2 ((hasId_iff _ _).2 hid) hbefore]
  have hv1 : newTask.get "version" = some (.num 1) := by
    rw [hv, hversion]
    rfl
  refine ⟨_, rfl, ?_, ?_, ?_⟩
  · rw [Obj.get_set_of_ne _ _ (by decide), Obj.get_set_same, hv1]
    rfl
  · rw [Obj.get_set_of_ne _ _ (by decide), Obj.get_set_of_ne _ _ (by decide), Obj.get_set_same]
  · intro k h1 h2 h3
    rw [Obj.get_set_of_ne _ _ (Ne.symm h3), Obj.get_set_of_ne _ _ (Ne.symm h2),
      Obj.get_set_of_ne _ _ (Ne.symm h1), Obj.get_spread, hk k h1 h2 h3]

/-- Witness of `createOne_then_updateOne`: the scenario of the specification, the body
`title: "A"` and the payload `progress: 50`, on an empty store. -/
theorem createOne_then_updateOne_witness :
    ∃ (created : Obj) (id : String) (updated : Obj),
      (createOne [("title", .str "A")] ⟨[], sampleEnv⟩).1 = ⟨201, .obj created⟩
      ∧ created.get "id" = some (.str id)
      ∧ (idsOf ([] ++ [created])).Nodup
      ∧ (updateOne id [("progress", .num 50)]
          (createOne [("title", .str "A")] ⟨[], sampleEnv⟩).2).1 = ⟨200, .obj updated⟩
      ∧ updated.get "version" = some (.num 2)
      ∧ updated.get "progress" = some (.num 50)
      ∧ updated.get "title" = some (.str "A") := by
  obtain ⟨created, id, h1, h2, h3⟩ :=
    @createOne_then_updateOne ⟨[], sampleEnv⟩ ⟨[], sampleEnv⟩ [] [("title", .str "A")]
      [("progress", .num 50)] rfl rfl
  have hn : (idsOf ([] ++ [created])).Nodup := by simp [idsOf]
  obtain ⟨updated, h4, h5, _, h7⟩ := h3 hn
  exact ⟨created, id, updated, h1, h2, hn, h4, h5,
    h7 "progress" (by decide) (by decide) (by decide),
    h7 "title" (by decide) (by decide) (by decide)⟩

/-- C10 as stated fails: the update payload carries `version: 1`, as the payloads of the client
do, and the record returned has version 2, not the payload's value. -/
theorem createOne_then_updateOne_counterexample :
    ¬ CreateThenUpdateAsStated ⟨[], sampleEnv⟩ [("title", .str "A")]
      [("progress", .num 50), ("version", .num 1)] := by
  intro h
  obtain ⟨updated, _, h2, h3, _⟩ := h rfl
    [("title", .str "A"), ("id", .str "t_1700000000000_500000_1"), ("version", .num 1),
      ("updatedAt", .str "2023-11-14T22:13:20.000Z")] "t_1700000000000_500000_1"
    (by decide!) rfl
  have h4 := h3 "version" (.num 1) rfl
  rw [h2] at h4
  revert h4
  decide

/-! ## The stored file after a load -/

theorem strictEq_num_left (v : Option JVal) (n : Int) :
    strictEq (some (.num n)) v = true ↔ v = some (.num n) := by
  cases v with
  | none => simp [strictEq]
  | some a =>
    cases a <;> simp [strictEq, JVal.beq]
    exact eq_comm

/-- When `normalizeAll` reports no change, it returns the records it was given. -/
theorem normalizeAll_unchanged {existingIds : List (Option JVal)} {tasks : List Obj}
    {env env1 : Env} {nts : List Obj}
    (h : normalizeAll existingIds tasks env = (.ok (nts, false), env1)) : nts = tasks := by
  induction tasks generalizing env env1 nts with
  | nil =>
    simp only [normalizeAll, Prod.mk.injEq, Except.ok.injEq] at h
    exact h.1.1.symm
  | cons t rest ih =>
    rw [normalizeAll] at h
    cases h1 : normalizeTask t existingIds env with
    | mk r e =>
      rw [h1] at h
      cases r with
      | error err => simp at h
      | ok nt =>
        simp only at h
        cases h2 : normalizeAll existingIds rest e with
        | mk r2 e2 =>
          rw [h2] at h
          cases r2 with
          | error err => simp at h
          | ok p =>
            obtain ⟨nts2, ch2⟩ := p
            simp only [Prod.mk.injEq, Except.ok.injEq, Bool.or_eq_false_iff,
              Bool.not_eq_false'] at h
            obtain ⟨⟨rfl, ⟨⟨hv, hu⟩, hi⟩, hc⟩, _⟩ := h
            subst hc
            rw [ih h2]
            congr 1
            obtain ⟨normalized, hn, hid, hver, hupd, _, hsame⟩ := normalizeTask_ok h1
            have hnorm : normalized = t := by
              rcases normalizeId_ok hn with ⟨h0, _, _⟩ | ⟨h0, _, hwhy⟩
              · exact h0
              · exfalso
                rw [hid, h0, Obj.get_set_same, strictEq_str_left] at hi
                have hshape := generateUniqueTaskId_shape existingIds env.dateNow.2
                rcases hwhy with hf | ⟨s', hs', htemp⟩
                · rw [hi, truthy_str hshape.2] at hf
                  cases hf
                · rw [hi] at hs'
                  cases hs'
                  rw [hshape.1] at htemp
                  cases htemp
            subst hnorm
            apply hsame
            · by_contra hne
              rw [hver, if_neg hne, strictEq_num_left] at hv
              rw [hv] at hne
              exact hne rfl
            · by_contra hne
              rw [hupd, if_neg hne, strictEq_str_left] at hu
              rw [hu, truthy_str (toISOString_ne_empty _)] at hne
              exact hne rfl

/-- After a successful `loadTasksWithMetadata` the stored file is the list it returned. -/
theorem loadTasksWithMetadata_file {s s1 : Server} {tasks : List Obj}
    (h : loadTasksWithMetadata s = (.ok tasks, s1)) : s1.tasksFile = tasks := by
  rw [loadTasksWithMetadata_eq] at h
  cases hn : normalizeAll ((s.tasksFile.map fun t => t.get "id").filter truthy) s.tasksFile s.env with
  | mk r e =>
    rw [hn] at h
    cases r with
    | error err => simp at h
    | ok p =>
      obtain ⟨normalized, changed⟩ := p
      simp only [Prod.mk.injEq, Except.ok.injEq] at h
      obtain ⟨ht, hs⟩ := h
      rw [← hs, ← ht]
      simp only
      by_cases hc : (changed || decide ((duplicateIndices normalized 0 []).length > 0)) = true
      · rw [if_pos hc]
      · rw [if_neg hc]
        simp only [Bool.or_eq_true, not_or, Bool.not_eq_true, decide_eq_false_iff_not,
          gt_iff_lt, List.length_pos, ne_eq, not_not] at hc
        obtain ⟨hch, hd⟩ := hc
        subst hch
        rw [hd, remintDuplicates, normalizeAll_unchanged hn]

/-- A failed `loadTasksWithMetadata` leaves the stored file as it was. -/
theorem loadTasksWithMetadata_error_file {s s1 : Server} {e : JsError}
    (h : loadTasksWithMetadata s = (.error e, s1)) : s1.tasksFile = s.tasksFile := by
  rw [loadTasksWithMetadata_eq] at h
  cases hn : normalizeAll ((s.tasksFile.map fun t => t.get "id").filter truthy) s.tasksFile s.env with
  | mk r e' =>
    rw [hn] at h
    cases r with
    | error err =>
      simp only [Prod.mk.injEq] at h
      rw [← h.2]
    | ok p => simp at h

/-! ## C12 and C13: not found, and the effect of `deleteOne` -/

/-- What `updateOne` does when no record of the normalised list has the path id. -/
theorem updateOne_notFound {s s1 : Server} {tasks : List Obj} (id : String) (incoming : Obj)
    (hload : loadTasksWithMetadata s = (.ok tasks, s1))
    (hnone : ∀ t ∈ tasks, hasId id t = false) :
    updateOne id incoming s = (⟨404, errorBody "任務不存在"⟩, s1) := by
  unfold updateOne
  rw [hload]
  simp only [(findIndex_eq_none_iff _ _).2 hnone]

/-- What `deleteOne` does when no record of the normalised list has the path id. -/
theorem deleteOne_notFound {s s1 : Server} {tasks : List Obj} (id : String)
    (hload : loadTasksWithMetadata s = (.ok tasks, s1))
    (hnone : ∀ t ∈ tasks, hasId id t = false) :
    deleteOne id s = (⟨404, errorBody "任務不存在"⟩, s1) := by
  unfold deleteOne
  rw [hload]
  simp only [(findIndex_eq_none_iff _ _).2 hnone]

/-- What `deleteOne` does once the first record with the path id has been located. -/
theorem deleteOne_found {s s1 : Server} {before after : List Obj} {cur : Obj} (id : String)
    (hload : loadTasksWithMetadata s = (.ok (before ++ cur :: after), s1))
    (hcur : hasId id cur = true) (hbefore : ∀ t ∈ before, hasId id t = false) :
    deleteOne id s =
      (⟨200, .obj [("success", .bool true)]⟩,
        { tasksFile := before ++ after, env := s1.env }) := by
  have hidx : findIndex (hasId id) (before ++ cur :: after) = some before.length :=
    (findIndex_eq_some_iff _ _ _).2 ⟨before, cur, after, rfl, rfl, hcur, hbefore⟩
  unfold deleteOne
  rw [hload]
  simp only [hidx, eraseIdx_append_length]

theorem hasId_eq_false_iff (id : String) (t : Obj) :
    hasId id t = false ↔ t.get "id" ≠ some (.str id) := by
  rw [← Bool.not_eq_true, hasId_iff]

/-- The list either holds no record with the id, or splits at the first one. -/
theorem split_at_first_id (id : String) (tasks : List Obj) :
    (∀ t ∈ tasks, hasId id t = false)
      ∨ ∃ before cur after, tasks = before ++ cur :: after ∧ hasId id cur = true
          ∧ ∀ t ∈ before, hasId id t = false := by
  cases h : findIndex (hasId id) tasks with
  | none => exact Or.inl ((findIndex_eq_none_iff _ _).1 h)
  | some idx =>
    obtain ⟨before, cur, after, hl, _, hc, hb⟩ := (findIndex_eq_some_iff _ _ _).1 h
    exact Or.inr ⟨before, cur, after, hl, hc, hb⟩

/-- C12: for every stored collection with normalised list `tasks` and every id, `updateOne` and
`deleteOne` answer with status 404 if and only if no record of the normalised list has that id;
in that case the body is the error `任務不存在` and the stored collection is the normalised list:
no record is added, removed or modified. -/
theorem notFound_iff {s s1 : Server} {tasks : List Obj} (id : String) (incoming : Obj)
    (hload : loadTasksWithMetadata s = (.ok tasks, s1)) :
    ((updateOne id incoming s).1.status = 404 ↔ ∀ t ∈ tasks, t.get "id" ≠ some (.str id))
      ∧ ((deleteOne id s).1.status = 404 ↔ ∀ t ∈ tasks, t.get "id" ≠ some (.str id))
      ∧ ((∀ t ∈ tasks, t.get "id" ≠ some (.str id)) →
          (updateOne id incoming s).1 = ⟨404, errorBody "任務不存在"⟩
            ∧ (updateOne id incoming s).2.tasksFile = tasks
            ∧ (deleteOne id s).1 = ⟨404, errorBody "任務不存在"⟩
            ∧ (deleteOne id s).2.tasksFile = tasks) := by
  have hfile := loadTasksWithMetadata_file hload
  have hconv : (∀ t ∈ tasks, t.get "id" ≠ some (.str id)) ↔ ∀ t ∈ tasks, hasId id t = false :=
    forall₂_congr (fun t _ => (hasId_eq_false_iff id t).symm)
  rcases split_at_first_id id tasks with hnone | ⟨before, cur, after, hl, hc, hb⟩
  · have hn := hconv.2 hnone
    rw [updateOne_notFound id incoming hload hnone, deleteOne_notFound id hload hnone]
    exact ⟨⟨fun _ => hn, fun _ => rfl⟩, ⟨fun _ => hn, fun _ => rfl⟩,
      fun _ => ⟨rfl, hfile, rfl, hfile⟩⟩
  · subst hl
    have hnot : ¬ ∀ t ∈ before ++ cur :: after, t.get "id" ≠ some (.str id) := by
      intro hall
      exact hall cur (by simp) ((hasId_iff id cur).1 hc)
    rw [updateOne_found id incoming hload hc hb, deleteOne_found id hload hc hb]
    refine ⟨⟨fun h => ?_, fun h => absurd h hnot⟩, ⟨fun h => ?_, fun h => absurd h hnot⟩,
      fun h => absurd h hnot⟩
    · simp at h
    · simp at h

/-- Witness of `notFound_iff`: the id `t_9` is not in `sampleStore`. -/
theorem notFound_iff_witness :
    ((updateOne "t_9" [("progress", .num 50)] sampleStore).1.status = 404
        ↔ ∀ t ∈ sampleStore.tasksFile, t.get "id" ≠ some (.str "t_9"))
      ∧ ((deleteOne "t_9" sampleStore).1.status = 404
        ↔ ∀ t ∈ sampleStore.tasksFile, t.get "id" ≠ some (.str "t_9"))
      ∧ (updateOne "t_9" [("progress", .num 50)] sampleStore).1
          = ⟨404, errorBody "任務不存在"⟩
      ∧ (updateOne "t_9" [("progress", .num 50)] sampleStore).2.tasksFile
          = sampleStore.tasksFile
      ∧ (deleteOne "t_9" sampleStore).1 = ⟨404, errorBody "任務不存在"⟩
      ∧ (deleteOne "t_9" sampleStore).2.tasksFile = sampleStore.tasksFile :=
  have h := @notFound_iff sampleStore (loadTasksWithMetadata sampleStore).2
    sampleStore.tasksFile "t_9" [("progress", .num 50)] rfl
  ⟨h.1, h.2.1, h.2.2 (by decide)⟩

/-- C13 (amended): for every stored collection that `loadTasksWithMetadata` accepts and whose
normalised list contains a record with the given id, `deleteOne` answers 200 with
`success: true`, and the resulting stored collection is the normalised list with the first
record of that id removed: every other record is still present, unchanged and in the same
relative order. -/
theorem deleteOne_removes {s s1 : Server} {before after : List Obj} {cur : Obj} (id : String)
    (hload : loadTasksWithMetadata s = (.ok (before ++ cur :: after), s1))
    (hcur : cur.get "id" = some (.str id))
    (hbefore : ∀ t ∈ before, t.get "id" ≠ some (.str id)) :
    (deleteOne id s).1 = ⟨200, .obj [("success", .bool true)]⟩
      ∧ (deleteOne id s).2.tasksFile = before ++ after := by
  rw [deleteOne_found id hload ((hasId_iff _ _).2 hcur)
    (fun t ht => (hasId_eq_false_iff id t).2 (hbefore t ht))]
  exact ⟨rfl, rfl⟩

/-- Witness of `deleteOne_removes`: the middle task of `threeTaskStore` is deleted. -/
theorem deleteOne_removes_witness :
    (deleteOne "t_2" threeTaskStore).1 = ⟨200, .obj [("success", .bool true)]⟩
      ∧ (deleteOne "t_2" threeTaskStore).2.tasksFile
          = [recordWithId "t_1"] ++ [recordWithId "t_3"] :=
  @deleteOne_removes threeTaskStore (loadTasksWithMetadata threeTaskStore).2
    [recordWithId "t_1"] [recordWithId "t_3"] (recordWithId "t_2") "t_2" rfl rfl (by decide)

/-- C13 as stated fails: the stored record carries the temporary id `t_new_1`, which the load
replaces by a minted id, and `deleteOne` of `t_new_1` answers 404. -/
theorem deleteOne_removes_counterexample : ¬ DeleteAsStated storeWithTempId "t_new_1" := by
  intro h
  have h1 := h ⟨_, List.mem_singleton_self _, rfl⟩
  revert h1
  decide

/-! ## A store in which the re-minting of a duplicate id runs out of attempts -/

theorem includes_append_single (seen : List (Option JVal)) (x v : Option JVal) :
    includes (seen ++ [x]) v = (includes seen v || strictEq x v) := by
  simp [includes, List.any_append]

/-- A list of records with pairwise distinct string ids, followed by one record whose id is
already there: the only duplicate is the last record. -/
theorem duplicateIndices_append_duplicate (l : List Obj) (d : Obj) (index : Nat)
    (seen : List (Option JVal)) (hstr : ∀ t ∈ l, ∃ s, t.get "id" = some (.str s))
    (hnodup : (seen ++ idsOf l).Nodup) (a : String) (hd : d.get "id" = some (.str a))
    (hmem : some (JVal.str a) ∈ seen ++ idsOf l) :
    duplicateIndices (l ++ [d]) index seen = [index + l.length] := by
  induction l generalizing index seen with
  | nil =>
    have hin : includes seen (d.get "id") = true := by
      rw [hd, includes_str]
      simpa [idsOf] using hmem
    simp [duplicateIndices, hin]
  | cons t rest ih =>
    obtain ⟨s, hs⟩ := hstr t (List.mem_cons_self _ _)
    have hnot : includes seen (t.get "id") = false := by
      rw [hs, ← Bool.not_eq_true, includes_str]
      intro hm
      exact (List.nodup_append.1 hnodup).2.2 hm (by simp [idsOf, hs])
    rw [List.cons_append, duplicateIndices, if_neg (by simp [hnot]),
      ih (index + 1) (seen ++ [t.get "id"])
        (fun x hx => hstr x (List.mem_cons_of_mem _ hx))
        (by simpa [idsOf] using hnodup) (by simpa [idsOf] using hmem)]
    simp only [List.length_cons]
    congr 1
    omega

theorem modifyAt_append_length (f : Obj → Obj) (before after : List Obj) (cur : Obj) :
    modifyAt f before.length (before ++ cur :: after) = before ++ f cur :: after := by
  induction before with
  | nil => rfl
  | cons b bs ih => simp [modifyAt, ih]

theorem set_id_recordWithId (id : String) :
    (recordWithId id).set "id" (.str id) = recordWithId id := by
  simp [Obj.set, Obj.has, recordWithId]

theorem candidateRecords_isNormal (n : Nat) : ∀ t ∈ candidateRecords n, isNormal t = true := by
  intro t ht
  simp only [candidateRecords, List.mem_map] at ht
  obtain ⟨k, _, rfl⟩ := ht
  exact isNormal_recordWithId (candidateId_ne_empty _ _ _) (startsWithTNew_candidateId _ _ _)

theorem isNormal_sampleFallback : isNormal (recordWithId sampleFallbackId) = true :=
  isNormal_recordWithId (fallbackId_ne_empty _ _ _) (startsWithTNew_fallbackId _ _ _)

/-- The candidate ids of the counters 1 to 100 and the fallback id are pairwise distinct. -/
theorem candidateRecords_nodup :
    (idsOf (candidateRecords 100 ++ [recordWithId sampleFallbackId])).Nodup := by
  refine List.Nodup.sublist ?_ collidingStore_nodup
  simp only [idsOf, collidingStore, candidateRecords, List.map_append]
  exact List.Sublist.append
    (List.Sublist.map _ (List.Sublist.map _ (List.range_sublist.2 (by decide))))
    (List.Sublist.refl _)

theorem candidateRecords_has_candidate (rest : List Obj) (counter : Nat) (h1 : 1 ≤ counter)
    (h2 : counter ≤ 100) :
    includes (idsOf (candidateRecords 100 ++ rest))
      (some (.str (candidateId 1700000000000 ⟨500000, "i"⟩ counter))) = true := by
  rw [includes_str]
  simp only [idsOf, candidateRecords, List.map_append, List.map_map, List.mem_append,
    List.mem_map, List.mem_range]
  refine Or.inl ⟨counter - 1, by omega, ?_⟩
  have : counter - 1 + 1 = counter := by omega
  simp only [Function.comp, recordWithId]
  rw [this]
  rfl

/-- With the clock and the draws of `sampleEnv` and the counter at 0, a call of
`generateUniqueTaskId` against a list that holds the first 100 candidates exhausts its
attempts and returns the fallback id. -/
theorem candidateRecords_mint (rest : List Obj) (env : Env)
    (hclock : env.clock = fun _ => 1700000000000)
    (hrandom : env.random = fun _ => ⟨500000, "i"⟩) (hcounter : env.taskIdCounter = 0) :
    (generateUniqueTaskId (idsOf (candidateRecords 100 ++ rest)) env).1 = sampleFallbackId
      ∧ (generateUniqueTaskId (idsOf (candidateRecords 100 ++ rest)) env).2.clock = env.clock
      ∧ (generateUniqueTaskId (idsOf (candidateRecords 100 ++ rest)) env).2.random
          = env.random
      ∧ (generateUniqueTaskId (idsOf (candidateRecords 100 ++ rest)) env).2.taskIdCounter
          = 101 := by
  have hall : ∀ k, k < 100 → includes (idsOf (candidateRecords 100 ++ rest))
      (some (.str (candidateAt env k))) = true := by
    intro k hk
    have hm : (env.taskIdCounter + k + 1) % 10000 = k + 1 := by omega
    simp only [candidateAt, hclock, hrandom, hm]
    exact candidateRecords_has_candidate rest _ (by omega) (by omega)
  obtain ⟨h1, h2⟩ := generateUniqueTaskId_collide _ env hall
  rw [h1, h2]
  simp [hclock, hrandom, hcounter, sampleFallbackId]

/-- The load of a store that holds the first 100 candidates of `sampleEnv` and the fallback id
twice, with the clock and the draws of `sampleEnv` and the counter at 0: the second record with
the fallback id is given the fallback id again. -/
theorem load_with_exhausted_remint (s : Server)
    (hfile : s.tasksFile
      = (candidateRecords 100 ++ [recordWithId sampleFallbackId])
          ++ [recordWithId sampleFallbackId])
    (hclock : s.env.clock = fun _ => 1700000000000)
    (hrandom : s.env.random = fun _ => ⟨500000, "i"⟩) (hcounter : s.env.taskIdCounter = 0) :
    ∃ env2 : Env, loadTasksWithMetadata s
        = (.ok s.tasksFile, { tasksFile := s.tasksFile, env := env2 })
      ∧ env2.clock = (fun _ => 1700000000000) ∧ env2.random = (fun _ => ⟨500000, "i"⟩)
      ∧ env2.taskIdCounter = 101 := by
  have hfirst : ∀ t ∈ candidateRecords 100 ++ [recordWithId sampleFallbackId],
      isNormal t = true := by
    intro t ht
    rcases List.mem_append.1 ht with h | h
    · exact candidateRecords_isNormal 100 t h
    · rw [List.mem_singleton.1 h]; exact isNormal_sampleFallback
  have hnormal : ∀ t ∈ s.tasksFile, isNormal t = true := by
    intro t ht
    rw [hfile] at ht
    rcases List.mem_append.1 ht with h | h
    · exact hfirst t h
    · rw [List.mem_singleton.1 h]; exact isNormal_sampleFallback
  have hlen : (candidateRecords 100 ++ [recordWithId sampleFallbackId]).length = 101 := by
    simp [candidateRecords]
  have hdup : duplicateIndices s.tasksFile 0 [] = [101] := by
    rw [hfile, duplicateIndices_append_duplicate
      (candidateRecords 100 ++ [recordWithId sampleFallbackId])
      (recordWithId sampleFallbackId) 0 [] (fun t ht => isNormal_id (hfirst t ht))
      (by simpa using candidateRecords_nodup) sampleFallbackId rfl
      (List.mem_append_right _ (List.mem_map_of_mem _
        (List.mem_append_right _ (List.mem_singleton_self _)))), hlen]
  have hmint := candidateRecords_mint
    [recordWithId sampleFallbackId, recordWithId sampleFallbackId]
    (s.env.afterClockReads s.tasksFile.length) hclock hrandom hcounter
  have hfile2 : s.tasksFile
      = candidateRecords 100 ++ [recordWithId sampleFallbackId, recordWithId sampleFallbackId] := by
    rw [hfile, List.append_assoc]
    rfl
  rw [← hfile2] at hmint
  refine ⟨(generateUniqueTaskId (idsOf s.tasksFile)
    (s.env.afterClockReads s.tasksFile.length)).2, ?_,
    hmint.2.1.trans hclock, hmint.2.2.1.trans hrandom, hmint.2.2.2⟩
  rw [loadTasksWithMetadata_eq, normalizeAll_of_isNormal _ _ _ hnormal]
  simp only [hdup, remintDuplicates, List.length_singleton, gt_iff_lt, Nat.lt_one_iff,
    Nat.pos_of_ne_zero, decide_True, Bool.or_true, if_true]
  have hid : (generateUniqueTaskId (s.tasksFile.map fun t => t.get "id")
      (s.env.afterClockReads s.tasksFile.length)).1 = sampleFallbackId := hmint.1
  rw [hid]
  have hmod : modifyAt (fun t => t.set "id" (.str sampleFallbackId)) 101 s.tasksFile
      = s.tasksFile := by
    rw [hfile, ← hlen, modifyAt_append_length, set_id_recordWithId]
  rw [hmod]
  rfl

theorem duplicateStore_file :
    duplicateStore.tasksFile
      = (candidateRecords 100 ++ [recordWithId sampleFallbackId])
          ++ [recordWithId sampleFallbackId] := by
  simp [duplicateStore]

/-! ## C11: deletion is terminal -/

/-- C11 (amended): for every stored collection that `loadTasksWithMetadata` accepts with a
normalised list of pairwise distinct ids, every id and every payload, if `deleteOne` succeeds
then a following `updateOne` on the same id answers 404 with the error `任務不存在`, leaves the
stored collection as the deletion left it, and that collection holds no record with the id. -/
theorem deleteOne_then_updateOne {s s1 : Server} {tasks : List Obj} (id : String)
    (incoming : Obj) (hload : loadTasksWithMetadata s = (.ok tasks, s1))
    (hnodup : (idsOf tasks).Nodup) (hdeleted : (deleteOne id s).1.status = 200) :
    (updateOne id incoming (deleteOne id s).2).1 = ⟨404, errorBody "任務不存在"⟩
      ∧ (updateOne id incoming (deleteOne id s).2).2.tasksFile = (deleteOne id s).2.tasksFile
      ∧ ∀ t ∈ (updateOne id incoming (deleteOne id s).2).2.tasksFile,
          t.get "id" ≠ some (.str id) := by
  rcases split_at_first_id id tasks with hnone | ⟨before, cur, after, hl, hc, hb⟩
  · rw [deleteOne_notFound id hload hnone] at hdeleted
    simp at hdeleted
  · subst hl
    have hnormal := (loadTasksWithMetadata_ok hload).2
    rw [deleteOne_found id hload hc hb]
    simp only
    have hall : ∀ t ∈ before ++ after, isNormal t = true := by
      intro t ht
      apply hnormal
      rcases List.mem_append.1 ht with h | h
      · exact List.mem_append_left _ h
      · exact List.mem_append_right _ (List.mem_cons_of_mem _ h)
    have hsub : (idsOf (before ++ after)).Nodup := by
      refine List.Nodup.sublist ?_ hnodup
      simp only [idsOf, List.map_append, List.map_cons]
      exact List.Sublist.append (List.Sublist.refl _) (List.sublist_cons_self _ _)
    have hnone : ∀ t ∈ before ++ after, hasId id t = false := by
      intro t ht
      rcases List.mem_append.1 ht with h | h
      · exact hb t h
      · rw [hasId_eq_false_iff]
        intro hte
        have hcid := (hasId_iff id cur).1 hc
        have hn : (idsOf before ++ (cur.get "id" :: idsOf after)).Nodup := by
          simpa [idsOf] using hnodup
        have hn2 := (List.nodup_cons.1 (List.nodup_append.1 hn).2.1).1
        apply hn2
        rw [hcid, ← hte]
        exact List.mem_map_of_mem _ h
    have hload2 := loadTasksWithMetadata_of_isNormal
      { tasksFile := before ++ after, env := s1.env } hall hsub
    rw [updateOne_notFound id incoming hload2 hnone]
    exact ⟨rfl, rfl, fun t ht => (hasId_eq_false_iff id t).1 (hnone t ht)⟩

/-- Witness of `deleteOne_then_updateOne`: `t_2` is deleted from `threeTaskStore`, then
updated. -/
theorem deleteOne_then_updateOne_witness :
    (idsOf threeTaskStore.tasksFile).Nodup
      ∧ (deleteOne "t_2" threeTaskStore).1.status = 200
      ∧ (updateOne "t_2" [("progress", .num 50)] (deleteOne "t_2" threeTaskStore).2).1
          = ⟨404, errorBody "任務不存在"⟩
      ∧ (updateOne "t_2" [("progress", .num 50)]
            (deleteOne "t_2" threeTaskStore).2).2.tasksFile
          = (deleteOne "t_2" threeTaskStore).2.tasksFile
      ∧ ∀ t ∈ (updateOne "t_2" [("progress", .num 50)]
            (deleteOne "t_2" threeTaskStore).2).2.tasksFile,
          t.get "id" ≠ some (.str "t_2") :=
  ⟨by decide, by decide,
    @deleteOne_then_updateOne threeTaskStore (loadTasksWithMetadata threeTaskStore).2
      threeTaskStore.tasksFile "t_2" [("progress", .num 50)] rfl (by decide) (by decide)⟩

/-- C11 as stated fails: in `duplicateStore` the load cannot separate the two records with the
fallback id; `deleteOne` of that id succeeds and removes the first of them, and the following
`updateOne` finds the second one and answers 200. -/
theorem deleteOne_then_updateOne_counterexample :
    ¬ DeleteThenUpdateAsStated duplicateStore sampleFallbackId [] := by
  intro h
  obtain ⟨env2, hload, _, _, _⟩ :=
    load_with_exhausted_remint duplicateStore duplicateStore_file rfl rfl rfl
  rw [duplicateStore_file, List.append_assoc] at hload
  have hcur : hasId sampleFallbackId (recordWithId sampleFallbackId) = true :=
    (hasId_iff _ _).2 rfl
  have hbefore : ∀ t ∈ candidateRecords 100, hasId sampleFallbackId t = false := by
    intro t ht
    rw [hasId_eq_false_iff]
    intro hte
    have hn : (idsOf (candidateRecords 100) ++ [some (JVal.str sampleFallbackId)]).Nodup := by
      simpa [idsOf, recordWithId, Obj.get_cons] using candidateRecords_nodup
    refine (List.nodup_append.1 hn).2.2 ?_ (List.mem_singleton_self _)
    rw [← hte]
    exact List.mem_map_of_mem _ ht
  have hload1 : loadTasksWithMetadata duplicateStore
      = (.ok (candidateRecords 100
            ++ recordWithId sampleFallbackId :: [recordWithId sampleFallbackId]),
          { tasksFile := candidateRecords 100
              ++ recordWithId sampleFallbackId :: [recordWithId sampleFallbackId],
            env := env2 }) := hload
  have hdel : deleteOne sampleFallbackId duplicateStore
      = (⟨200, .obj [("success", .bool true)]⟩,
          { tasksFile := candidateRecords 100 ++ [recordWithId sampleFallbackId],
            env := env2 }) :=
    @deleteOne_found duplicateStore
      { tasksFile := candidateRecords 100
          ++ recordWithId sampleFallbackId :: [recordWithId sampleFallbackId], env := env2 }
      (candidateRecords 100) [recordWithId sampleFallbackId] (recordWithId sampleFallbackId)
      sampleFallbackId hload1 hcur hbefore
  have hall : ∀ t ∈ candidateRecords 100 ++ [recordWithId sampleFallbackId],
      isNormal t = true := by
    intro t ht
    rcases List.mem_append.1 ht with h1 | h1
    · exact candidateRecords_isNormal 100 t h1
    · rw [List.mem_singleton.1 h1]; exact isNormal_sampleFallback
  have hload2 : loadTasksWithMetadata
      { tasksFile := candidateRecords 100 ++ [recordWithId sampleFallbackId], env := env2 }
      = (.ok (candidateRecords 100 ++ recordWithId sampleFallbackId :: []),
          { tasksFile := candidateRecords 100 ++ [recordWithId sampleFallbackId],
            env := env2.afterClockReads
              (candidateRecords 100 ++ [recordWithId sampleFallbackId]).length }) :=
    loadTasksWithMetadata_of_isNormal
      { tasksFile := candidateRecords 100 ++ [recordWithId sampleFallbackId], env := env2 }
      hall candidateRecords_nodup
  have hupd := @updateOne_found
    { tasksFile := candidateRecords 100 ++ [recordWithId sampleFallbackId], env := env2 }
    { tasksFile := candidateRecords 100 ++ [recordWithId sampleFallbackId],
      env := env2.afterClockReads
        (candidateRecords 100 ++ [recordWithId sampleFallbackId]).length }
    (candidateRecords 100) [] (recordWithId sampleFallbackId) sampleFallbackId [] hload2 hcur
    hbefore
  have hstatus : (deleteOne sampleFallbackId duplicateStore).1.status = 200 :=
    congrArg (fun p => p.1.status) hdel
  have hstate : (deleteOne sampleFallbackId duplicateStore).2
      = { tasksFile := candidateRecords 100 ++ [recordWithId sampleFallbackId],
          env := env2 } := congrArg Prod.snd hdel
  have h1 := (h hstatus).1
  rw [hstate, hupd] at h1
  have h2 : (200 : Nat) = 404 := h1
  omega

/-! ## C14: `listAll` twice -/

theorem normalizeId_of_hasBadId {t : Obj} (h : hasBadId t = true)
    (existingIds : List (Option JVal)) (env : Env) :
    normalizeId t existingIds env = (.error .typeError, env) := by
  unfold hasBadId hasStringId at h
  unfold normalizeId
  cases hid : t.get "id" with
  | none => rw [hid] at h; simp [truthy] at h
  | some v =>
    rw [hid] at h
    cases v <;> simp_all [truthy]

theorem normalizeId_isOk_of_not_hasBadId {t : Obj} (h : hasBadId t = false)
    (existingIds : List (Option JVal)) (env : Env) :
    ∃ normalized env1, normalizeId t existingIds env = (.ok normalized, env1) := by
  by_cases htr : truthy (t.get "id") = true
  · have hstr : hasStringId t = true := by
      unfold hasBadId at h
      rw [htr] at h
      simpa using h
    obtain ⟨s, hs⟩ := (hasStringId_iff t).1 hstr
    unfold normalizeId
    rw [hs] at htr
    simp only [hs, htr, Bool.not_true, Bool.false_eq_true, if_false]
    by_cases h2 : startsWithTNew s = true
    · rw [if_pos h2]
      exact ⟨_, _, rfl⟩
    · rw [if_neg h2]
      exact ⟨_, _, rfl⟩
  · exact ⟨_, _, normalizeId_of_falsy_id (by simpa using htr) existingIds env⟩

theorem normalizeTask_of_hasBadId {t : Obj} (h : hasBadId t = true)
    (existingIds : List (Option JVal)) (env : Env) :
    normalizeTask t existingIds env = (.error .typeError, env.dateNow.2) := by
  rw [normalizeTask_eq, normalizeId_of_hasBadId h]

theorem normalizeTask_isOk_of_not_hasBadId {t : Obj} (h : hasBadId t = false)
    (existingIds : List (Option JVal)) (env : Env) :
    ∃ nt env1, normalizeTask t existingIds env = (.ok nt, env1) := by
  obtain ⟨normalized, env1, hn⟩ := normalizeId_isOk_of_not_hasBadId h existingIds env.dateNow.2
  rw [normalizeTask_eq, hn]
  exact ⟨_, _, rfl⟩

/-- Whether `normalizeAll` throws depends on the records only, not on the clock, the random
source, the counter or the list of existing ids. -/
theorem normalizeAll_error_of_error {existingIds : List (Option JVal)} {tasks : List Obj}
    {env env1 : Env} {e : JsError}
    (h : normalizeAll existingIds tasks env = (.error e, env1))
    (existingIds2 : List (Option JVal)) (env2 : Env) :
    ∃ env3, normalizeAll existingIds2 tasks env2 = (.error .typeError, env3) := by
  induction tasks generalizing env env1 env2 with
  | nil => simp [normalizeAll] at h
  | cons t rest ih =>
    by_cases hbad : hasBadId t = true
    · rw [normalizeAll, normalizeTask_of_hasBadId hbad]
      exact ⟨_, rfl⟩
    · have hb : hasBadId t = false := by simpa using hbad
      obtain ⟨nt, e1, h1⟩ := normalizeTask_isOk_of_not_hasBadId hb existingIds env
      obtain ⟨nt2, e2, h2⟩ := normalizeTask_isOk_of_not_hasBadId hb existingIds2 env2
      rw [normalizeAll, h1] at h
      simp only at h
      cases h3 : normalizeAll existingIds rest e1 with
      | mk r e3 =>
        rw [h3] at h
        cases r with
        | ok p => simp at h
        | error err =>
          obtain ⟨env3, h4⟩ := ih h3 e2
          rw [normalizeAll, h2]
          simp only [h4]
          exact ⟨_, rfl⟩

/-- A load that failed fails again on the same file, whatever the environment. -/
theorem loadTasksWithMetadata_error_again {s s1 : Server} {e : JsError}
    (h : loadTasksWithMetadata s = (.error e, s1)) (s2 : Server)
    (hfile : s2.tasksFile = s.tasksFile) :
    ∃ s3, loadTasksWithMetadata s2 = (.error .typeError, s3) ∧ s3.tasksFile = s.tasksFile := by
  rw [loadTasksWithMetadata_eq] at h
  cases hn : normalizeAll ((s.tasksFile.map fun t => t.get "id").filter truthy) s.tasksFile s.env with
  | mk r e' =>
    rw [hn] at h
    cases r with
    | ok p => simp at h
    | error err =>
      obtain ⟨env3, h3⟩ := normalizeAll_error_of_error hn
        ((s2.tasksFile.map fun t => t.get "id").filter truthy) s2.env
      rw [← hfile] at h3
      rw [loadTasksWithMetadata_eq, h3]
      exact ⟨_, rfl, hfile⟩

/-- C14 (amended): for every stored collection (including ones with missing ids, temporary ids,
missing versions or timestamps, and duplicate ids), provided that the list the first call
returns, if it returns one, has pairwise distinct ids, calling `listAll` twice with no mutation
in between gives the same response twice, and the second call leaves the stored file as the
first call left it; when the first call returns a list, the stored file is equal to that list
after the first call and after the second. -/
theorem listAll_twice (s : Server)
    (hdistinct : ∀ tasks s1, loadTasksWithMetadata s = (.ok tasks, s1) → (idsOf tasks).Nodup) :
    (listAll (listAll s).2).1 = (listAll s).1
      ∧ (listAll (listAll s).2).2.tasksFile = (listAll s).2.tasksFile
      ∧ ∀ tasks s1, loadTasksWithMetadata s = (.ok tasks, s1) →
          (listAll s).1 = ⟨200, .arr (tasks.map .obj)⟩ ∧ (listAll s).2.tasksFile = tasks := by
  cases hload : loadTasksWithMetadata s with
  | mk r s1 =>
    cases r with
    | error e =>
      obtain ⟨s3, h3, hf3⟩ := loadTasksWithMetadata_error_again hload s1
        (loadTasksWithMetadata_error_file hload)
      have h1 : listAll s = (⟨500, errorBody "獲取任務失敗"⟩, s1) := by
        unfold listAll
        rw [hload]
      have h2 : listAll s1 = (⟨500, errorBody "獲取任務失敗"⟩, s3) := by
        unfold listAll
        rw [h3]
      rw [h1]
      simp only
      rw [h2]
      refine ⟨rfl, ?_, ?_⟩
      · simp only
        rw [hf3, loadTasksWithMetadata_error_file hload]
      · intro tasks s1' h
        cases h
    | ok tasks =>
      have hfile := loadTasksWithMetadata_file hload
      have hnormal := (loadTasksWithMetadata_ok hload).2
      have hnodup := hdistinct tasks s1 hload
      have hload2 := loadTasksWithMetadata_of_isNormal s1 (by rw [hfile]; exact hnormal)
        (by rw [hfile]; exact hnodup)
      have h1 : listAll s = (⟨200, .arr (tasks.map .obj)⟩, s1) := by
        unfold listAll
        rw [hload]
      have h2 : listAll s1 = (⟨200, .arr (tasks.map .obj)⟩,
          { tasksFile := s1.tasksFile, env := s1.env.afterClockReads s1.tasksFile.length }) := by
        unfold listAll
        rw [hload2, hfile]
      rw [h1]
      simp only
      rw [h2]
      refine ⟨rfl, rfl, ?_⟩
      intro tasks' s1' h
      simp only [Prod.mk.injEq, Except.ok.injEq] at h
      rw [← h.1]
      exact ⟨rfl, hfile⟩

theorem nodup_of_length_le_one {l : List (Option JVal)} (h : l.length ≤ 1) : l.Nodup := by
  cases l with
  | nil => exact List.nodup_nil
  | cons a rest =>
    cases rest with
    | nil => exact List.nodup_singleton a
    | cons b more => simp at h

/-- Witness of `listAll_twice`: the first call repairs the record of `storeWithoutVersion`, the
second call returns the same list. -/
theorem listAll_twice_witness :
    (listAll (listAll storeWithoutVersion).2).1 = (listAll storeWithoutVersion).1
      ∧ (listAll (listAll storeWithoutVersion).2).2.tasksFile
          = (listAll storeWithoutVersion).2.tasksFile
      ∧ (listAll storeWithoutVersion).1
          = ⟨200, .arr [.obj [("id", .str "t_1"), ("title", .str "A"), ("version", .num 1),
              ("updatedAt", .str "2023-11-14T22:13:20.000Z")]]⟩
      ∧ (listAll storeWithoutVersion).2.tasksFile
          = [[("id", .str "t_1"), ("title", .str "A"), ("version", .num 1),
              ("updatedAt", .str "2023-11-14T22:13:20.000Z")]] :=
  have h := listAll_twice storeWithoutVersion (fun tasks s1 h =>
    nodup_of_length_le_one (by
      rw [idsOf, List.length_map, (loadTasksWithMetadata_ok h).1]
      exact Nat.le_refl 1))
  ⟨h.1, h.2.1, h.2.2 _ (loadTasksWithMetadata storeWithoutVersion).2 rfl⟩

/-- The candidate ids of different counters, and the fallback id, as far as `collidingStore`
holds them, are different strings. -/
theorem candidate_ne_of_collidingStore (j k : Nat) (hj : j < 201) (hk : k < 201) (hjk : j ≠ k) :
    candidateId 1700000000000 ⟨500000, "i"⟩ (j + 1)
        ≠ candidateId 1700000000000 ⟨500000, "i"⟩ (k + 1)
      ∧ candidateId 1700000000000 ⟨500000, "i"⟩ (j + 1) ≠ sampleFallbackId := by
  have hn : (((List.range 201).map fun k =>
        some (JVal.str (candidateId 1700000000000 ⟨500000, "i"⟩ (k + 1))))
      ++ [some (JVal.str sampleFallbackId)]).Nodup := by
    have h := collidingStore_nodup
    simp only [idsOf, collidingStore, List.map_append, List.map_map, List.map_cons,
      List.map_nil] at h
    exact h
  obtain ⟨h1, _, h3⟩ := List.nodup_append.1 hn
  constructor
  · intro he
    have := List.inj_on_of_nodup_map h1 (List.mem_range.2 hj) (List.mem_range.2 hk)
      (by simp only [he])
    exact hjk this
  · intro he
    refine h3 ?_ (List.mem_singleton_self _)
    rw [← he]
    exact List.mem_map.2 ⟨j, List.mem_range.2 hj, rfl⟩

/-- The load of the same stored list once the counter stands at 101: the candidate of counter
102 is free, and the second record with the fallback id is given that candidate. -/
theorem load_with_free_remint (s : Server)
    (hfile : s.tasksFile
      = (candidateRecords 100 ++ [recordWithId sampleFallbackId])
          ++ [recordWithId sampleFallbackId])
    (hclock : s.env.clock = fun _ => 1700000000000)
    (hrandom : s.env.random = fun _ => ⟨500000, "i"⟩) (hcounter : s.env.taskIdCounter = 101) :
    (loadTasksWithMetadata s).1
      = .ok ((candidateRecords 100 ++ [recordWithId sampleFallbackId])
          ++ [(recordWithId sampleFallbackId).set "id"
            (.str (candidateId 1700000000000 ⟨500000, "i"⟩ 102))]) := by
  have hfirst : ∀ t ∈ candidateRecords 100 ++ [recordWithId sampleFallbackId],
      isNormal t = true := by
    intro t ht
    rcases List.mem_append.1 ht with h | h
    · exact candidateRecords_isNormal 100 t h
    · rw [List.mem_singleton.1 h]; exact isNormal_sampleFallback
  have hnormal : ∀ t ∈ s.tasksFile, isNormal t = true := by
    intro t ht
    rw [hfile] at ht
    rcases List.mem_append.1 ht with h | h
    · exact hfirst t h
    · rw [List.mem_singleton.1 h]; exact isNormal_sampleFallback
  have hlen : (candidateRecords 100 ++ [recordWithId sampleFallbackId]).length = 101 := by
    simp [candidateRecords]
  have hdup : duplicateIndices s.tasksFile 0 [] = [101] := by
    rw [hfile, duplicateIndices_append_duplicate
      (candidateRecords 100 ++ [recordWithId sampleFallbackId])
      (recordWithId sampleFallbackId) 0 [] (fun t ht => isNormal_id (hfirst t ht))
      (by simpa using candidateRecords_nodup) sampleFallbackId rfl
      (List.mem_append_right _ (List.mem_map_of_mem _
        (List.mem_append_right _ (List.mem_singleton_self _)))), hlen]
  have hfree : includes (s.tasksFile.map fun t => t.get "id")
      (some (.str (candidateId 1700000000000 ⟨500000, "i"⟩ 102))) = false := by
    rw [← Bool.not_eq_true, includes_str, hfile]
    simp only [candidateRecords, List.map_append, List.map_map, List.mem_append, List.mem_map,
      List.mem_range, List.map_cons, List.map_nil, List.mem_singleton, Function.comp]
    rintro ((⟨k, hk, he⟩ | he) | he)
    · have he2 : candidateId 1700000000000 ⟨500000, "i"⟩ (k + 1)
          = candidateId 1700000000000 ⟨500000, "i"⟩ (101 + 1) := by
        simpa [recordWithId, Obj.get] using he
      exact (candidate_ne_of_collidingStore k 101 (by omega) (by decide) (by omega)).1 he2
    · have he2 : candidateId 1700000000000 ⟨500000, "i"⟩ (101 + 1) = sampleFallbackId := by
        simpa [recordWithId, Obj.get] using he
      exact (candidate_ne_of_collidingStore 101 0 (by decide) (by decide) (by decide)).2 he2
    · have he2 : candidateId 1700000000000 ⟨500000, "i"⟩ (101 + 1) = sampleFallbackId := by
        simpa [recordWithId, Obj.get] using he
      exact (candidate_ne_of_collidingStore 101 0 (by decide) (by decide) (by decide)).2 he2
  have hcand : candidateAt (s.env.afterClockReads s.tasksFile.length) 0
      = candidateId 1700000000000 ⟨500000, "i"⟩ 102 := by
    simp only [candidateAt, Env.afterClockReads, hclock, hrandom, hcounter]
  have hmint : (generateUniqueTaskId (s.tasksFile.map fun t => t.get "id")
      (s.env.afterClockReads s.tasksFile.length)).1
        = candidateId 1700000000000 ⟨500000, "i"⟩ 102 := by
    unfold generateUniqueTaskId
    rw [generateLoop_succ, hcand, if_neg (by simp [hfree])]
  rw [loadTasksWithMetadata_eq, normalizeAll_of_isNormal _ _ _ hnormal]
  simp only [hdup, remintDuplicates, hmint]
  rw [hfile, ← hlen, modifyAt_append_length]

theorem listAll_of_load_ok {s s1 : Server} {tasks : List Obj}
    (h : loadTasksWithMetadata s = (.ok tasks, s1)) :
    listAll s = (⟨200, .arr (tasks.map .obj)⟩, s1) := by
  unfold listAll
  rw [h]

theorem listAll_response_of_load_ok {s : Server} {tasks : List Obj}
    (h : (loadTasksWithMetadata s).1 = .ok tasks) :
    (listAll s).1 = ⟨200, .arr (tasks.map .obj)⟩ := by
  cases hl : loadTasksWithMetadata s with
  | mk r s2 =>
    rw [hl] at h
    simp only at h
    rw [listAll_of_load_ok (hl.trans (by rw [h]))]

/-- C14 as stated fails: the first `listAll` on `duplicateStore` returns a list that still holds
the fallback id twice (the re-minting ran out of attempts), and the second call, the counter
having advanced, gives the last record another id. -/
theorem listAll_twice_counterexample : ¬ ListTwiceAsStated duplicateStore := by
  intro h
  obtain ⟨env2, hload, hclock, hrandom, hcounter⟩ :=
    load_with_exhausted_remint duplicateStore duplicateStore_file rfl rfl rfl
  have h1 := listAll_of_load_ok hload
  have hload2 := load_with_free_remint { tasksFile := duplicateStore.tasksFile, env := env2 }
    duplicateStore_file hclock hrandom hcounter
  have h2 := listAll_response_of_load_ok hload2
  have hstate := congrArg Prod.snd h1
  have h3 := (h duplicateStore.tasksFile (congrArg Prod.fst h1)).1
  rw [hstate, h2, duplicateStore_file] at h3
  simp only [Response.mk.injEq, JVal.arr.injEq, true_and, List.map_append, List.map_cons,
    List.map_nil, List.append_cancel_left_eq, List.cons.injEq, JVal.obj.injEq, and_true] at h3
  have h4 := congrArg (fun o => Obj.get o "id") h3
  simp only [Obj.get_set_same] at h4
  have h5 : candidateId 1700000000000 ⟨500000, "i"⟩ (101 + 1) = sampleFallbackId := by
    simpa [recordWithId, Obj.get] using h4
  exact (candidate_ne_of_collidingStore 101 0 (by decide) (by decide) (by decide)).2 h5

/-! ## C15: what `loadTasksWithMetadata` returns -/

theorem getElem?_modifyAt (f : Obj → Obj) (index : Nat) (l : List Obj) (i : Nat) :
    (modifyAt f index l)[i]? = if i = index then l[i]?.map f else l[i]? := by
  induction l generalizing index i with
  | nil => cases index <;> simp [modifyAt]
  | cons t ts ih =>
    cases index with
    | zero =>
      cases i with
      | zero => simp [modifyAt]
      | succ i => simp [modifyAt]
    | succ index =>
      cases i with
      | zero => simp [modifyAt]
      | succ i => simp [modifyAt, ih]

/-- Position by position, `normalizeAll` returns what `normalizeTask` makes of the record. -/
theorem normalizeAll_getElem? {existingIds : List (Option JVal)} {tasks : List Obj}
    {env env1 : Env} {nts : List Obj} {changed : Bool}
    (h : normalizeAll existingIds tasks env = (.ok (nts, changed), env1)) (i : Nat) (t : Obj)
    (ht : tasks[i]? = some t) :
    ∃ nt e e1, nts[i]? = some nt ∧ normalizeTask t existingIds e = (.ok nt, e1) := by
  induction tasks generalizing env env1 nts changed i with
  | nil => simp at ht
  | cons t0 rest ih =>
    unfold normalizeAll at h
    cases h1 : normalizeTask t0 existingIds env with
    | mk r e1 =>
      rw [h1] at h
      cases r with
      | error err => simp at h
      | ok nt0 =>
        simp only at h
        cases h2 : normalizeAll existingIds rest e1 with
        | mk r2 e2 =>
          rw [h2] at h
          cases r2 with
          | error err => simp at h
          | ok p =>
            obtain ⟨nts2, changed2⟩ := p
            simp only [Prod.mk.injEq, Except.ok.injEq] at h
            obtain ⟨⟨hn, _⟩, _⟩ := h
            subst hn
            cases i with
            | zero =>
              simp only [List.getElem?_cons_zero, Option.some.injEq] at ht
              subst ht
              exact ⟨nt0, env, e1, by simp, h1⟩
            | succ i =>
              simp only [List.getElem?_cons_succ] at ht
              obtain ⟨nt, e, e3, h3, h4⟩ := ih h2 i ht
              exact ⟨nt, e, e3, by simpa using h3, h4⟩

/-- If no stored record has a truthy id that is not a string, `normalizeAll` returns a list. -/
theorem normalizeAll_isOk (existingIds : List (Option JVal)) (tasks : List Obj) (env : Env)
    (hgood : ∀ t ∈ tasks, hasBadId t = false) :
    ∃ nts changed env1, normalizeAll existingIds tasks env = (.ok (nts, changed), env1) := by
  induction tasks generalizing env with
  | nil => exact ⟨[], false, env, rfl⟩
  | cons t rest ih =>
    obtain ⟨nt, e1, h1⟩ :=
      normalizeTask_isOk_of_not_hasBadId (hgood t (List.mem_cons_self _ _)) existingIds env
    obtain ⟨nts, changed, e2, h2⟩ := ih e1 (fun u hu => hgood u (List.mem_cons_of_mem _ hu))
    unfold normalizeAll
    rw [h1]
    simp only [h2]
    exact ⟨_, _, _, rfl⟩

/-- What `normalizeTask` keeps of a record. -/
theorem normalizeTask_fields {task : Obj} {existingIds : List (Option JVal)} {env env1 : Env}
    {nt : Obj} (h : normalizeTask task existingIds env = (.ok nt, env1)) :
    (∀ k, k ≠ "id" → k ≠ "version" → k ≠ "updatedAt" → nt.get k = task.get k)
      ∧ nt.get "version"
          = (if isNumber (task.get "version") then task.get "version" else some (.num 1))
      ∧ (truthy (task.get "updatedAt") = true → nt.get "updatedAt" = task.get "updatedAt") := by
  obtain ⟨normalized, hid, _, hv, hu, hk, _⟩ := normalizeTask_ok h
  have hget : ∀ k, k ≠ "id" → normalized.get k = task.get k := by
    intro k hk
    rcases normalizeId_ok hid with ⟨he, _⟩ | ⟨he, _⟩
    · rw [he]
    · rw [he, Obj.get_set_of_ne _ _ (fun e => hk e.symm)]
  rw [hget "version" (by decide)] at hv
  rw [hget "updatedAt" (by decide)] at hu
  refine ⟨fun k h1 h2 h3 => by rw [hk k h2 h3, hget k h1], hv, fun htr => ?_⟩
  rw [hu, if_pos htr]

/-- Every index `duplicateIndices` lists is at least the index of the head of the list. -/
theorem le_of_mem_duplicateIndices (l : List Obj) (index : Nat) (seen : List (Option JVal))
    (x : Nat) (hx : x ∈ duplicateIndices l index seen) : index ≤ x := by
  induction l generalizing index seen with
  | nil => simp [duplicateIndices] at hx
  | cons t rest ih =>
    unfold duplicateIndices at hx
    split at hx
    · rcases List.mem_cons.1 hx with h | h
      · omega
      · have := ih _ _ h
        omega
    · have := ih _ _ hx
      omega

/-- The ids at the indices that `duplicateIndices` does not list are not among the keys seen
before, and are pairwise different. -/
theorem ids_off_duplicateIndices (l : List Obj) (index : Nat) (seen : List (Option JVal))
    (hstr : ∀ t ∈ l, ∃ s, t.get "id" = some (.str s)) :
    (∀ j b, index + j ∉ duplicateIndices l index seen → (idsOf l)[j]? = some b → b ∉ seen)
      ∧ ∀ i j a b, i < j → index + i ∉ duplicateIndices l index seen →
          index + j ∉ duplicateIndices l index seen →
          (idsOf l)[i]? = some a → (idsOf l)[j]? = some b → a ≠ b := by
  induction l generalizing index seen with
  | nil =>
    constructor
    · intro j b _ hb
      simp [idsOf] at hb
    · intro i j a b _ _ _ ha
      simp [idsOf] at ha
  | cons t rest ih =>
    obtain ⟨s, hs⟩ := hstr t (List.mem_cons_self _ _)
    have hrest : ∀ u ∈ rest, ∃ s, u.get "id" = some (.str s) :=
      fun u hu => hstr u (List.mem_cons_of_mem _ hu)
    by_cases hin : includes seen (t.get "id") = true
    · have hD : duplicateIndices (t :: rest) index seen
          = index :: duplicateIndices rest (index + 1) seen := by
        rw [duplicateIndices, if_pos hin]
      obtain ⟨ih1, ih2⟩ := ih (index + 1) seen hrest
      rw [hD]
      constructor
      · intro j b hj hb
        cases j with
        | zero => exact absurd (List.mem_cons_self _ _) hj
        | succ j =>
          refine ih1 j b (fun hm => hj (List.mem_cons_of_mem _ ?_)) (by simpa [idsOf] using hb)
          rw [show index + (j + 1) = index + 1 + j by omega]
          exact hm
      · intro i j a b hij hi hj ha hb
        cases i with
        | zero => exact absurd (List.mem_cons_self _ _) hi
        | succ i =>
          cases j with
          | zero => omega
          | succ j =>
            refine ih2 i j a b (by omega) (fun hm => hi (List.mem_cons_of_mem _ ?_))
              (fun hm => hj (List.mem_cons_of_mem _ ?_)) (by simpa [idsOf] using ha)
              (by simpa [idsOf] using hb)
            · rw [show index + (i + 1) = index + 1 + i by omega]
              exact hm
            · rw [show index + (j + 1) = index + 1 + j by omega]
              exact hm
    · have hD : duplicateIndices (t :: rest) index seen
          = duplicateIndices rest (index + 1) (seen ++ [t.get "id"]) := by
        rw [duplicateIndices, if_neg hin]
      obtain ⟨ih1, ih2⟩ := ih (index + 1) (seen ++ [t.get "id"]) hrest
      rw [hD]
      constructor
      · intro j b hj hb
        cases j with
        | zero =>
          have hb2 : b = t.get "id" := by simpa [idsOf] using hb.symm
          rw [hb2, hs]
          rw [hs] at hin
          exact fun hm => hin ((includes_str _ _).2 hm)
        | succ j =>
          have := ih1 j b (by rw [show index + 1 + j = index + (j + 1) by omega]; exact hj)
            (by simpa [idsOf] using hb)
          exact fun hm => this (List.mem_append_left _ hm)
      · intro i j a b hij hi hj ha hb
        cases j with
        | zero => omega
        | succ j =>
          cases i with
          | zero =>
            have ha2 : a = t.get "id" := by simpa [idsOf] using ha.symm
            have := ih1 j b (by rw [show index + 1 + j = index + (j + 1) by omega]; exact hj)
              (by simpa [idsOf] using hb)
            intro hab
            exact this (by rw [← hab, ha2]; exact List.mem_append_right _ (List.mem_singleton_self _))
          | succ i =>
            exact ih2 i j a b (by omega)
              (by rw [show index + 1 + i = index + (i + 1) by omega]; exact hi)
              (by rw [show index + 1 + j = index + (j + 1) by omega]; exact hj)
              (by simpa [idsOf] using ha) (by simpa [idsOf] using hb)

/-- An index that `duplicateIndices` lists holds an id seen before, or the id of an earlier
index that is not listed. -/
theorem id_at_duplicateIndices (l : List Obj) (index : Nat) (seen : List (Option JVal))
    (hstr : ∀ t ∈ l, ∃ s, t.get "id" = some (.str s)) (j : Nat) (b : Option JVal)
    (hj : index + j ∈ duplicateIndices l index seen) (hb : (idsOf l)[j]? = some b) :
    b ∈ seen ∨ ∃ i, i < j ∧ index + i ∉ duplicateIndices l index seen
      ∧ (idsOf l)[i]? = some b := by
  induction l generalizing index seen j with
  | nil => simp [idsOf] at hb
  | cons t rest ih =>
    obtain ⟨s, hs⟩ := hstr t (List.mem_cons_self _ _)
    have hrest : ∀ u ∈ rest, ∃ s, u.get "id" = some (.str s) :=
      fun u hu => hstr u (List.mem_cons_of_mem _ hu)
    by_cases hin : includes seen (t.get "id") = true
    · have hD : duplicateIndices (t :: rest) index seen
          = index :: duplicateIndices rest (index + 1) seen := by
        rw [duplicateIndices, if_pos hin]
      rw [hD] at hj ⊢
      cases j with
      | zero =>
        have hb2 : b = t.get "id" := by simpa [idsOf] using hb.symm
        left
        rw [hb2, hs]
        rw [hs] at hin
        exact (includes_str _ _).1 hin
      | succ j =>
        have hj2 : index + 1 + j ∈ duplicateIndices rest (index + 1) seen := by
          rcases List.mem_cons.1 hj with h | h
          · omega
          · rw [show index + 1 + j = index + (j + 1) by omega]; exact h
        rcases ih (index + 1) seen hrest j hj2 (by simpa [idsOf] using hb) with h | ⟨i, hi, hn, hg⟩
        · exact Or.inl h
        · refine Or.inr ⟨i + 1, by omega, ?_, by simpa [idsOf] using hg⟩
          intro hm
          rcases List.mem_cons.1 hm with h | h
          · omega
          · exact hn (by rw [show index + 1 + i = index + (i + 1) by omega]; exact h)
    · have hD : duplicateIndices (t :: rest) index seen
          = duplicateIndices rest (index + 1) (seen ++ [t.get "id"]) := by
        rw [duplicateIndices, if_neg hin]
      rw [hD] at hj ⊢
      have hhead : index + 0 ∉ duplicateIndices rest (index + 1) (seen ++ [t.get "id"]) := by
        intro hm
        have := le_of_mem_duplicateIndices _ _ _ _ hm
        omega
      cases j with
      | zero => exact absurd hj hhead
      | succ j =>
        have hj2 : index + 1 + j ∈ duplicateIndices rest (index + 1) (seen ++ [t.get "id"]) := by
          rw [show index + 1 + j = index + (j + 1) by omega]; exact hj
        rcases ih (index + 1) _ hrest j hj2 (by simpa [idsOf] using hb) with h | ⟨i, hi, hn, hg⟩
        · rcases List.mem_append.1 h with h | h
          · exact Or.inl h
          · refine Or.inr ⟨0, by omega, hhead, ?_⟩
            rw [List.mem_singleton.1 h]
            simp [idsOf]
        · refine Or.inr ⟨i + 1, by omega, ?_, by simpa [idsOf] using hg⟩
          rw [show index + (i + 1) = index + 1 + i by omega]
          exact hn

/-- The loop `remintDuplicates` leaves the records at the indices it is not given as they are,
and changes nothing but the id of the others. -/
theorem remintDuplicates_getElem? (duplicates : List Nat) (normalized : List Obj) (env : Env)
    (i : Nat) :
    (i ∉ duplicates →
        (remintDuplicates duplicates normalized env).1[i]? = normalized[i]?)
      ∧ ∀ nt, normalized[i]? = some nt →
          ∃ r, (remintDuplicates duplicates normalized env).1[i]? = some r
            ∧ ∀ k, k ≠ "id" → r.get k = nt.get k := by
  induction duplicates generalizing normalized env with
  | nil => exact ⟨fun _ => rfl, fun nt h => ⟨nt, h, fun _ _ => rfl⟩⟩
  | cons d rest ih =>
    unfold remintDuplicates
    simp only
    constructor
    · intro hi
      rw [(ih _ _).1 (fun h => hi (List.mem_cons_of_mem _ h)), getElem?_modifyAt,
        if_neg (fun h : i = d => hi (by rw [h]; exact List.mem_cons_self _ _))]
    · intro nt hnt
      by_cases hid : i = d
      · obtain ⟨r, hr, hk⟩ := (ih (modifyAt (fun t => t.set "id" (.str (generateUniqueTaskId
            (normalized.map fun t => t.get "id") env).1)) d normalized)
          (generateUniqueTaskId (normalized.map fun t => t.get "id") env).2).2
          (nt.set "id" (.str (generateUniqueTaskId (normalized.map fun t => t.get "id") env).1))
          (by rw [getElem?_modifyAt, if_pos hid, hnt]; rfl)
        exact ⟨r, hr, fun k hkid => by
          rw [hk k hkid, Obj.get_set_of_ne _ _ (fun e => hkid e.symm)]⟩
      · exact (ih _ _).2 nt (by rw [getElem?_modifyAt, if_neg hid, hnt])

/-- If the ids at the indices not listed in `duplicates` are pairwise different and every id
`remintDuplicates` mints is free when it is minted, the ids of the result are pairwise
different. -/
theorem remintDuplicates_nodup (duplicates : List Nat) (normalized : List Obj) (env : Env)
    (hfresh : remintsFresh duplicates normalized env = true)
    (hoff : ∀ i j a b, i < j → i ∉ duplicates → j ∉ duplicates →
      (idsOf normalized)[i]? = some a → (idsOf normalized)[j]? = some b → a ≠ b) :
    (idsOf (remintDuplicates duplicates normalized env).1).Nodup := by
  induction duplicates generalizing normalized env with
  | nil =>
    change (idsOf normalized).Nodup
    rw [List.nodup_iff_getElem?_ne_getElem?]
    intro i j hij hj
    have hi : i < (idsOf normalized).length := by omega
    rw [List.getElem?_eq_getElem hi, List.getElem?_eq_getElem hj]
    intro he
    exact hoff i j _ _ hij (List.not_mem_nil _) (List.not_mem_nil _)
      (List.getElem?_eq_getElem hi) (List.getElem?_eq_getElem hj) (Option.some.inj he)
  | cons d rest ih =>
    unfold remintsFresh at hfresh
    simp only [Bool.and_eq_true, Bool.not_eq_true'] at hfresh
    obtain ⟨hfree, hrestFresh⟩ := hfresh
    unfold remintDuplicates
    simp only
    refine ih _ _ hrestFresh ?_
    intro i j a b hij hi hj ha hb
    have hget : ∀ (x : Nat) (c : Option JVal), (idsOf (modifyAt (fun t => t.set "id" (.str (generateUniqueTaskId
        (normalized.map fun t => t.get "id") env).1)) d normalized))[x]? = some c →
        (x = d ∧ c = some (JVal.str (generateUniqueTaskId
          (normalized.map fun t => t.get "id") env).1))
        ∨ (x ≠ d ∧ (idsOf normalized)[x]? = some c) := by
      intro x c hc
      simp only [idsOf, List.getElem?_map, getElem?_modifyAt] at hc ⊢
      by_cases hx : x = d
      · left
        rw [if_pos hx] at hc
        cases hn : normalized[x]? with
        | none => rw [hn] at hc; simp at hc
        | some u =>
          rw [hn] at hc
          simp only [Option.map_some', Option.some.injEq] at hc
          rw [Obj.get_set_same] at hc
          exact ⟨hx, hc.symm⟩
      · right
        rw [if_neg hx] at hc
        exact ⟨hx, hc⟩
    have hmem : ∀ (x : Nat) (c : Option JVal), (idsOf normalized)[x]? = some c →
        c ≠ some (JVal.str
          (generateUniqueTaskId (normalized.map fun t => t.get "id") env).1) := by
      intro x c hc he
      have hin : c ∈ normalized.map fun t => t.get "id" := List.getElem?_mem hc
      rw [he] at hin
      rw [(includes_str _ _).2 hin] at hfree
      exact Bool.noConfusion hfree
    rcases hget i a ha with ⟨hid, hai⟩ | ⟨hid, hai⟩
    · rcases hget j b hb with ⟨hjd, _⟩ | ⟨_, hbj⟩
      · omega
      · rw [hai]
        exact fun he => hmem j b hbj he.symm
    · rcases hget j b hb with ⟨hjd, hbj⟩ | ⟨hjd, hbj⟩
      · rw [hbj]
        exact hmem i a hai
      · exact hoff i j a b hij
          (fun hm => (List.mem_cons.1 hm).elim hid hi)
          (fun hm => (List.mem_cons.1 hm).elim hjd hj) hai hbj
/-- C15 (amended): for every stored collection in which no record has a truthy id that is not a
string, `loadTasksWithMetadata` returns a list. The list has the length of the stored one and
holds records in normal form only (a non-empty string id without the marker `t_new_`, a numeric
version, a truthy `updatedAt`). Position by position, the returned record has the fields of the
stored one other than `id`, `version` and `updatedAt`, the stored version when that is a number
and 1 otherwise, and the stored `updatedAt` when that is truthy; a stored record already in
normal form whose id is not the id of an earlier returned record is returned as it is. No two
returned records share an id, provided every id minted for a duplicate was free when it was
minted. (The id returned after 100 colliding attempts is not checked.) -/
theorem loadTasksWithMetadata_repairs (s : Server)
    (hgood : ∀ t ∈ s.tasksFile, hasBadId t = false) :
    ∃ tasks s1, loadTasksWithMetadata s = (.ok tasks, s1)
      ∧ tasks.length = s.tasksFile.length
      ∧ (∀ t ∈ tasks, isNormal t = true)
      ∧ (∀ (i : Nat) (t : Obj), s.tasksFile[i]? = some t → ∃ r : Obj, tasks[i]? = some r
          ∧ (∀ k, k ≠ "id" → k ≠ "version" → k ≠ "updatedAt" → r.get k = t.get k)
          ∧ r.get "version"
              = (if isNumber (t.get "version") then t.get "version" else some (.num 1))
          ∧ (truthy (t.get "updatedAt") = true → r.get "updatedAt" = t.get "updatedAt")
          ∧ (isNormal t = true →
              (∀ (j : Nat) (u : Obj), j < i → tasks[j]? = some u → u.get "id" ≠ t.get "id") →
                r = t))
      ∧ (remintsAreFresh s = true → (idsOf tasks).Nodup) := by
  obtain ⟨normalized, changed, env, hn⟩ :=
    normalizeAll_isOk ((s.tasksFile.map fun t => t.get "id").filter truthy) s.tasksFile s.env
      hgood
  have hload : loadTasksWithMetadata s
      = (.ok (remintDuplicates (duplicateIndices normalized 0 []) normalized env).1,
          { tasksFile :=
              if (changed || decide ((duplicateIndices normalized 0 []).length > 0)) = true
              then (remintDuplicates (duplicateIndices normalized 0 []) normalized env).1
              else s.tasksFile,
            env := (remintDuplicates (duplicateIndices normalized 0 []) normalized env).2 }) := by
    rw [loadTasksWithMetadata_eq, hn]
  obtain ⟨hlen, hnormal⟩ := loadTasksWithMetadata_ok hload
  obtain ⟨_, hall⟩ := normalizeAll_ok hn
  have hstr : ∀ t ∈ normalized, ∃ s, t.get "id" = some (.str s) :=
    fun t ht => isNormal_id (hall t ht)
  refine ⟨_, _, hload, hlen, hnormal, ?_, ?_⟩
  · intro i t ht
    obtain ⟨nt, e, e1, hnt, hnorm1⟩ := normalizeAll_getElem? hn i t ht
    obtain ⟨r, hr, hk⟩ :=
      (remintDuplicates_getElem? (duplicateIndices normalized 0 []) normalized env i).2 nt hnt
    obtain ⟨f1, f2, f3⟩ := normalizeTask_fields hnorm1
    refine ⟨r, hr, fun k h1 h2 h3 => by rw [hk k h1, f1 k h1 h2 h3],
      by rw [hk "version" (by decide), f2],
      fun htr => by rw [hk "updatedAt" (by decide), f3 htr], ?_⟩
    intro hnormalT hearlier
    have hnt_eq : nt = t := by
      rw [normalizeTask_of_isNormal hnormalT] at hnorm1
      simp only [Prod.mk.injEq, Except.ok.injEq] at hnorm1
      exact hnorm1.1.symm
    have hi : i ∉ duplicateIndices normalized 0 [] := by
      intro hm
      have hb : (idsOf normalized)[i]? = some (t.get "id") := by
        simp only [idsOf, List.getElem?_map, hnt, hnt_eq, Option.map_some']
      rcases id_at_duplicateIndices normalized 0 [] hstr i _ (by rw [Nat.zero_add]; exact hm) hb
        with h | ⟨j, hj, hjn, hg⟩
      · exact absurd h (List.not_mem_nil _)
      · rw [Nat.zero_add] at hjn
        have hsame :=
          (remintDuplicates_getElem? (duplicateIndices normalized 0 []) normalized env j).1 hjn
        simp only [idsOf, List.getElem?_map] at hg
        cases hu : normalized[j]? with
        | none => rw [hu] at hg; simp at hg
        | some u =>
          rw [hu] at hg hsame
          simp only [Option.map_some', Option.some.injEq] at hg
          exact hearlier j u hj hsame hg
    rw [(remintDuplicates_getElem? (duplicateIndices normalized 0 []) normalized env i).1 hi,
      hnt, hnt_eq] at hr
    exact (Option.some.inj hr).symm
  · intro hfresh
    unfold remintsAreFresh at hfresh
    rw [hn] at hfresh
    exact remintDuplicates_nodup _ normalized env hfresh (fun i j a b hij hi hj ha hb =>
      (ids_off_duplicateIndices normalized 0 [] hstr).2 i j a b hij
        (by rw [Nat.zero_add]; exact hi) (by rw [Nat.zero_add]; exact hj) ha hb)

/-- Witness of `loadTasksWithMetadata_repairs`: the load of `mixedStore` mints an id for the
record without one, for the record with a temporary id and for the second record with the id
`t_1`, and returns four records with four ids. -/
theorem loadTasksWithMetadata_repairs_witness :
    (∀ t ∈ mixedStore.tasksFile, hasBadId t = false) ∧ remintsAreFresh mixedStore = true
      ∧ ∃ tasks s1, loadTasksWithMetadata mixedStore = (.ok tasks, s1)
        ∧ tasks.length = mixedStore.tasksFile.length
        ∧ (∀ t ∈ tasks, isNormal t = true)
        ∧ (∀ (i : Nat) (t : Obj), mixedStore.tasksFile[i]? = some t → ∃ r : Obj, tasks[i]? = some r
            ∧ (∀ k, k ≠ "id" → k ≠ "version" → k ≠ "updatedAt" → r.get k = t.get k)
            ∧ r.get "version"
                = (if isNumber (t.get "version") then t.get "version" else some (.num 1))
            ∧ (truthy (t.get "updatedAt") = true → r.get "updatedAt" = t.get "updatedAt")
            ∧ (isNormal t = true →
                (∀ (j : Nat) (u : Obj), j < i → tasks[j]? = some u → u.get "id" ≠ t.get "id") →
                r = t))
        ∧ (idsOf tasks).Nodup := by
  have hgood : ∀ t ∈ mixedStore.tasksFile, hasBadId t = false := by decide!
  have hfresh : remintsAreFresh mixedStore = true := by decide!
  obtain ⟨tasks, s1, h1, h2, h3, h4, h5⟩ := loadTasksWithMetadata_repairs mixedStore hgood
  exact ⟨hgood, hfresh, tasks, s1, h1, h2, h3, h4, h5 hfresh⟩

/-- C15 as stated fails: the list `loadTasksWithMetadata` returns for `duplicateStore` holds the
fallback id twice, the second record having been given the id it had. -/
theorem loadTasksWithMetadata_repairs_counterexample : ¬ LoadRepairsAsStated duplicateStore := by
  intro h
  obtain ⟨env2, hload, _⟩ :=
    load_with_exhausted_remint duplicateStore duplicateStore_file rfl rfl rfl
  have hn := (h duplicateStore.tasksFile _ hload).2.2
  rw [duplicateStore_file] at hn
  simp only [idsOf, List.map_append] at hn
  exact (List.nodup_append.1 hn).2.2
    (List.mem_append_right _ (List.mem_map_of_mem _ (List.mem_singleton_self _)))
    (List.mem_map_of_mem _ (List.mem_singleton_self _))

/-! ## C16 and C17: the id and the `updatedAt` of a created record -/

theorem createOne_of_load_error {s s1 : Server} {e : JsError} (body : Obj)
    (hload : loadTasksWithMetadata s = (.error e, s1)) :
    createOne body s = (⟨500, errorBody "保存任務失敗"⟩, s1) := by
  unfold createOne
  rw [hload]

/-- C16: for every stored collection and every two bodies that agree on every field other than
`id`, `createOne` answers both with the same status; when `loadTasksWithMetadata` accepts the
stored collection both answers are 201 with records appended to the normalised list that agree
on every field, the id included, and the id is a string that does not begin with `t_new_`; and
when the two bodies are the same once their `id` is deleted, the two calls give the same response
and the same state. -/
theorem createOne_ignores_id (s : Server) (b1 b2 : Obj)
    (hsame : ∀ k, k ≠ "id" → b1.get k = b2.get k) :
    (createOne b1 s).1.status = (createOne b2 s).1.status
      ∧ (∀ tasks s1, loadTasksWithMetadata s = (.ok tasks, s1) →
          ∃ t1 t2 : Obj, (createOne b1 s).1 = ⟨201, .obj t1⟩
            ∧ (createOne b2 s).1 = ⟨201, .obj t2⟩
            ∧ (createOne b1 s).2.tasksFile = tasks ++ [t1]
            ∧ (createOne b2 s).2.tasksFile = tasks ++ [t2]
            ∧ (∀ k, t1.get k = t2.get k)
            ∧ ∃ id, t1.get "id" = some (.str id) ∧ startsWithTNew id = false)
      ∧ (Obj.del b1 "id" = Obj.del b2 "id" → createOne b1 s = createOne b2 s) := by
  have hok : ∀ tasks s1, loadTasksWithMetadata s = (.ok tasks, s1) →
      ∃ t1 t2 : Obj, (createOne b1 s).1 = ⟨201, .obj t1⟩
        ∧ (createOne b2 s).1 = ⟨201, .obj t2⟩
        ∧ (createOne b1 s).2.tasksFile = tasks ++ [t1]
        ∧ (createOne b2 s).2.tasksFile = tasks ++ [t2]
        ∧ (∀ k, t1.get k = t2.get k)
        ∧ ∃ id, t1.get "id" = some (.str id) ∧ startsWithTNew id = false := by
    intro tasks s1 hload
    obtain ⟨t1, e1, h1, hid1, hv1, hu1, hk1⟩ := createOne_created b1 hload
    obtain ⟨t2, e2, h2, hid2, hv2, hu2, hk2⟩ := createOne_created b2 hload
    refine ⟨t1, t2, by rw [h1], by rw [h2], by rw [h1], by rw [h2], ?_, _, hid1, ?_⟩
    · intro k
      by_cases hkid : k = "id"
      · rw [hkid, hid1, hid2]
      · by_cases hkv : k = "version"
        · rw [hkv, hv1, hv2, hsame "version" (by decide)]
        · by_cases hku : k = "updatedAt"
          · rw [hku, hu1, hu2, hsame "updatedAt" (by decide)]
          · rw [hk1 k hkid hkv hku, hk2 k hkid hkv hku, hsame k hkid]
    · split
      · exact (generateUniqueTaskId_shape _ _).1
      · exact (generateUniqueTaskId_shape _ _).1
  refine ⟨?_, hok, ?_⟩
  · cases hload : loadTasksWithMetadata s with
    | mk r s1 =>
      cases r with
      | error e =>
        rw [createOne_of_load_error b1 hload, createOne_of_load_error b2 hload]
      | ok tasks =>
        obtain ⟨t1, t2, h1, h2, _⟩ := hok tasks s1 hload
        rw [h1, h2]
  · intro hdel
    unfold createOne
    rw [hdel]

/-- Witness of `createOne_ignores_id`: a body with the id of a stored record, and the same body
without an id. -/
theorem createOne_ignores_id_witness :
    (createOne [("id", .str "t_1"), ("title", .str "B")] sampleStore).1.status
        = (createOne [("title", .str "B")] sampleStore).1.status
      ∧ (∃ t1 t2 : Obj,
          (createOne [("id", .str "t_1"), ("title", .str "B")] sampleStore).1
              = ⟨201, .obj t1⟩
          ∧ (createOne [("title", .str "B")] sampleStore).1 = ⟨201, .obj t2⟩
          ∧ (createOne [("id", .str "t_1"), ("title", .str "B")] sampleStore).2.tasksFile
              = sampleStore.tasksFile ++ [t1]
          ∧ (createOne [("title", .str "B")] sampleStore).2.tasksFile
              = sampleStore.tasksFile ++ [t2]
          ∧ (∀ k, t1.get k = t2.get k)
          ∧ ∃ id, t1.get "id" = some (.str id) ∧ startsWithTNew id = false)
      ∧ createOne [("id", .str "t_1"), ("title", .str "B")] sampleStore
          = createOne [("title", .str "B")] sampleStore :=
  have h := createOne_ignores_id sampleStore [("id", .str "t_1"), ("title", .str "B")]
    [("title", .str "B")] (fun k hk => by
      have h := Obj.get_del [("id", .str "t_1"), ("title", .str "B")] "id" k
      rw [if_neg (fun e => hk e.symm)] at h
      rw [← h]
      rfl)
  ⟨h.1, h.2.1 sampleStore.tasksFile (loadTasksWithMetadata sampleStore).2 rfl, h.2.2 rfl⟩

/-- C17 (amended): for every stored collection that `loadTasksWithMetadata` accepts and every
single-object body, `createOne` answers 201 with a record, appended to the stored list, whose
`updatedAt` is the body's own `updatedAt` when the body carries a truthy one, and the time the
server clock shows when the record is normalised otherwise. -/
theorem createOne_updatedAt {s s1 : Server} {tasks : List Obj} (body : Obj)
    (hload : loadTasksWithMetadata s = (.ok tasks, s1)) :
    ∃ created : Obj, (createOne body s).1 = ⟨201, .obj created⟩
      ∧ (createOne body s).2.tasksFile = tasks ++ [created]
      ∧ created.get "updatedAt"
          = (if truthy (body.get "updatedAt") then body.get "updatedAt"
              else some (.str (toISOString (s1.env.clock s1.env.clockReads)))) := by
  obtain ⟨newTask, env2, heq, _, _, hu, _⟩ := createOne_created body hload
  exact ⟨newTask, by rw [heq], by rw [heq], hu⟩

/-- Witness of `createOne_updatedAt`: a body without `updatedAt` is stamped with the time of the
server clock. -/
theorem createOne_updatedAt_witness :
    ∃ created : Obj, (createOne [("title", .str "B")] sampleStore).1 = ⟨201, .obj created⟩
      ∧ (createOne [("title", .str "B")] sampleStore).2.tasksFile
          = sampleStore.tasksFile ++ [created]
      ∧ created.get "updatedAt"
          = (if truthy (Obj.get [("title", .str "B")] "updatedAt")
              then Obj.get [("title", .str "B")] "updatedAt"
              else some (.str (toISOString ((loadTasksWithMetadata sampleStore).2.env.clock
                (loadTasksWithMetadata sampleStore).2.env.clockReads)))) :=
  @createOne_updatedAt sampleStore (loadTasksWithMetadata sampleStore).2 sampleStore.tasksFile
    [("title", .str "B")] rfl

/-- C17 as stated fails: a body that carries an `updatedAt` of 1999 is created with that
`updatedAt`, while the server clock stands in 2023. -/
theorem createOne_updatedAt_counterexample :
    ¬ CreateUpdatedAtAsStated sampleStore bodyWithUpdatedAt := by
  intro h
  obtain ⟨n, hn⟩ := h [("title", .str "B"), ("updatedAt", .str "1999-01-01T00:00:00.000Z"),
    ("id", .str "t_1700000000000_500000_1"), ("version", .num 1)] (by decide)
  have hn2 : Obj.get [("title", .str "B"), ("updatedAt", .str "1999-01-01T00:00:00.000Z"),
      ("id", .str "t_1700000000000_500000_1"), ("version", .num 1)] "updatedAt"
        = some (.str (toISOString 1700000000000)) := hn
  revert hn2
  decide

/-! ## C18, C19 and C20: `POST /api/tasks` with an array, and with an object that carries an id -/

theorem postTasks_array (legacy : Body → Server → Response × Server) (items : List JVal)
    (s : Server) :
    postTasks legacy (.array items) s
      = (⟨410, errorBody "前端版本過舊，請重新整理頁面後再試（不支援批次提交全部任務）"⟩, s) :=
  rfl

theorem conflictsOf_errorBody (message : String) : conflictsOf (errorBody message) = none := by
  have h : Obj.get [("error", JVal.str message)] "conflicts" = none := by
    rw [Obj.get_eq_none_iff]
    simp [Obj.has]
  unfold conflictsOf errorBody
  simp only [h]

theorem postTasks_object (legacy : Body → Server → Response × Server) (o : Obj) (s : Server) :
    postTasks legacy (.object o) s = createOne o s :=
  rfl

/-- C18: for every stored collection, every array body and whatever the statements after the
second `Array.isArray` test compute, `postTasks` answers with status 410 and an error payload,
and the state of the server, the stored file and the clock and counter included, is exactly the
one before the call. -/
theorem postTasks_array_gone (legacy : Body → Server → Response × Server) (items : List JVal)
    (s : Server) :
    (postTasks legacy (.array items) s).1.status = 410
      ∧ (∃ message, (postTasks legacy (.array items) s).1.body = errorBody message)
      ∧ (postTasks legacy (.array items) s).2 = s
      ∧ (postTasks legacy (.array items) s).2.tasksFile = s.tasksFile := by
  rw [postTasks_array]
  exact ⟨rfl, ⟨_, rfl⟩, rfl, rfl⟩

/-- C19 (amended): for every stored collection that `loadTasksWithMetadata` accepts, every
single-object body, with or without the id of a stored record, and whatever the statements after
the second `Array.isArray` test compute, `postTasks` does what `createOne` does: it answers 201
with a new record in normal form, appended to the normalised list, so that the stored collection
has one record more and every record of the normalised list stays as it is; the fields of the
new record other than `id`, `version` and `updatedAt` are those of the body, so the response is a
reconcile summary only if the body itself carries the fields of one. -/
theorem postTasks_object_creates (legacy : Body → Server → Response × Server)
    {s s1 : Server} {tasks : List Obj} (o : Obj)
    (hload : loadTasksWithMetadata s = (.ok tasks, s1)) :
    postTasks legacy (.object o) s = createOne o s
      ∧ ∃ created : Obj, (postTasks legacy (.object o) s).1 = ⟨201, .obj created⟩
        ∧ (postTasks legacy (.object o) s).2.tasksFile = tasks ++ [created]
        ∧ (postTasks legacy (.object o) s).2.tasksFile.length = tasks.length + 1
        ∧ isNormal created = true
        ∧ (∀ k, k ≠ "id" → k ≠ "version" → k ≠ "updatedAt" → created.get k = o.get k) := by
  obtain ⟨newTask, env2, heq, hn, _, hk⟩ := createOne_created_isNormal o hload
  rw [postTasks_object, heq]
  exact ⟨rfl, newTask, rfl, rfl, by simp, hn, hk⟩

/-- Witness of `postTasks_object_creates`: a body with the id and the version of the record of
`sampleStore`. -/
theorem postTasks_object_creates_witness :
    postTasks (fun _ s => (⟨200, .null⟩, s)) (.object (bodyWithStoredId 3)) sampleStore
        = createOne (bodyWithStoredId 3) sampleStore
      ∧ ∃ created : Obj,
        (postTasks (fun _ s => (⟨200, .null⟩, s)) (.object (bodyWithStoredId 3)) sampleStore).1
            = ⟨201, .obj created⟩
        ∧ (postTasks (fun _ s => (⟨200, .null⟩, s)) (.object (bodyWithStoredId 3))
              sampleStore).2.tasksFile = sampleStore.tasksFile ++ [created]
        ∧ (postTasks (fun _ s => (⟨200, .null⟩, s)) (.object (bodyWithStoredId 3))
              sampleStore).2.tasksFile.length = sampleStore.tasksFile.length + 1
        ∧ isNormal created = true
        ∧ (∀ k, k ≠ "id" → k ≠ "version" → k ≠ "updatedAt" →
            created.get k = (bodyWithStoredId 3).get k) :=
  @postTasks_object_creates (fun _ s => (⟨200, .null⟩, s)) sampleStore
    (loadTasksWithMetadata sampleStore).2 sampleStore.tasksFile (bodyWithStoredId 3) rfl

/-- C19 as stated fails: a body with the id and the version of the record of `sampleStore` is
answered with a created record, not a summary, and the stored collection grows by one record. -/
theorem postTasks_object_creates_counterexample :
    ¬ SingleObjectReconcileAsStated sampleStore (bodyWithStoredId 3) := by
  rintro ⟨legacy, h, _⟩
  have hbody : isSummary (createOne (bodyWithStoredId 3) sampleStore).1.body = false := by
    decide
  rw [postTasks_object, hbody] at h
  exact Bool.false_ne_true h

/-- C20 (amended): whatever the statements after the second `Array.isArray` test compute, a
submission to `postTasks` never meets the version comparison. An array body is answered 410
with an error payload that lists no conflicts, and the state of the server stays as it was. An
object body, whatever id and version it carries, is answered 201 with a new record appended to
the normalised list, every record of that list staying as it is; the response lists conflicts
only if the body itself carries such a field. -/
theorem postTasks_conflict_policy (legacy : Body → Server → Response × Server)
    {s s1 : Server} {tasks : List Obj} (items : List JVal) (o : Obj)
    (hload : loadTasksWithMetadata s = (.ok tasks, s1)) :
    ((postTasks legacy (.array items) s).1.status = 410
        ∧ conflictsOf (postTasks legacy (.array items) s).1.body = none
        ∧ (postTasks legacy (.array items) s).2 = s)
      ∧ ∃ created : Obj, (postTasks legacy (.object o) s).1 = ⟨201, .obj created⟩
        ∧ (postTasks legacy (.object o) s).2.tasksFile = tasks ++ [created]
        ∧ created.get "conflicts" = o.get "conflicts" := by
  obtain ⟨newTask, env2, heq, _, _, _, hk⟩ := createOne_created o hload
  rw [postTasks_array, postTasks_object, heq]
  exact ⟨⟨rfl, conflictsOf_errorBody _, rfl⟩, newTask, rfl, rfl,
    hk "conflicts" (by decide) (by decide) (by decide)⟩

/-- Witness of `postTasks_conflict_policy`: an array and an object that carry the id of the
record of `sampleStore` with the version 1, below the stored version 3. -/
theorem postTasks_conflict_policy_witness :
    ((postTasks (fun _ s => (⟨200, .null⟩, s)) (.array [.obj (bodyWithStoredId 1)])
          sampleStore).1.status = 410
        ∧ conflictsOf (postTasks (fun _ s => (⟨200, .null⟩, s))
            (.array [.obj (bodyWithStoredId 1)]) sampleStore).1.body = none
        ∧ (postTasks (fun _ s => (⟨200, .null⟩, s)) (.array [.obj (bodyWithStoredId 1)])
            sampleStore).2 = sampleStore)
      ∧ ∃ created : Obj,
        (postTasks (fun _ s => (⟨200, .null⟩, s)) (.object (bodyWithStoredId 1)) sampleStore).1
            = ⟨201, .obj created⟩
        ∧ (postTasks (fun _ s => (⟨200, .null⟩, s)) (.object (bodyWithStoredId 1))
              sampleStore).2.tasksFile = sampleStore.tasksFile ++ [created]
        ∧ created.get "conflicts" = (bodyWithStoredId 1).get "conflicts" :=
  @postTasks_conflict_policy (fun _ s => (⟨200, .null⟩, s)) sampleStore
    (loadTasksWithMetadata sampleStore).2 sampleStore.tasksFile [.obj (bodyWithStoredId 1)]
    (bodyWithStoredId 1) rfl

/-- C20 as stated fails for both shapes of a submission: two objects that carry the id of the
record of `sampleStore` (stored version 3) with the versions 1 and 2 are created as new records,
and two arrays holding them are answered 410 without a list of conflicts. -/
theorem postTasks_conflict_policy_counterexample :
    ¬ ConflictPolicyAsStated sampleStore "t_1" (.object (bodyWithStoredId 1))
          (.object (bodyWithStoredId 2))
      ∧ ¬ ConflictPolicyAsStated sampleStore "t_1" (.array [.obj (bodyWithStoredId 1)])
          (.array [.obj (bodyWithStoredId 2)]) := by
  constructor
  · rintro ⟨legacy, ⟨ids, h, _⟩, _⟩
    have hbody : conflictsOf (createOne (bodyWithStoredId 1) sampleStore).1.body = none := by
      decide
    rw [postTasks_object, hbody] at h
    exact Option.noConfusion h
  · rintro ⟨legacy, ⟨ids, h, _⟩, _⟩
    rw [postTasks_array, conflictsOf_errorBody] at h
    exact Option.noConfusion h

/-! ## C21: `updateOne` and the version of the payload -/

/-- C21, evaluated on the code: the record of `sampleStore` is stored at version 3 with the
title `A`; for every version `v` a payload carries, equal to 3 or not, `updateOne` answers 200,
overwrites the title with the payload's and stores the record at version 4. The handler reads
the payload's version nowhere. -/
theorem updateOne_overwrites_at_any_version (v : Int) :
    ∃ updated : Obj,
      (updateOne "t_1" (payloadWithVersion v) sampleStore).1 = ⟨200, .obj updated⟩
        ∧ (updateOne "t_1" (payloadWithVersion v) sampleStore).2.tasksFile = [updated]
        ∧ updated.get "title" = some (.str "B")
        ∧ updated.get "version" = some (.num 4)
        ∧ (sampleStore.tasksFile.map fun t => t.get "title") = [some (.str "A")]
        ∧ (sampleStore.tasksFile.map fun t => t.get "version") = [some (.num 3)] := by
  have h := @updateOne_found sampleStore (loadTasksWithMetadata sampleStore).2 [] []
    [("id", .str "t_1"), ("title", .str "A"), ("version", .num 3),
      ("updatedAt", .str "2023-01-01T00:00:00.000Z")] "t_1" (payloadWithVersion v) rfl
    (by decide) (by simp)
  rw [h]
  refine ⟨_, rfl, rfl, ?_, ?_, by decide, by decide⟩
  · rw [Obj.get_set_of_ne _ _ (by decide), Obj.get_set_of_ne _ _ (by decide),
      Obj.get_set_of_ne _ _ (by decide), Obj.get_spread]
    simp [payloadWithVersion, Obj.get_cons]
  · rw [Obj.get_set_of_ne _ _ (by decide), Obj.get_set_same]
    rfl

/-! ## C22 and C23: `createNewTask` -/

theorem startsWithTNew_append (rest : String) : startsWithTNew ("t_new_" ++ rest) = true := by
  unfold startsWithTNew
  simp [String.toList, String.data_append]

theorem blankTask_get_id (tempId : String) : (blankTask tempId).get "id" = some (.str tempId) := by
  simp [blankTask, Obj.get_cons]

/-- The entry `createNewTask` puts at the front carries the temporary id. -/
theorem createNewTaskBegin_tasks (c : Client) :
    ∃ inserted : Obj, (createNewTaskBegin c).2.2.TASKS = inserted :: c.TASKS
      ∧ inserted.get "id" = some (.str (createNewTaskBegin c).1)
      ∧ startsWithTNew (createNewTaskBegin c).1 = true := by
  have h : (createNewTaskBegin c).2.2.TASKS
      = (ensureTaskMeta (blankTask (createNewTaskBegin c).1)
          c.env.dateNow.2.mathRandom.2).1 :: c.TASKS := rfl
  refine ⟨_, h, ?_, ?_⟩
  · rw [ensureTaskMeta_get_id, blankTask_get_id]
  · have hid : (createNewTaskBegin c).1
        = "t_new_" ++ (toString c.env.dateNow.1 ++ ("_" ++ c.env.dateNow.2.mathRandom.1.base36)) := by
      unfold createNewTaskBegin
      simp only [String.append_assoc]
    rw [hid]
    exact startsWithTNew_append _

theorem findIndex_cons_of_pos {p : Obj → Bool} {t : Obj} (l : List Obj) (h : p t = true) :
    findIndex p (t :: l) = some 0 := by
  rw [findIndex, if_pos h]

/-- C22: for every local collection, once `createNewTask` has put its entry at the front under
a temporary id that no other entry has, and the create call has resolved with a record `r` that
carries an id other than the temporary one, a version and an `updatedAt` (as every record the
server creates does), the collection is the entry overlaid with `r`, still at the front,
followed by the entries held before, unchanged: the entry has every field of `r`, in particular
the id, the version and the `updatedAt` of `r`, and its own value for every other field; no
entry has the temporary id. -/
theorem createNewTask_saved (c : Client) (r : Obj)
    (hid : r.has "id" = true) (hne : r.get "id" ≠ some (.str (createNewTaskBegin c).1))
    (hversion : r.has "version" = true) (hupdated : r.has "updatedAt" = true)
    (hfresh : ∀ t ∈ c.TASKS, t.get "id" ≠ some (.str (createNewTaskBegin c).1)) :
    ∃ inserted entry : Obj, (createNewTaskBegin c).2.2.TASKS = inserted :: c.TASKS
      ∧ (createNewTaskSaved (createNewTaskBegin c).1 r (createNewTaskBegin c).2.2).TASKS
          = entry :: c.TASKS
      ∧ (∀ k, r.has k = true → entry.get k = r.get k)
      ∧ (∀ k, r.has k = false → entry.get k = inserted.get k)
      ∧ entry.get "id" = r.get "id"
      ∧ entry.get "version" = r.get "version"
      ∧ entry.get "updatedAt" = r.get "updatedAt"
      ∧ ∀ t ∈ (createNewTaskSaved (createNewTaskBegin c).1 r (createNewTaskBegin c).2.2).TASKS,
          t.get "id" ≠ some (.str (createNewTaskBegin c).1) := by
  obtain ⟨inserted, htasks, hinserted, _⟩ := createNewTaskBegin_tasks c
  have hfound : findIndex (fun t => refEq (t.get "id") (some (.str (createNewTaskBegin c).1)))
      (createNewTaskBegin c).2.2.TASKS = some 0 := by
    rw [htasks]
    exact findIndex_cons_of_pos _ (by rw [hinserted]; simp [refEq])
  have hhas : ∀ k, r.has k = true → (Obj.spread inserted r).get k = r.get k := by
    intro k hk
    rw [Obj.get_spread]
    cases hg : r.get k with
    | none => rw [(Obj.get_eq_none_iff r k).1 hg] at hk; exact absurd hk (by decide)
    | some v => rfl
  have hhasnot : ∀ k, r.has k = false → (Obj.spread inserted r).get k = inserted.get k := by
    intro k hk
    rw [Obj.get_spread, (Obj.get_eq_none_iff r k).2 hk]
    rfl
  have hresult : (createNewTaskSaved (createNewTaskBegin c).1 r (createNewTaskBegin c).2.2).TASKS
      = Obj.spread inserted r :: c.TASKS := by
    unfold createNewTaskSaved
    rw [hfound]
    simp only
    rw [htasks]
    rfl
  refine ⟨inserted, Obj.spread inserted r, htasks, hresult, hhas, hhasnot, hhas "id" hid,
    hhas "version" hversion, hhas "updatedAt" hupdated, ?_⟩
  intro t ht
  rw [hresult] at ht
  rcases List.mem_cons.1 ht with h | h
  · rw [h, hhas "id" hid]
    exact hne
  · exact hfresh t h

/-- Witness of `createNewTask_saved`: a new task is created from `sampleClient` and the server
answers with the record `t_9`. -/
theorem createNewTask_saved_witness :
    ∃ inserted entry : Obj, (createNewTaskBegin sampleClient).2.2.TASKS
          = inserted :: sampleClient.TASKS
      ∧ (createNewTaskSaved (createNewTaskBegin sampleClient).1 (recordWithId "t_9")
            (createNewTaskBegin sampleClient).2.2).TASKS = entry :: sampleClient.TASKS
      ∧ (∀ k, (recordWithId "t_9").has k = true → entry.get k = (recordWithId "t_9").get k)
      ∧ (∀ k, (recordWithId "t_9").has k = false → entry.get k = inserted.get k)
      ∧ entry.get "id" = (recordWithId "t_9").get "id"
      ∧ entry.get "version" = (recordWithId "t_9").get "version"
      ∧ entry.get "updatedAt" = (recordWithId "t_9").get "updatedAt"
      ∧ ∀ t ∈ (createNewTaskSaved (createNewTaskBegin sampleClient).1 (recordWithId "t_9")
            (createNewTaskBegin sampleClient).2.2).TASKS,
          t.get "id" ≠ some (.str (createNewTaskBegin sampleClient).1) :=
  createNewTask_saved sampleClient (recordWithId "t_9") (by decide) (by decide) (by decide)
    (by decide) (by decide)

/-- C23: for every local collection, if the create call issued by `createNewTask` fails, the
`catch` branch removes the entry that was put at the front, and the collection is the one held
before `createNewTask` was called. -/
theorem createNewTask_failed (c : Client) :
    ∃ inserted : Obj, (createNewTaskBegin c).2.2.TASKS = inserted :: c.TASKS
      ∧ (createNewTaskFailed (createNewTaskBegin c).1 (createNewTaskBegin c).2.2).TASKS
          = c.TASKS := by
  obtain ⟨inserted, htasks, hid, _⟩ := createNewTaskBegin_tasks c
  have hfound : findIndex (fun t => refEq (t.get "id") (some (.str (createNewTaskBegin c).1)))
      (createNewTaskBegin c).2.2.TASKS = some 0 := by
    rw [htasks]
    exact findIndex_cons_of_pos _ (by rw [hid]; simp [refEq])
  refine ⟨inserted, htasks, ?_⟩
  unfold createNewTaskFailed
  rw [hfound]
  simp only
  rw [htasks]
  rfl

/-! ## C25: `removeTask` -/

/-- C25: for every local collection and id, `removeTask` changes the collection only once the
delete call has succeeded: it then removes the first entry with the id, every other entry
staying in place (and removes nothing when no entry has the id); if the call fails the
collection, clock and random source included, is unchanged and the error is thrown again. -/
theorem removeTask_after_acknowledgment (c : Client) (id : String) :
    (∀ e, removeTask (.error e) id c = (.error e, c))
      ∧ (∀ v, (removeTask (.ok v) id c).1 = .ok ())
      ∧ (∀ v before cur after, c.TASKS = before ++ cur :: after →
          cur.get "id" = some (.str id) → (∀ t ∈ before, t.get "id" ≠ some (.str id)) →
          (removeTask (.ok v) id c).2.TASKS = before ++ after)
      ∧ (∀ v, (∀ t ∈ c.TASKS, t.get "id" ≠ some (.str id)) →
          (removeTask (.ok v) id c).2.TASKS = c.TASKS) := by
  refine ⟨fun e => rfl, fun v => rfl, ?_, ?_⟩
  · intro v before cur after hl hcur hbefore
    have hidx : findIndex (fun t => refEq (t.get "id") (some (.str id))) c.TASKS
        = some before.length := by
      rw [hl]
      exact (findIndex_eq_some_iff _ _ _).2 ⟨before, cur, after, rfl, rfl,
        by rw [hcur]; simp [refEq], fun t ht => by
          cases h : refEq (t.get "id") (some (.str id)) with
          | false => rfl
          | true => exact absurd (refEq_eq h) (hbefore t ht)⟩
    show (removeTaskDone id c).TASKS = before ++ after
    unfold removeTaskDone
    rw [hidx]
    simp only
    rw [hl, eraseIdx_append_length]
  · intro v hnone
    have hidx : findIndex (fun t => refEq (t.get "id") (some (.str id))) c.TASKS = none := by
      rw [findIndex_eq_none_iff]
      intro t ht
      cases h : refEq (t.get "id") (some (.str id)) with
      | false => rfl
      | true => exact absurd (refEq_eq h) (hnone t ht)
    show (removeTaskDone id c).TASKS = c.TASKS
    unfold removeTaskDone
    rw [hidx]

/-- Witness of `removeTask_after_acknowledgment`: `t_2` is removed from `sampleClient`, and a
failing call leaves `sampleClient` as it is. -/
theorem removeTask_after_acknowledgment_witness :
    removeTask (.error (.str "offline")) "t_2" sampleClient
        = (.error (.str "offline"), sampleClient)
      ∧ (removeTask (.ok .null) "t_2" sampleClient).1 = .ok ()
      ∧ (removeTask (.ok .null) "t_2" sampleClient).2.TASKS
          = [[("id", .str "t_new_1"), ("title", .str "draft"), ("version", .num 1),
                ("updatedAt", .str "2023-01-01T00:00:00.000Z")]]
            ++ [[("id", .str "t_3"), ("title", .str "old"), ("version", .num 3),
                ("updatedAt", .str "2023-01-03T00:00:00.000Z")]]
      ∧ (removeTask (.ok .null) "t_9" sampleClient).2.TASKS = sampleClient.TASKS :=
  have h := removeTask_after_acknowledgment sampleClient "t_2"
  have h9 := removeTask_after_acknowledgment sampleClient "t_9"
  ⟨h.1 _, h.2.1 _, h.2.2.1 .null _ _ _ rfl rfl (by decide), h9.2.2.2 .null (by decide)⟩

/-! ## C24: a failing save from the task form -/

theorem ensureTaskMeta_get_of_ne (task : Obj) (env : Env) (k : String) (hv : k ≠ "version")
    (hu : k ≠ "updatedAt") : (ensureTaskMeta task env).1.get k = task.get k := by
  unfold ensureTaskMeta
  by_cases h1 : isNumber (task.get "version") = true
  · by_cases h2 : truthy (task.get "updatedAt") = true
    · simp [h1, h2]
    · simp [h1, h2, Env.dateNow, Obj.get_set, Ne.symm hu]
  · have hu0 : (task.set "version" (.num 1)).get "updatedAt" = task.get "updatedAt" :=
      Obj.get_set_of_ne _ _ (by decide)
    by_cases h2 : truthy (task.get "updatedAt") = true
    · simp [h1, h2, hu0, Obj.get_set, Ne.symm hv]
    · simp [h1, h2, hu0, Env.dateNow, Obj.get_set, Ne.symm hv, Ne.symm hu]

/-- The `catch` branch of `createNewTask` gives back the collection held before the call. -/
theorem createNewTaskFailed_tasks (c : Client) :
    (createNewTaskFailed (createNewTaskBegin c).1 (createNewTaskBegin c).2.2).TASKS
      = c.TASKS := by
  obtain ⟨inserted, htasks, hid, _⟩ := createNewTaskBegin_tasks c
  have hfound : findIndex (fun t => refEq (t.get "id") (some (.str (createNewTaskBegin c).1)))
      (createNewTaskBegin c).2.2.TASKS = some 0 := by
    rw [htasks]
    exact findIndex_cons_of_pos _ (by rw [hid]; simp [refEq])
  unfold createNewTaskFailed
  rw [hfound]
  simp only
  rw [htasks]
  rfl

/-- The save handler for a new task: the entity goes to the front under a temporary id. -/
theorem saveFormBegin_new (toNumber : JVal → JVal) (data : Obj) (owners execs : List JVal)
    (c : Client) (htitle : truthy (data.get "title") = true)
    (hid : truthy (data.get "id") = false) :
    ∃ entity c1, saveFormBegin toNumber data owners execs c = some (entity, c1)
      ∧ c1.TASKS = entity :: c.TASKS ∧ hasTempId entity = true
      ∧ entity.get "title" = data.get "title" := by
  have hentity : ∀ (id : JVal) (env : Env),
      (ensureTaskMeta (formEntity toNumber data owners execs id) env).1.get "id" = some id
        ∧ (ensureTaskMeta (formEntity toNumber data owners execs id) env).1.get "title"
            = data.get "title" := by
    intro id env
    rw [ensureTaskMeta_get_id, ensureTaskMeta_get_of_ne _ _ _ (by decide) (by decide)]
    constructor
    · simp [formEntity, Obj.get_cons]
    · cases ht : data.get "title" with
      | none => rw [ht] at htitle; simp [truthy] at htitle
      | some w => simp [formEntity, Obj.get_cons, ht]
  unfold saveFormBegin
  simp only [htitle, hid, Bool.not_true, Bool.false_eq_true, if_false]
  refine ⟨_, _, rfl, rfl, ?_, (hentity _ _).2⟩
  rw [hasTempId_iff]
  exact ⟨_, (hentity _ _).1, by simp only [String.append_assoc]; exact startsWithTNew_append _⟩

/-- The save handler for an edit: the entity takes the place of the first entry with the
form's id. -/
theorem saveFormBegin_edit (toNumber : JVal → JVal) (data : Obj) (owners execs : List JVal)
    (c : Client) (id : String) (before after : List Obj) (cur : Obj)
    (htitle : truthy (data.get "title") = true) (hid : data.get "id" = some (.str id))
    (hne : id ≠ "") (hl : c.TASKS = before ++ cur :: after)
    (hcur : cur.get "id" = some (.str id))
    (hbefore : ∀ t ∈ before, t.get "id" ≠ some (.str id)) :
    ∃ entity c1, saveFormBegin toNumber data owners execs c = some (entity, c1)
      ∧ c1.TASKS = before ++ entity :: after ∧ entity.get "id" = some (.str id)
      ∧ entity.get "title" = data.get "title" := by
  have hidx : findIndex (fun x => refEq (x.get "id") (data.get "id")) c.TASKS
      = some before.length := by
    rw [hl, hid]
    exact (findIndex_eq_some_iff _ _ _).2 ⟨before, cur, after, rfl, rfl,
      by rw [hcur]; simp [refEq], fun t ht => by
        cases h : refEq (t.get "id") (some (.str id)) with
        | false => rfl
        | true => exact absurd (refEq_eq h) (hbefore t ht)⟩
  have hedit : truthy (data.get "id") = true := by
    rw [hid]
    simp [truthy, hne]
  have hget : ∀ (e : Obj) (k : String), k ≠ "content" → k ≠ "files" →
      ((if (!truthy (data.get "files") && truthy (cur.get "files")) = true then
          (if (!truthy (data.get "content") && truthy (cur.get "content")) = true then
              e.set "content" ((cur.get "content").getD .null) else e).set "files"
            ((cur.get "files").getD .null)
        else (if (!truthy (data.get "content") && truthy (cur.get "content")) = true then
              e.set "content" ((cur.get "content").getD .null) else e)) : Obj).get k
        = e.get k := by
    intro e k hc hf
    split <;> split <;>
      simp [Obj.get_set, Ne.symm hc, Ne.symm hf]
  unfold saveFormBegin
  simp only [htitle, hedit, Bool.not_true, Bool.false_eq_true, if_false, if_true, hidx]
  refine ⟨_, _, rfl, ?_, ?_, ?_⟩
  · simp only [hl, getD_append_length, set_append_length]
  · simp only [hl, getD_append_length]
    rw [hget _ _ (by decide) (by decide), ensureTaskMeta_get_id, hid]
    simp [formEntity, Obj.get_cons]
  · simp only [hl, getD_append_length]
    rw [hget _ _ (by decide) (by decide),
      ensureTaskMeta_get_of_ne _ _ _ (by decide) (by decide)]
    cases ht : data.get "title" with
    | none => rw [ht] at htitle; simp [truthy] at htitle
    | some w => simp [formEntity, Obj.get_cons, ht]

theorem saveForm_of_begin {toNumber : JVal → JVal} {data : Obj} {owners execs : List JVal}
    {c c1 : Client} {entity : Obj}
    (h : saveFormBegin toNumber data owners execs c = some (entity, c1)) (e : JVal) :
    saveForm toNumber (.error e) data owners execs c = c1 := by
  unfold saveForm
  rw [h]
  rfl

/-- What a failing save leaves behind. The `catch` branch of `createNewTask` gives back the
collection held before the call. The save handler of the task form does not: `persistTask`
throws the error again, the handler shows a notification, and the collection keeps the entity
the handler has put in it before the call, at the front under a temporary id for a new task, in
the place of the first entry with the form's id for an edit. -/
theorem saveForm_error (toNumber : JVal → JVal) (data : Obj) (owners execs : List JVal)
    (c : Client) (e : JVal) (htitle : truthy (data.get "title") = true) :
    (createNewTaskFailed (createNewTaskBegin c).1 (createNewTaskBegin c).2.2).TASKS = c.TASKS
      ∧ (∀ task c1, persistTask (.error e) task c1 = (.error e, c1))
      ∧ (truthy (data.get "id") = false →
          ∃ entity : Obj, (saveForm toNumber (.error e) data owners execs c).TASKS
              = entity :: c.TASKS
            ∧ hasTempId entity = true ∧ entity.get "title" = data.get "title")
      ∧ (∀ id before cur after, data.get "id" = some (.str id) → id ≠ "" →
          c.TASKS = before ++ cur :: after → cur.get "id" = some (.str id) →
          (∀ t ∈ before, t.get "id" ≠ some (.str id)) →
          ∃ entity : Obj, (saveForm toNumber (.error e) data owners execs c).TASKS
              = before ++ entity :: after
            ∧ entity.get "id" = some (.str id) ∧ entity.get "title" = data.get "title") := by
  refine ⟨createNewTaskFailed_tasks c, fun _ _ => rfl, ?_, ?_⟩
  · intro hid
    obtain ⟨entity, c1, hb, ht, htemp, htitle2⟩ :=
      saveFormBegin_new toNumber data owners execs c htitle hid
    exact ⟨entity, by rw [saveForm_of_begin hb, ht], htemp, htitle2⟩
  · intro id before cur after hid hne hl hcur hbefore
    obtain ⟨entity, c1, hb, ht, hid2, htitle2⟩ :=
      saveFormBegin_edit toNumber data owners execs c id before after cur htitle hid hne hl
        hcur hbefore
    exact ⟨entity, by rw [saveForm_of_begin hb, ht], hid2, htitle2⟩

/-- The collection is not the one held before the save handler ran: after a failing save of a
new task from the form `sampleClient` holds four entries and not three, and after a failing
save of an edit the entry `t_3` carries the title of the form. -/
theorem saveForm_error_not_reverted :
    ¬ SaveRevertsAsStated digitsToNumber newTaskForm [] [] sampleClient
      ∧ ¬ SaveRevertsAsStated digitsToNumber editTaskForm [] [] sampleClient := by
  constructor
  · intro h
    have h1 := congrArg List.length (h (.str "offline"))
    revert h1
    decide
  · intro h
    have h1 := congrArg (fun l => l.map fun t => Obj.get t "title") (h (.str "offline"))
    revert h1
    decide

/-- C24, evaluated on the code. The create call issued from the task form for a new task fails:
`persistTask` throws the error again, the save handler shows a notification, and `sampleClient`
holds four entries, the entity of the form at the front under a temporary id, followed by the
three entries held before; nothing removes that entry. The update issued from the form for an
edit of `t_3` fails: the entry `t_3` is the entity of the form, with the form's title, the
entries before it unchanged. In both cases the collection is not the one held before the save.
The `catch` branch of `createNewTask`, for every collection, does give back the collection held
before the call. -/
theorem saveForm_failure_keeps_entity :
    (∃ entity : Obj,
        (saveForm digitsToNumber (.error (.str "offline")) newTaskForm [] []
            sampleClient).TASKS = entity :: sampleClient.TASKS
          ∧ hasTempId entity = true ∧ entity.get "title" = some (.str "report"))
      ∧ (saveForm digitsToNumber (.error (.str "offline")) newTaskForm [] []
            sampleClient).TASKS.length = 4
      ∧ sampleClient.TASKS.length = 3
      ∧ (∃ entity : Obj,
          (saveForm digitsToNumber (.error (.str "offline")) editTaskForm [] []
              sampleClient).TASKS
            = [[("id", .str "t_new_1"), ("title", .str "draft"), ("version", .num 1),
                  ("updatedAt", .str "2023-01-01T00:00:00.000Z")],
                [("id", .str "t_2"), ("title", .str "gone"), ("version", .num 4),
                  ("updatedAt", .str "2023-01-02T00:00:00.000Z")]] ++ entity :: []
            ∧ entity.get "id" = some (.str "t_3")
            ∧ entity.get "title" = some (.str "edited"))
      ∧ (sampleClient.TASKS.map fun t => t.get "title")
          = [some (.str "draft"), some (.str "gone"), some (.str "old")]
      ∧ ¬ SaveRevertsAsStated digitsToNumber newTaskForm [] [] sampleClient
      ∧ ¬ SaveRevertsAsStated digitsToNumber editTaskForm [] [] sampleClient
      ∧ ∀ c : Client,
          (createNewTaskFailed (createNewTaskBegin c).1 (createNewTaskBegin c).2.2).TASKS
            = c.TASKS :=
  have hnew := saveForm_error digitsToNumber newTaskForm [] [] sampleClient (.str "offline")
    (by decide)
  have hedit := saveForm_error digitsToNumber editTaskForm [] [] sampleClient (.str "offline")
    (by decide)
  ⟨hnew.2.2.1 (by decide), by decide, by decide,
    hedit.2.2.2 "t_3" _ _ _ (by decide) (by decide) rfl (by decide) (by decide), by decide,
    saveForm_error_not_reverted.1, saveForm_error_not_reverted.2,
    createNewTaskFailed_tasks⟩

/-! ## C26: `loadTasks` without a task list -/

/-- The call `tasks.map(t => ensureTaskMeta(t))` throws when `null` follows records. -/
theorem ensureAll_null (records : List Obj) (rest : List JVal) (env : Env) :
    ∃ env1, ensureAll (records.map .obj ++ .null :: rest) env = some (.error .typeError, env1) := by
  induction records generalizing env with
  | nil => exact ⟨env, rfl⟩
  | cons o records ih =>
    obtain ⟨env1, h⟩ := ih (ensureTaskMeta o env).2
    refine ⟨env1, ?_⟩
    rw [List.map_cons, List.cons_append, ensureAll, h]

/-- C26 (amended): for every local collection, when the request of `loadTasks` fails the
collection is left as it is; when the request resolves with a value that is not an array, or
with an array in which `null` follows records, the collection is emptied; on every path the flag
`isDataLoading` is false when `loadTasks` finishes and nothing is thrown to the caller. -/
theorem loadTasks_without_list (c : Client) :
    (∀ e, loadTasks (.error e) c = some ⟨c, false, none⟩)
      ∧ (∀ v, isArray v = false → loadTasks (.ok v) c = some ⟨{ c with TASKS := [] }, false, none⟩)
      ∧ (∀ (records : List Obj) (rest : List JVal), ∃ r, loadTasks (.ok (.arr (records.map .obj ++ .null :: rest))) c = some r
          ∧ r.client.TASKS = [])
      ∧ ∀ outcome r, loadTasks outcome c = some r → r.isDataLoading = false ∧ r.thrown = none := by
  refine ⟨fun e => rfl, ?_, ?_, ?_⟩
  · intro v hv
    cases v with
    | arr items => simp [isArray] at hv
    | null => rfl
    | bool b => rfl
    | num n => rfl
    | str s => rfl
    | obj o => rfl
  · intro records rest
    obtain ⟨env1, h⟩ := ensureAll_null records rest c.env
    refine ⟨⟨{ TASKS := [], env := env1 }, false, none⟩, ?_, rfl⟩
    rw [loadTasks, h]
  · intro outcome r h
    cases outcome with
    | error e =>
      simp only [loadTasks, Option.some.injEq] at h
      rw [← h]
      exact ⟨rfl, rfl⟩
    | ok v =>
      cases v with
      | arr items =>
        simp only [loadTasks] at h
        cases he : ensureAll items c.env with
        | none => rw [he] at h; simp at h
        | some p =>
          obtain ⟨res, env⟩ := p
          rw [he] at h
          cases res with
          | ok ts =>
            simp only [Option.some.injEq] at h
            rw [← h]
            exact ⟨rfl, rfl⟩
          | error err =>
            simp only [Option.some.injEq] at h
            rw [← h]
            exact ⟨rfl, rfl⟩
      | null => simp only [loadTasks, Option.some.injEq] at h; rw [← h]; exact ⟨rfl, rfl⟩
      | bool b => simp only [loadTasks, Option.some.injEq] at h; rw [← h]; exact ⟨rfl, rfl⟩
      | num n => simp only [loadTasks, Option.some.injEq] at h; rw [← h]; exact ⟨rfl, rfl⟩
      | str s => simp only [loadTasks, Option.some.injEq] at h; rw [← h]; exact ⟨rfl, rfl⟩
      | obj o => simp only [loadTasks, Option.some.injEq] at h; rw [← h]; exact ⟨rfl, rfl⟩

/-- Witness of `loadTasks_without_list`: `sampleClient` after a failing request, after a
response that is an object, after a response that is an array holding `null`, and after a
response that is an array of one record. -/
theorem loadTasks_without_list_witness :
    loadTasks (.error (.str "offline")) sampleClient = some ⟨sampleClient, false, none⟩
      ∧ loadTasks (.ok (.obj [("error", .str "x")])) sampleClient
          = some ⟨{ sampleClient with TASKS := [] }, false, none⟩
      ∧ (∃ r, loadTasks (.ok (.arr ([recordWithId "t_1"].map .obj ++ .null :: []))) sampleClient
            = some r ∧ r.client.TASKS = [])
      ∧ ∃ r, loadTasks (.ok (.arr [.obj (recordWithId "t_1")])) sampleClient = some r
          ∧ r.client.TASKS = [recordWithId "t_1"] ∧ r.isDataLoading = false
          ∧ r.thrown = none :=
  have h := loadTasks_without_list sampleClient
  ⟨h.1 _, h.2.1 _ rfl, h.2.2.1 _ _,
    ⟨_, rfl, rfl, h.2.2.2 (.ok (.arr [.obj (recordWithId "t_1")])) _ rfl⟩⟩

/-- C26 as stated fails: the request resolves with an object that is not an array, and
`loadTasks` empties the three entries of `sampleClient`. -/
theorem loadTasks_without_list_counterexample : ¬ LoadKeepsAsStated sampleClient := by
  intro h
  obtain ⟨r, hr, ht, _⟩ := h (.ok (.obj [("error", .str "x")])) (by
    intro v hv
    injection hv with hv
    rw [← hv]
    rfl)
  have hr2 : some (⟨{ sampleClient with TASKS := [] }, false, none⟩ : LoadResult) = some r := hr
  injection hr2 with hr2
  rw [← hr2] at ht
  have h1 := congrArg List.length ht
  revert h1
  decide

/-! ## C27: storage failures -/

/-- On a storage that holds the file and whose writes succeed, `loadTasksOnDisk` returns what
`loadTasksWithMetadata` returns, and leaves the file `loadTasksWithMetadata` leaves. -/
theorem loadTasksOnDisk_reliable (tasks : List Obj) (env : Env) :
    (loadTasksOnDisk ⟨⟨.holds tasks, false⟩, env⟩).1 = (loadTasksWithMetadata ⟨tasks, env⟩).1
      ∧ (loadTasksOnDisk ⟨⟨.holds tasks, false⟩, env⟩).2.env
          = (loadTasksWithMetadata ⟨tasks, env⟩).2.env
      ∧ (loadTasksOnDisk ⟨⟨.holds tasks, false⟩, env⟩).2.disk
          = ⟨.holds (loadTasksWithMetadata ⟨tasks, env⟩).2.tasksFile, false⟩ := by
  rw [loadTasksWithMetadata_eq]
  unfold loadTasksOnDisk readDataFile
  simp only
  cases hn : normalizeAll ((tasks.map fun t => t.get "id").filter truthy) tasks env with
  | mk r e =>
    cases r with
    | error err => simp
    | ok p =>
      obtain ⟨normalized, changed⟩ := p
      by_cases hc : (changed || decide ((duplicateIndices normalized 0 []).length > 0)) = true
      · simp [hc, writeDataFile]
      · simp [hc]

/-- C27, evaluated on the code. On a storage whose writes fail, with the record of `sampleStore`
in the file: the create is answered 201 with the new record, the update 200 with the updated
record and the delete 200 with `success: true`, while the file holds what it held before. On a
task file that cannot be read, for another reason than its absence, the list is answered 200
with the empty array. No answer is 500. -/
theorem storage_failure_answered_as_success :
    (createOneOnDisk [("title", .str "B")] readOnlyServer).1.status = 201
      ∧ (createOneOnDisk [("title", .str "B")] readOnlyServer).2.disk = readOnlyServer.disk
      ∧ (updateOneOnDisk "t_1" [("title", .str "B")] readOnlyServer).1.status = 200
      ∧ (updateOneOnDisk "t_1" [("title", .str "B")] readOnlyServer).2.disk
          = readOnlyServer.disk
      ∧ (deleteOneOnDisk "t_1" readOnlyServer).1 = ⟨200, .obj [("success", .bool true)]⟩
      ∧ (deleteOneOnDisk "t_1" readOnlyServer).2.disk = readOnlyServer.disk
      ∧ (listAllOnDisk unreadableServer).1 = ⟨200, .arr []⟩
      ∧ (listAllOnDisk unreadableServer).2.disk = unreadableServer.disk := by
  decide

/-! ## C28: the hash of the task collection -/

/-- The hash reads the collection through its length and its first record only. -/
theorem tasksHash_of_head (first : Obj) (rest1 rest2 : List Obj)
    (h : rest1.length = rest2.length) : tasksHash (first :: rest1) = tasksHash (first :: rest2) := by
  simp [tasksHash, h]

theorem laterTime_self (a : Option Int) : laterTime a a = false := by
  cases a <;> simp [laterTime]

theorem hashOf_getVersion {s s1 : Server} {tasks : List Obj} (getTime : JVal → Option Int)
    (h : loadTasksWithMetadata s = (.ok tasks, s1)) :
    hashOf (getVersion getTime s).1 = some (.str (tasksHash tasks)) := by
  have ht : ∀ x y : JVal, Obj.get [("tasks", x), ("timestamp", y)] "tasks" = some x := by
    intro x y
    simp [Obj.get_cons]
  have hh : Obj.get (versionTasks getTime tasks) "hash" = some (.str (tasksHash tasks)) := by
    unfold versionTasks
    rw [Obj.get_append_single, if_pos rfl]
  unfold getVersion
  rw [h]
  simp only [hashOf, ht, hh]

/-- C28, evaluated on the code: the two tasks of `twoTaskStore` were last updated on 2023-01-01;
`updateOne` of the second task, with the server clock at 2023-11-14, answers 200 and stamps the
task with the time of the clock, so the collection has the same count and another latest
`updatedAt`; the hash of the collection, and the hash in the response of `getVersion`, are the
same before and after the update, since the hash is built from the count and the `updatedAt` of
the first task. The entry `lastUpdate` follows the later time. -/
theorem tasksHash_unchanged_by_update :
    (updateOne "t_2" [("title", .str "B")] twoTaskStore).1.status = 200
      ∧ ((updateOne "t_2" [("title", .str "B")] twoTaskStore).2.tasksFile.map
            fun t => t.get "updatedAt")
          = [some (.str "2023-01-01T00:00:00.000Z"), some (.str "2023-11-14T22:13:20.000Z")]
      ∧ (twoTaskStore.tasksFile.map fun t => t.get "updatedAt")
          = [some (.str "2023-01-01T00:00:00.000Z"), some (.str "2023-01-01T00:00:00.000Z")]
      ∧ tasksHash (updateOne "t_2" [("title", .str "B")] twoTaskStore).2.tasksFile
          = "2_2023-01-01T00:00:00.000Z"
      ∧ tasksHash twoTaskStore.tasksFile = "2_2023-01-01T00:00:00.000Z"
      ∧ (∀ getTime, hashOf (getVersion getTime twoTaskStore).1
          = hashOf (getVersion getTime
              (updateOne "t_2" [("title", .str "B")] twoTaskStore).2).1)
      ∧ (∀ getTime, lastUpdate getTime twoTaskStore.tasksFile
          = some (.str "2023-01-01T00:00:00.000Z"))
      ∧ (∀ getTime, lastUpdate getTime
            (updateOne "t_2" [("title", .str "B")] twoTaskStore).2.tasksFile
          = some (if laterTime (getTime (.str "2023-11-14T22:13:20.000Z"))
                (getTime (.str "2023-01-01T00:00:00.000Z"))
              then .str "2023-11-14T22:13:20.000Z" else .str "2023-01-01T00:00:00.000Z"))
      ∧ ∀ (first second other : Obj) (rest : List Obj),
          tasksHash (first :: second :: rest) = tasksHash (first :: other :: rest) := by
  have hfile : (updateOne "t_2" [("title", .str "B")] twoTaskStore).2.tasksFile
      = [recordWithId "t_1",
          [("id", .str "t_2"), ("version", .num 2),
            ("updatedAt", .str "2023-11-14T22:13:20.000Z"), ("title", .str "B")]] := by
    decide
  refine ⟨by decide, by decide, by decide, by decide, by decide, ?_, ?_, ?_, ?_⟩
  · intro getTime
    rw [@hashOf_getVersion twoTaskStore (loadTasksWithMetadata twoTaskStore).2
        twoTaskStore.tasksFile getTime rfl,
      @hashOf_getVersion (updateOne "t_2" [("title", .str "B")] twoTaskStore).2
        (loadTasksWithMetadata (updateOne "t_2" [("title", .str "B")] twoTaskStore).2).2
        (updateOne "t_2" [("title", .str "B")] twoTaskStore).2.tasksFile getTime rfl]
    decide
  · intro getTime
    simp [lastUpdate, twoTaskStore, recordWithId, orElse, truthy, Obj.get_cons, laterTime_self]
  · intro getTime
    rw [hfile]
    simp only [lastUpdate, List.foldl_cons, List.foldl_nil, laterTime_self, ite_self]
    have h1 : orElse (Obj.get [("id", JVal.str "t_2"), ("version", .num 2),
        ("updatedAt", .str "2023-11-14T22:13:20.000Z"), ("title", .str "B")] "updatedAt")
          (.num 0) = .str "2023-11-14T22:13:20.000Z" := by decide
    have h2 : orElse ((recordWithId "t_1").get "updatedAt") (.num 0)
        = .str "2023-01-01T00:00:00.000Z" := by decide
    rw [h1, h2]
    split
    · decide
    · decide
  · intro first second other rest
    exact tasksHash_of_head first _ _ rfl

/-! ## C30: the week of `isCompletedThisWeek` -/

theorem getDay_range (t : Int) : 0 ≤ getDay t ∧ getDay t < 7 := by
  unfold getDay
  omega

theorem weekFirst_div (now : Int) :
    weekFirst now / msPerDay = now / msPerDay - getDay now + 1 := by
  unfold weekFirst msPerDay
  omega

/-- The window of the code is the week of the specification, read one week later when the
clock stands on a Sunday. -/
theorem isCompletedThisWeek_eq (parse : JVal → Option Int) (now : Int) (task : Obj) :
    isCompletedThisWeek parse now task
      = completedInWeekOf parse (if getDay now = 0 then now + 7 * msPerDay else now) task := by
  have hfirst : weekFirst now
      = mondayOf (if getDay now = 0 then now + 7 * msPerDay else now) * msPerDay := by
    have hr := getDay_range now
    unfold weekFirst mondayOf
    congr 1
    by_cases h0 : getDay now = 0
    · rw [if_pos h0]
      unfold getDay msPerDay at *
      omega
    · rw [if_neg h0]
      unfold getDay msPerDay at *
      omega
  have hlast : weekLast now
      = (mondayOf (if getDay now = 0 then now + 7 * msPerDay else now) + 6) * msPerDay
          + 86399999 := by
    unfold weekLast
    rw [hfirst]
    congr 2
    unfold msPerDay
    omega
  unfold isCompletedThisWeek completedInWeekOf
  rw [hfirst, hlast]
  cases hs : strictEq (task.get "status") (some (.str "完成")) <;>
    cases hc : truthy (task.get "completeDate") <;> simp [ge_iff_le]

/-- C30, evaluated on the code: on Sunday 2023-11-19 at noon the date `first` is Monday
2023-11-20 at 00:00:00.000, after the reading of the clock, so the window does not contain the
current date; a task with the status `完成` completed at that very moment, inside the Monday to
Sunday week of 2023-11-13 to 2023-11-19, is not selected. For every reading of the clock and
every task the function selects by the week of the specification, taken one week later when the
clock stands on a Sunday. -/
theorem isCompletedThisWeek_on_sunday :
    getDay sundayNoon = 0
      ∧ weekFirst sundayNoon = 1700438400000
      ∧ weekLast sundayNoon = 1701043199999
      ∧ ¬ (weekFirst sundayNoon ≤ sundayNoon)
      ∧ mondayOf sundayNoon * msPerDay = 1699833600000
      ∧ isCompletedThisWeek dateOfNumber sundayNoon taskDoneOnSunday = false
      ∧ completedInWeekOf dateOfNumber sundayNoon taskDoneOnSunday = true
      ∧ ∀ (parse : JVal → Option Int) (now : Int) (task : Obj),
          isCompletedThisWeek parse now task
            = completedInWeekOf parse (if getDay now = 0 then now + 7 * msPerDay else now)
                task :=
  ⟨by decide, by decide, by decide, by decide, by decide, by decide, by decide,
    isCompletedThisWeek_eq⟩

/-! ## C29: the periodic sync merge, twice -/

theorem mapGet_str (entries : List Obj) (a : String) :
    mapGet entries (some (.str a)) = (entries.filter (idIs a)).getLast? := rfl

theorem idIs_of_get {a : String} {t : Obj} (h : t.get "id" = some (.str a)) :
    idIs a t = true := by
  unfold idIs
  rw [h]
  simp [refEq]

/-- The records with the id `a` after the iteration of the upsert loop for the server task with
that id: the task is added when the snapshot has no such record, it takes the place of the first
such record when its version is greater than the version of the last such record of the
snapshot, and nothing changes otherwise. -/
theorem filter_upsertStep_id (coerced : JVal → JVal → Bool) (localMap : List Obj) (c : Client)
    (a : String) (s : Obj) (hs : s.get "id" = some (.str a)) :
    (upsertStep coerced localMap c s).TASKS.filter (idIs a)
      = match (localMap.filter (idIs a)).getLast? with
        | none => c.TASKS.filter (idIs a) ++ [(ensureTaskMeta s c.env).1]
        | some localTask =>
          if jsGreater coerced (orZero (s.get "version")) (orZero (localTask.get "version"))
              = true then
            match c.TASKS.filter (idIs a) with
            | [] => []
            | _ :: later => (ensureTaskMeta s c.env).1 :: later
          else c.TASKS.filter (idIs a) := by
  have he : idIs a (ensureTaskMeta s c.env).1 = true :=
    idIs_of_get (by rw [ensureTaskMeta_get_id, hs])
  rcases upsertStep_cases coerced localMap c s with
    ⟨hm, h⟩ | ⟨lt, idx, hm, hg, hidx, h⟩ | ⟨lt, hm, hor, h⟩
  · rw [hs, mapGet_str] at hm
    rw [h, hm]
    simp [List.filter_append, he]
  · rw [hs, mapGet_str] at hm
    rw [hs] at hidx
    obtain ⟨before, cur, after, hl, hlen, hcur, hbefore⟩ := (findIndex_eq_some_iff _ _ _).1 hidx
    have hb : before.filter (idIs a) = [] := List.filter_eq_nil_iff.2 (fun t ht => by
      have := hbefore t ht
      simpa [idIs] using this)
    have hc : idIs a cur = true := hcur
    rw [h, hm]
    simp only [hg, if_true]
    rw [hl, ← hlen, set_append_length]
    simp [List.filter_append, List.filter_cons, hb, hc, he]
  · rw [hs, mapGet_str] at hm
    rw [h, hm]
    rcases hor with hg | hnone
    · simp only [hg, Bool.false_eq_true, if_false]
    · by_cases hg : jsGreater coerced (orZero (s.get "version")) (orZero (lt.get "version"))
          = true
      · rw [hs] at hnone
        have hnil : c.TASKS.filter (idIs a) = [] :=
          List.filter_eq_nil_iff.2 (fun t ht => by
            have := (findIndex_eq_none_iff _ _).1 hnone t ht
            simpa [idIs] using this)
        simp only [hg, if_true, hnil]
      · simp only [hg, Bool.false_eq_true, if_false]

/-- The records with the id `a` after the whole upsert loop, when exactly one server task
carries that id. -/
theorem filter_upsertAll_id (coerced : JVal → JVal → Bool) (localMap : List Obj) (c : Client)
    (a : String) (s : Obj) (before after : List Obj) (hs : s.get "id" = some (.str a))
    (hcomplete : isNumber (s.get "version") = true ∧ truthy (s.get "updatedAt") = true)
    (hbefore : ∀ t ∈ before, t.get "id" ≠ some (.str a))
    (hafter : ∀ t ∈ after, t.get "id" ≠ some (.str a)) :
    ((before ++ s :: after).foldl (upsertStep coerced localMap) c).TASKS.filter (idIs a)
      = match (localMap.filter (idIs a)).getLast? with
        | none => c.TASKS.filter (idIs a) ++ [s]
        | some localTask =>
          if jsGreater coerced (orZero (s.get "version")) (orZero (localTask.get "version"))
              = true then
            match c.TASKS.filter (idIs a) with
            | [] => []
            | _ :: later => s :: later
          else c.TASKS.filter (idIs a) := by
  have hother : ∀ l : List Obj, (∀ t ∈ l, t.get "id" ≠ some (.str a)) →
      ∀ t ∈ l, ∀ x : Obj, x.get "id" = t.get "id" → idIs a x = false := by
    intro l hl t ht x hx
    cases hi : idIs a x with
    | false => rfl
    | true =>
      have := refEq_eq hi
      rw [hx] at this
      exact absurd this (hl t ht)
  rw [List.foldl_append, List.foldl_cons,
    filter_upsertAll coerced localMap after _ (idIs a) (hother after hafter),
    filter_upsertStep_id coerced localMap _ a s hs,
    filter_upsertAll coerced localMap before c (idIs a) (hother before hbefore),
    ensureTaskMeta_of_complete hcomplete.1 hcomplete.2]

/-- After a merge, the iteration of the upsert loop for a server task, run on the merged
collection with the merged collection as snapshot, changes nothing: either the first record
with the id of the task is the task itself, or the version of the task is not greater than the
version of the last such record. -/
theorem upsertStep_fixed (coerced : JVal → JVal → Bool) (c : Client) (a : String) (s : Obj)
    (hs : s.get "id" = some (.str a))
    (hcomplete : isNumber (s.get "version") = true ∧ truthy (s.get "updatedAt") = true)
    (hne : c.TASKS.filter (idIs a) ≠ [])
    (hkey : ∀ last, (c.TASKS.filter (idIs a)).getLast? = some last →
      jsGreater coerced (orZero (s.get "version")) (orZero (last.get "version")) = true →
      (c.TASKS.filter (idIs a)).head? = some s) :
    upsertStep coerced c.TASKS c s = c := by
  rcases upsertStep_cases coerced c.TASKS c s with
    ⟨hm, _⟩ | ⟨lt, idx, hm, hg, hidx, h⟩ | ⟨_, _, _, h⟩
  · rw [hs, mapGet_str] at hm
    exact absurd (List.getLast?_eq_none_iff.1 hm) hne
  · rw [hs, mapGet_str] at hm
    rw [hs] at hidx
    have hhead := hkey lt hm hg
    obtain ⟨before, cur, after, hl, hlen, hcur, hbefore⟩ := (findIndex_eq_some_iff _ _ _).1 hidx
    have hb : before.filter (idIs a) = [] := List.filter_eq_nil_iff.2 (fun t ht => by
      have := hbefore t ht
      simpa [idIs] using this)
    have hc : idIs a cur = true := hcur
    have hcs : cur = s := by
      rw [hl] at hhead
      simpa [List.filter_append, List.filter_cons, hb, hc] using hhead
    rw [h, ensureTaskMeta_of_complete hcomplete.1 hcomplete.2]
    have hset : c.TASKS.set idx s = c.TASKS := by
      rw [hl, ← hlen, set_append_length, hcs]
    simp only [hset]
  · exact h

theorem foldl_fixed {α β : Type} (f : β → α → β) (l : List α) (b : β)
    (h : ∀ x ∈ l, f b x = b) : l.foldl f b = b := by
  induction l with
  | nil => rfl
  | cons x rest ih =>
    rw [List.foldl_cons, h x (List.mem_cons_self _ _)]
    exact ih (fun y hy => h y (List.mem_cons_of_mem _ hy))
/-- After the upsert loop every id is a string, if the ids of the local collection and of the
server list are. -/
theorem upsertAll_string_ids (coerced : JVal → JVal → Bool) (tasks : List Obj) (c : Client)
    (hlocalIds : ∀ t ∈ c.TASKS, hasStringId t = true)
    (hserverIds : ∀ t ∈ tasks, hasStringId t = true) :
    ∀ t ∈ (tasks.foldl (upsertStep coerced c.TASKS) c).TASKS,
      ∃ s, t.get "id" = some (.str s) := by
  intro t ht
  have hmem : t.get "id" ∈ idsOf (tasks.foldl (upsertStep coerced c.TASKS) c).TASKS :=
    List.mem_map_of_mem _ ht
  rw [mem_idsOf_upsertAll coerced c.TASKS tasks c
    (fun l hl => List.mem_map_of_mem _ hl)] at hmem
  rcases hmem with h | h
  · obtain ⟨u, hu, hid⟩ := List.mem_map.1 h
    obtain ⟨s, hs⟩ := (hasStringId_iff u).1 (hlocalIds u hu)
    exact ⟨s, by rw [← hid, hs]⟩
  · obtain ⟨u, hu, hid⟩ := List.mem_map.1 h
    obtain ⟨s, hs⟩ := (hasStringId_iff u).1 (hserverIds u hu)
    exact ⟨s, by rw [← hid, hs]⟩

/-- When every id is a string, the merge is the upsert loop followed by a filter. -/
theorem syncMerge_eq_filter (coerced : JVal → JVal → Bool) (tasks : List Obj) (c : Client)
    (hlocalIds : ∀ t ∈ c.TASKS, hasStringId t = true)
    (hserverIds : ∀ t ∈ tasks, hasStringId t = true) :
    syncMerge coerced tasks c
      = { TASKS := (tasks.foldl (upsertStep coerced c.TASKS) c).TASKS.filter
            (fun t => hasTempId t || mapHas tasks (t.get "id")),
          env := (tasks.foldl (upsertStep coerced c.TASKS) c).env } := by
  unfold syncMerge
  simp only [pruneDeleted_of_string_ids tasks _
    (upsertAll_string_ids coerced tasks c hlocalIds hserverIds)]

/-- The records with a given server id after the merge: the upsert loop decides them, the
removal loop keeps them. -/
theorem filter_syncMerge_id (coerced : JVal → JVal → Bool) (tasks : List Obj) (c : Client)
    (hlocalIds : ∀ t ∈ c.TASKS, hasStringId t = true)
    (hserverIds : ∀ t ∈ tasks, hasStringId t = true) (a : String)
    (ha : some (JVal.str a) ∈ idsOf tasks) :
    (syncMerge coerced tasks c).TASKS.filter (idIs a)
      = (tasks.foldl (upsertStep coerced c.TASKS) c).TASKS.filter (idIs a) := by
  rw [syncMerge_eq_filter coerced tasks c hlocalIds hserverIds]
  simp only [List.filter_filter]
  apply List.filter_congr
  intro t _
  cases hi : idIs a t with
  | false => rfl
  | true =>
    have hid : t.get "id" = some (.str a) := refEq_eq hi
    rw [hid, (mapHas_iff_mem tasks a).2 ha]
    simp

/-- C29 (amended): for every local collection whose ids are strings and every server list whose
ids are strings and pairwise distinct and whose records carry a numeric version and an
`updatedAt`, merging the same server list a second time leaves the local collection, and the
clock, exactly as the first merge left them. -/
theorem syncMerge_twice (coerced : JVal → JVal → Bool) (tasks : List Obj) (c : Client)
    (hlocalIds : ∀ t ∈ c.TASKS, hasStringId t = true)
    (hserver : ∀ s ∈ tasks, hasStringId s = true ∧ isNumber (s.get "version") = true
      ∧ truthy (s.get "updatedAt") = true)
    (hdistinct : (idsOf tasks).Nodup) :
    syncMerge coerced tasks (syncMerge coerced tasks c) = syncMerge coerced tasks c := by
  have hserverIds : ∀ t ∈ tasks, hasStringId t = true := fun t ht => (hserver t ht).1
  have hfirst := syncMerge_eq_filter coerced tasks c hlocalIds hserverIds
  have hmergedIds : ∀ t ∈ (syncMerge coerced tasks c).TASKS, hasStringId t = true := by
    intro t ht
    rw [hfirst] at ht
    exact (hasStringId_iff t).2
      (upsertAll_string_ids coerced tasks c hlocalIds hserverIds t (List.mem_of_mem_filter ht))
  have hfix : ∀ s ∈ tasks,
      upsertStep coerced (syncMerge coerced tasks c).TASKS (syncMerge coerced tasks c) s
        = syncMerge coerced tasks c := by
    intro s hs
    obtain ⟨a, ha⟩ := (hasStringId_iff s).1 (hserverIds s hs)
    obtain ⟨before, after, hsplit⟩ := List.append_of_mem hs
    have hnodup : (idsOf before ++ some (JVal.str a) :: idsOf after).Nodup := by
      have := hdistinct
      rw [hsplit] at this
      simpa [idsOf, ha] using this
    have hbefore : ∀ t ∈ before, t.get "id" ≠ some (.str a) := by
      intro t ht he
      exact (List.nodup_append.1 hnodup).2.2 (List.mem_map.2 ⟨t, ht, he⟩)
        (List.mem_cons_self _ _)
    have hafter : ∀ t ∈ after, t.get "id" ≠ some (.str a) := by
      intro t ht he
      exact (List.nodup_cons.1 (List.nodup_append.1 hnodup).2.1).1 (List.mem_map.2 ⟨t, ht, he⟩)
    have hfilter : (syncMerge coerced tasks c).TASKS.filter (idIs a)
        = match (c.TASKS.filter (idIs a)).getLast? with
          | none => c.TASKS.filter (idIs a) ++ [s]
          | some localTask =>
            if jsGreater coerced (orZero (s.get "version")) (orZero (localTask.get "version"))
                = true then
              match c.TASKS.filter (idIs a) with
              | [] => []
              | _ :: later => s :: later
            else c.TASKS.filter (idIs a) := by
      rw [filter_syncMerge_id coerced tasks c hlocalIds hserverIds a
        (List.mem_map.2 ⟨s, hs, ha⟩)]
      conv_lhs => rw [hsplit]
      exact filter_upsertAll_id coerced c.TASKS c a s before after ha (hserver s hs).2 hbefore
        hafter
    apply upsertStep_fixed coerced _ a s ha (hserver s hs).2
    · rw [hfilter]
      cases hl : c.TASKS.filter (idIs a) with
      | nil => simp
      | cons first later =>
        cases hlast : (first :: later).getLast? with
        | none => simp at hlast
        | some localTask =>
          simp only
          split
          · simp
          · simp
    · intro last hlast hgreater
      rw [hfilter] at hlast ⊢
      cases hl : c.TASKS.filter (idIs a) with
      | nil => simp
      | cons first later =>
        rw [hl] at hlast
        cases hm : (first :: later).getLast? with
        | none => simp at hm
        | some localTask =>
          rw [hm] at hlast
          simp only at hlast ⊢
          by_cases hg : jsGreater coerced (orZero (s.get "version"))
              (orZero (localTask.get "version")) = true
          · simp [hg]
          · rw [if_neg hg, hm] at hlast
            rw [Option.some.inj hlast] at hg
            exact absurd hgreater hg
  have hfold : tasks.foldl (upsertStep coerced (syncMerge coerced tasks c).TASKS)
      (syncMerge coerced tasks c) = syncMerge coerced tasks c :=
    foldl_fixed _ _ _ hfix
  rw [syncMerge_eq_filter coerced tasks (syncMerge coerced tasks c) hmergedIds hserverIds, hfold]
  conv_rhs => rw [hfirst]
  conv_lhs => rw [hfirst]
  simp only [List.filter_filter, Bool.and_self]
/-- Witness of `syncMerge_twice`: `sampleServerList` merged twice into `sampleClient`. -/
theorem syncMerge_twice_witness :
    (∀ t ∈ sampleClient.TASKS, hasStringId t = true)
      ∧ (∀ s ∈ sampleServerList, hasStringId s = true ∧ isNumber (s.get "version") = true
          ∧ truthy (s.get "updatedAt") = true)
      ∧ (idsOf sampleServerList).Nodup
      ∧ syncMerge noCoercion sampleServerList (syncMerge noCoercion sampleServerList sampleClient)
          = syncMerge noCoercion sampleServerList sampleClient :=
  ⟨by decide, by decide, by decide,
    syncMerge_twice noCoercion sampleServerList sampleClient (by decide) (by decide)
      (by decide)⟩

/-- C29 as stated fails: the server list holds the id `t_1` twice, at version 5 and at version
3, and the local collection holds it at version 1. The first merge ends with the record of
version 3, since both server records are compared with the snapshot taken before the loop; the
second merge replaces it by the record of version 5. -/
theorem syncMerge_twice_counterexample :
    ¬ SyncIdempotentAsStated noCoercion serverListTwice clientVersionOne := by
  intro h
  have h1 := congrArg (fun l => l.map fun t => Obj.get t "version")
    (h (by decide) (by decide))
  revert h1
  decide

end WorkSchedule
